import Mathlib

/-!
# Packet-I/O device table (platform/linux-generic/odp_packet_io.c)

A shallow embedding of the device table of `odp_packet_io.c`: the slot state
machine, name lookup, slot allocation, the driver probe loop of
`setup_pktio_entry`, and the start / stop / close / finalize transitions.

Conventions of the embedding

* The table `pktio_tbl->entries` is a list of slots; its length plays the role
  of `ODP_CONFIG_PKTIO_ENTRIES`, and the arrays `in_queue` / `out_queue` of a
  slot are lists whose length plays the role of `PKTIO_MAX_QUEUES`.
* `entry->s.ops` points into the static table `pktio_if_ops`; the pointer is
  represented by the index of the driver in that table (`none` is `NULL`).
* A driver operation receives the slot and returns its `int` result together
  with the new contents of the slot's driver-private storage (`pkt_priv`); by
  the plugin contract it touches nothing else in the slot. (A driver's `open`
  that also stores the name it is asked to claim, as `netmap_open` does, writes
  what `setup_pktio_entry` writes on success.)
* Functions that can abort (`ODP_ABORT`) or dereference a `NULL` driver pointer
  return `Option`: `none` means that the call does not return.
* The locks (`lock_entry`, the table spinlock) are not represented: the
  embedding is the single-threaded semantics.
* `trace` is a ghost log: every driver operation invoked and every assignment
  to `entry->s.state` appends one event, oldest first.
-/

/-- The slot states `PKTIO_STATE_*` used by `odp_packet_io.c`. -/
inductive PktioState
  | PKTIO_STATE_FREE
  | PKTIO_STATE_CLOSE_PENDING
  | PKTIO_STATE_ACTIVE
  | PKTIO_STATE_OPENED
  | PKTIO_STATE_STARTED
  | PKTIO_STATE_STOP_PENDING
  | PKTIO_STATE_STOPPED
  deriving DecidableEq, Repr

open PktioState

/-- Modelled from the spec: the enumerator values of the slot state. The enum is
declared in `odp_packet_io_internal.h`, which is not among the sources. The
values follow its declaration order: `PKTIO_STATE_FREE` is the zero value (the
table is cleared with `memset` in `odp_pktio_init_global`), and
`PKTIO_STATE_CLOSE_PENDING` sits below the marker `PKTIO_STATE_ACTIVE`: the
scheduler poll returns `-1` for `state < PKTIO_STATE_ACTIVE ||
state == PKTIO_STATE_STOP_PENDING`, which the specification describes as a slot
that "has gone inactive or into STOP_PENDING", and a closed slot waiting for
the scheduler has to be inactive in that sense. So `state >= PKTIO_STATE_ACTIVE`
holds exactly for ACTIVE, OPENED, STARTED, STOP_PENDING and STOPPED. -/
def PktioState.toNat : PktioState → Nat
  | PKTIO_STATE_FREE => 0
  | PKTIO_STATE_CLOSE_PENDING => 1
  | PKTIO_STATE_ACTIVE => 2
  | PKTIO_STATE_OPENED => 3
  | PKTIO_STATE_STARTED => 4
  | PKTIO_STATE_STOP_PENDING => 5
  | PKTIO_STATE_STOPPED => 6

/-- Device handle `odp_pktio_t`: the slot index plus one. -/
abbrev odp_pktio_t := Nat

/-- The invalid handle: zero. -/
def ODP_PKTIO_INVALID : odp_pktio_t := 0

/-- Input modes `odp_pktin_mode_t`. -/
inductive odp_pktin_mode_t
  | ODP_PKTIN_MODE_DIRECT
  | ODP_PKTIN_MODE_QUEUE
  | ODP_PKTIN_MODE_SCHED
  | ODP_PKTIN_MODE_DISABLED
  deriving DecidableEq, Repr

/-- Output modes `odp_pktout_mode_t`. -/
inductive odp_pktout_mode_t
  | ODP_PKTOUT_MODE_DIRECT
  | ODP_PKTOUT_MODE_QUEUE
  | ODP_PKTOUT_MODE_TM
  | ODP_PKTOUT_MODE_DISABLED
  deriving DecidableEq, Repr

open odp_pktin_mode_t odp_pktout_mode_t

/-- Open parameters `odp_pktio_param_t`. -/
structure odp_pktio_param_t where
  in_mode : odp_pktin_mode_t
  out_mode : odp_pktout_mode_t
  deriving DecidableEq, Repr

/-- The defaults written by `odp_pktio_param_init`. -/
def odp_pktio_param_init : odp_pktio_param_t :=
  { in_mode := ODP_PKTIN_MODE_DIRECT, out_mode := ODP_PKTOUT_MODE_DIRECT }

/-- The configuration `odp_pktio_config_t`: feature bit sets, loopback flag and
parser layer. -/
structure odp_pktio_config_t where
  pktin_all_bits : Nat
  pktout_all_bits : Nat
  enable_loop : Bool
  parser_layer : Nat
  deriving DecidableEq, Repr

/-- The value of `ODP_PROTO_LAYER_ALL` is left symbolic: the all-layers tag. -/
def ODP_PROTO_LAYER_ALL : Nat := 0

/-- The defaults written by `odp_pktio_config_init`: all zero, parser layer ALL. -/
def odp_pktio_config_init : odp_pktio_config_t :=
  { pktin_all_bits := 0, pktout_all_bits := 0, enable_loop := false,
    parser_layer := ODP_PROTO_LAYER_ALL }

/-- A direct-poll handle `odp_pktin_queue_t`: device handle and queue index. -/
structure odp_pktin_queue_t where
  pktio : odp_pktio_t
  index : Nat
  deriving DecidableEq, Repr

/-- A direct-send handle `odp_pktout_queue_t`. -/
structure odp_pktout_queue_t where
  pktio : odp_pktio_t
  index : Nat
  deriving DecidableEq, Repr

/-- The invalid direct-poll handle `PKTIN_INVALID`: it names the invalid device. -/
def PKTIN_INVALID : odp_pktin_queue_t := { pktio := ODP_PKTIO_INVALID, index := 0 }

/-- The invalid direct-send handle `PKTOUT_INVALID`. -/
def PKTOUT_INVALID : odp_pktout_queue_t := { pktio := ODP_PKTIO_INVALID, index := 0 }

/-- One element of `entry->s.in_queue[]`. An event queue handle is a number;
`none` stands for `ODP_QUEUE_INVALID` (resp. `QUEUE_NULL`). -/
structure in_queue_t where
  queue : Option Nat
  queue_int : Option Nat
  pktin : odp_pktin_queue_t
  deriving DecidableEq, Repr

/-- One element of `entry->s.out_queue[]`. -/
structure out_queue_t where
  queue : Option Nat
  pktout : odp_pktout_queue_t
  deriving DecidableEq, Repr

/-- Packet metadata as far as the device table reads it: an identity, the
classifier flag `p.input_flags.dst_queue` and the destination queue. -/
structure odp_packet_hdr_t where
  id : Nat
  dst_queue_flag : Bool
  dst_queue : Nat
  deriving DecidableEq, Repr

/-- A device slot `pktio_entry_t` (the fields of `entry->s` that the device
table reads or writes). -/
structure pktio_entry_t where
  state : PktioState
  name : List Char
  ops : Option Nat
  pool : Nat
  param : odp_pktio_param_t
  handle : odp_pktio_t
  config : odp_pktio_config_t
  cls_enabled : Bool
  num_in_queue : Nat
  num_out_queue : Nat
  in_queue : List in_queue_t
  out_queue : List out_queue_t
  in_discards : Nat
  pkt_priv : Nat
  deriving DecidableEq, Repr

/-- The capability structure `odp_pktio_capability_t`: queue limits, the
settable promiscuous mode flag, and the supported configuration. -/
structure odp_pktio_capability_t where
  max_input_queues : Nat
  max_output_queues : Nat
  set_op_promisc_mode : Bool
  config : odp_pktio_config_t
  deriving DecidableEq, Repr

/-- Input queue parameters `odp_pktin_queue_param_t`. -/
structure odp_pktin_queue_param_t where
  op_mode : Nat
  classifier_enable : Bool
  num_queues : Nat
  queue_param : Nat
  deriving DecidableEq, Repr

/-- Output queue parameters `odp_pktout_queue_param_t`. -/
structure odp_pktout_queue_param_t where
  op_mode : Nat
  num_queues : Nat
  deriving DecidableEq, Repr

/-- The driver vtable `pktio_if_ops_t`. `open_` and `close` and `recv` are
mandatory, the other operations may be absent (`NULL`). Every operation returns
its `int` result and the new driver-private storage of the slot; `capability`
also returns the capability structure it fills, `recv` and `recv_tmo` the
packets they deliver. -/
structure pktio_if_ops_t where
  open_ : odp_pktio_t → pktio_entry_t → List Char → Nat → Int × Nat
  close : pktio_entry_t → Int × Nat
  start : Option (pktio_entry_t → Int × Nat)
  stop : Option (pktio_entry_t → Int × Nat)
  recv : pktio_entry_t → Nat → Nat → Int × List odp_packet_hdr_t × Nat
  term : Option Int
  capability : Option (pktio_entry_t → Int × odp_pktio_capability_t × Nat) := none
  config : Option (pktio_entry_t → odp_pktio_config_t → Int × Nat) := none
  input_queues_config :
    Option (pktio_entry_t → odp_pktin_queue_param_t → Int × Nat) := none
  output_queues_config :
    Option (pktio_entry_t → odp_pktout_queue_param_t → Int × Nat) := none
  recv_tmo :
    Option (pktio_entry_t → Nat → Nat → Nat → Int × List odp_packet_hdr_t × Nat) := none

/-- Ghost events: a driver operation invoked (with the index of the driver in
`pktio_if_ops` and the value it returned), the scheduler notification of
`odp_pktio_start`, an assignment to `entry->s.state`, an enqueue of a packet to
an event queue (queue, packet identity, result), a packet freed, a reading of
the clock and a sleep. -/
inductive pktio_event
  | drv_open (pktio_if : Nat) (ret : Int)
  | drv_close (pktio_if : Nat) (ret : Int)
  | drv_start (pktio_if : Nat) (ret : Int)
  | drv_stop (pktio_if : Nat) (ret : Int)
  | drv_recv (pktio_if : Nat) (index : Nat) (ret : Int)
  | drv_term (pktio_if : Nat) (ret : Int)
  | sched_pktio_start (pktio_index : Nat) (num : Nat)
  | set_state (old new : PktioState)
  | drv_capability (pktio_if : Nat) (ret : Int)
  | drv_config (pktio_if : Nat) (ret : Int)
  | drv_input_queues_config (pktio_if : Nat) (ret : Int)
  | drv_output_queues_config (pktio_if : Nat) (ret : Int)
  | drv_recv_tmo (pktio_if : Nat) (index : Nat) (wait : Nat) (ret : Int)
  | queue_enq (queue : Nat) (pkt : Nat) (ret : Int)
  | packet_free (pkt : Nat)
  | time_local (t : Nat)
  | nanosleep (nsec : Nat)
  deriving DecidableEq, Repr

/-- The device table `pktio_table_t` with the ghost log. -/
structure pktio_table_t where
  entries : List pktio_entry_t
  trace : List pktio_event
  deriving DecidableEq, Repr

/-- Modelled from the spec: `get_pktio_entry` of `odp_packet_io_internal.h` (not
among the sources). A handle is the slot index plus one and zero is INVALID:
the invalid handle and a handle beyond the table give `NULL`. -/
def get_pktio_entry (t : pktio_table_t) (hdl : odp_pktio_t) : Option pktio_entry_t :=
  if hdl = ODP_PKTIO_INVALID then none else t.entries[hdl - 1]?

/-- Modelled from the spec: `_odp_pktio_index`, the slot index of a handle. -/
def _odp_pktio_index (hdl : odp_pktio_t) : Nat := hdl - 1

/-- Store a slot back into the table (writes through the entry pointer). -/
def put_pktio_entry (t : pktio_table_t) (hdl : odp_pktio_t) (e : pktio_entry_t)
    (evs : List pktio_event) : pktio_table_t :=
  { entries := t.entries.set (hdl - 1) e, trace := t.trace ++ evs }

/-- The test `is_free`. -/
def is_free (entry : pktio_entry_t) : Bool :=
  entry.state == PKTIO_STATE_FREE

/-- `init_in_queues`: every element of `in_queue[]` becomes invalid. -/
def init_in_queues (entry : pktio_entry_t) : pktio_entry_t :=
  let invalid : in_queue_t := { queue := none, queue_int := none, pktin := PKTIN_INVALID }
  { entry with in_queue := entry.in_queue.map (fun _ => invalid) }

/-- `init_out_queues`: every element of `out_queue[]` becomes invalid. -/
def init_out_queues (entry : pktio_entry_t) : pktio_entry_t :=
  let invalid : out_queue_t := { queue := none, pktout := PKTOUT_INVALID }
  { entry with out_queue := entry.out_queue.map (fun _ => invalid) }

/-- `init_pktio_entry`: classifier off, queue arrays invalid. (The classifier
tables reset by `pktio_classifier_init` are outside the embedding.) -/
def init_pktio_entry (entry : pktio_entry_t) : pktio_entry_t :=
  init_out_queues (init_in_queues { entry with cls_enabled := false })

/-- The scan of `alloc_lock_pktio_entry`: the index of the first FREE slot,
counting from `i`. -/
def alloc_scan : List pktio_entry_t → Nat → Option Nat
  | [], _ => none
  | entry :: rest, i => if is_free entry then some i else alloc_scan rest (i + 1)

/-- `alloc_lock_pktio_entry`: the first FREE slot becomes ACTIVE and is
initialised; the handle is its index plus one, or INVALID when no slot is
FREE. -/
def alloc_lock_pktio_entry (t : pktio_table_t) : odp_pktio_t × pktio_table_t :=
  match alloc_scan t.entries 0 with
  | none => (ODP_PKTIO_INVALID, t)
  | some i =>
    match t.entries[i]? with
    | none => (ODP_PKTIO_INVALID, t)
    | some entry =>
      (i + 1, put_pktio_entry t (i + 1)
        (init_pktio_entry { entry with state := PKTIO_STATE_ACTIVE })
        [pktio_event.set_state entry.state PKTIO_STATE_ACTIVE])

/-- The probe loop of `setup_pktio_entry`: try each driver's `open` in table
order, starting at index `pktio_if` with the previous result `ret`, and stop at
the first that returns 0. Result: the last `ret`, the index at which the loop
stopped, the slot, and the `open` calls made. -/
def open_loop (hdl : odp_pktio_t) (name : List Char) (pool : Nat) :
    List pktio_if_ops_t → Nat → Int → pktio_entry_t →
    Int × Nat × pktio_entry_t × List pktio_event
  | [], pktio_if, ret, entry => (ret, pktio_if, entry, [])
  | d :: rest, pktio_if, _, entry =>
    let r := d.open_ hdl entry name pool
    let entry1 := { entry with pkt_priv := r.2 }
    if r.1 = 0 then (r.1, pktio_if, entry1, [pktio_event.drv_open pktio_if r.1])
    else
      let res := open_loop hdl name pool rest (pktio_if + 1) r.1 entry1
      (res.1, res.2.1, res.2.2.1, pktio_event.drv_open pktio_if r.1 :: res.2.2.2)

/-- `snprintf(dst, size, "%s", src)`: at most `size - 1` characters are kept. -/
def snprintf_s (size : Nat) (src : List Char) : List Char := src.take (size - 1)

/-- `strncmp(a, b, n) == 0`: the strings agree on their first `n` characters. -/
def strncmp_eq (a b : List Char) (n : Nat) : Bool := a.take n == b.take n

/-- `setup_pktio_entry`. `PKTIO_NAME_LEN` is the size of the name field (an array
size, so at least 1). -/
def setup_pktio_entry (PKTIO_NAME_LEN : Nat) (pktio_if_ops : List pktio_if_ops_t)
    (t : pktio_table_t) (name : List Char) (pool : Nat) (param : odp_pktio_param_t) :
    odp_pktio_t × pktio_table_t :=
  if name.length ≥ PKTIO_NAME_LEN - 1 then (ODP_PKTIO_INVALID, t)
  else
    let a := alloc_lock_pktio_entry t
    if a.1 = ODP_PKTIO_INVALID then (ODP_PKTIO_INVALID, t)
    else
      match get_pktio_entry a.2 a.1 with
      | none => (ODP_PKTIO_INVALID, a.2)
      | some pktio_entry =>
        let entry1 := { pktio_entry with
          pool := pool, param := param, handle := a.1, config := odp_pktio_config_init }
        let res := open_loop a.1 name pool pktio_if_ops 0 (-1) entry1
        if res.1 ≠ 0 then
          (ODP_PKTIO_INVALID, put_pktio_entry a.2 a.1
            { res.2.2.1 with state := PKTIO_STATE_FREE }
            (res.2.2.2 ++ [pktio_event.set_state res.2.2.1.state PKTIO_STATE_FREE]))
        else
          (a.1, put_pktio_entry a.2 a.1
            { res.2.2.1 with
              name := snprintf_s PKTIO_NAME_LEN name,
              state := PKTIO_STATE_OPENED,
              ops := some res.2.1 }
            (res.2.2.2 ++ [pktio_event.set_state res.2.2.1.state PKTIO_STATE_OPENED]))

/-- The scan of `odp_pktio_lookup` from slot `i`: the handle of the first slot
that is not FREE, has `state >= PKTIO_STATE_ACTIVE` and whose name compares
equal under `strncmp(.., .., sizeof(name))`. -/
def lookup_scan (PKTIO_NAME_LEN : Nat) (name : List Char) :
    List pktio_entry_t → Nat → odp_pktio_t
  | [], _ => ODP_PKTIO_INVALID
  | entry :: rest, i =>
    if is_free entry then lookup_scan PKTIO_NAME_LEN name rest (i + 1)
    else if entry.state.toNat ≥ PKTIO_STATE_ACTIVE.toNat ∧
        strncmp_eq entry.name name PKTIO_NAME_LEN = true then i + 1
    else lookup_scan PKTIO_NAME_LEN name rest (i + 1)

/-- `odp_pktio_lookup`. -/
def odp_pktio_lookup (PKTIO_NAME_LEN : Nat) (t : pktio_table_t) (name : List Char) :
    odp_pktio_t :=
  lookup_scan PKTIO_NAME_LEN name t.entries 0

/-- `odp_pktio_open`; `param = none` is the `NULL` parameter pointer. (The
`ODP_ASSERT` on the pool type is a debug-build check and is not represented.) -/
def odp_pktio_open (PKTIO_NAME_LEN : Nat) (pktio_if_ops : List pktio_if_ops_t)
    (t : pktio_table_t) (name : List Char) (pool : Nat)
    (param : Option odp_pktio_param_t) : odp_pktio_t × pktio_table_t :=
  let param1 := match param with
    | none => odp_pktio_param_init
    | some p => p
  if odp_pktio_lookup PKTIO_NAME_LEN t name ≠ ODP_PKTIO_INVALID then (ODP_PKTIO_INVALID, t)
  else setup_pktio_entry PKTIO_NAME_LEN pktio_if_ops t name pool param1

/-- Dereference `entry->s.ops`: the driver the slot is bound to, with its index
in `pktio_if_ops`; `none` for a `NULL` pointer. -/
def entry_ops (pktio_if_ops : List pktio_if_ops_t) (entry : pktio_entry_t) :
    Option (Nat × pktio_if_ops_t) :=
  match entry.ops with
  | none => none
  | some k =>
    match pktio_if_ops[k]? with
    | none => none
    | some d => some (k, d)

/-- The scheduled-mode check of `odp_pktio_start`: some input queue among the
first `num_in_queue` is `ODP_QUEUE_INVALID`. -/
def sched_queue_missing (entry : pktio_entry_t) : Bool :=
  (entry.in_queue.take entry.num_in_queue).any (fun q => q.queue == none)

/-- `odp_pktio_start`. -/
def odp_pktio_start (pktio_if_ops : List pktio_if_ops_t) (t : pktio_table_t)
    (hdl : odp_pktio_t) : Option (Int × pktio_table_t) :=
  match get_pktio_entry t hdl with
  | none => some (-1, t)
  | some entry =>
    if entry.state = PKTIO_STATE_STARTED then some (-1, t)
    else
      match entry_ops pktio_if_ops entry with
      | none => none
      | some (k, d) =>
        let called : Int × pktio_entry_t × List pktio_event :=
          match d.start with
          | none => (0, entry, [])
          | some f => ((f entry).1, { entry with pkt_priv := (f entry).2 },
                        [pktio_event.drv_start k (f entry).1])
        let res := called.1
        let entry1 := called.2.1
        let stored : pktio_entry_t × List pktio_event :=
          if res = 0 then
            ({ entry1 with state := PKTIO_STATE_STARTED },
              called.2.2 ++ [pktio_event.set_state entry1.state PKTIO_STATE_STARTED])
          else (entry1, called.2.2)
        let entry2 := stored.1
        if entry2.param.in_mode = ODP_PKTIN_MODE_SCHED then
          if sched_queue_missing entry2 then
            some (-1, put_pktio_entry t hdl entry2 stored.2)
          else
            some (res, put_pktio_entry t hdl entry2
              (stored.2 ++ [pktio_event.sched_pktio_start (_odp_pktio_index hdl)
                entry2.num_in_queue]))
        else some (res, put_pktio_entry t hdl entry2 stored.2)

/-- `_pktio_stop` on one slot: result, slot and events. -/
def _pktio_stop (pktio_if_ops : List pktio_if_ops_t) (entry : pktio_entry_t) :
    Option (Int × pktio_entry_t × List pktio_event) :=
  let mode := entry.param.in_mode
  if entry.state ≠ PKTIO_STATE_STARTED then some (-1, entry, [])
  else
    match entry_ops pktio_if_ops entry with
    | none => none
    | some (k, d) =>
      let called : Int × pktio_entry_t × List pktio_event :=
        match d.stop with
        | none => (0, entry, [])
        | some f => ((f entry).1, { entry with pkt_priv := (f entry).2 },
                      [pktio_event.drv_stop k (f entry).1])
      let res := called.1
      let entry1 := called.2.1
      if res ≠ 0 then some (-1, entry1, called.2.2)
      else if mode = ODP_PKTIN_MODE_SCHED then
        some (res, { entry1 with state := PKTIO_STATE_STOP_PENDING },
          called.2.2 ++ [pktio_event.set_state entry1.state PKTIO_STATE_STOP_PENDING])
      else
        some (res, { entry1 with state := PKTIO_STATE_STOPPED },
          called.2.2 ++ [pktio_event.set_state entry1.state PKTIO_STATE_STOPPED])

/-- `odp_pktio_stop`. -/
def odp_pktio_stop (pktio_if_ops : List pktio_if_ops_t) (t : pktio_table_t)
    (hdl : odp_pktio_t) : Option (Int × pktio_table_t) :=
  match get_pktio_entry t hdl with
  | none => some (-1, t)
  | some entry =>
    match _pktio_stop pktio_if_ops entry with
    | none => none
    | some res => some (res.1, put_pktio_entry t hdl res.2.1 res.2.2)

/-- `_pktio_close` on one slot: result, slot and events. -/
def _pktio_close (pktio_if_ops : List pktio_if_ops_t) (entry : pktio_entry_t) :
    Option (Int × pktio_entry_t × List pktio_event) :=
  let state := entry.state
  if state ≠ PKTIO_STATE_OPENED ∧ state ≠ PKTIO_STATE_STOPPED ∧
      state ≠ PKTIO_STATE_STOP_PENDING then some (-1, entry, [])
  else
    match entry_ops pktio_if_ops entry with
    | none => none
    | some (k, d) =>
      let ret := (d.close entry).1
      let entry1 := { entry with pkt_priv := (d.close entry).2 }
      if ret ≠ 0 then some (-1, entry1, [pktio_event.drv_close k ret])
      else if state = PKTIO_STATE_STOP_PENDING then
        some (0, { entry1 with state := PKTIO_STATE_CLOSE_PENDING },
          [pktio_event.drv_close k ret,
           pktio_event.set_state entry1.state PKTIO_STATE_CLOSE_PENDING])
      else
        some (0, { entry1 with state := PKTIO_STATE_FREE },
          [pktio_event.drv_close k ret,
           pktio_event.set_state entry1.state PKTIO_STATE_FREE])

/-- `destroy_in_queues`: the first `num` input queues that hold an event queue
lose it. (The `odp_queue_destroy` call itself belongs to the queue subsystem.) -/
def destroy_in_queues (entry : pktio_entry_t) (num : Nat) : pktio_entry_t :=
  { entry with in_queue :=
      (entry.in_queue.take num).map (fun q =>
        if q.queue ≠ none then { q with queue := none, queue_int := none } else q)
      ++ entry.in_queue.drop num }

/-- `destroy_out_queues`: the first `num` output queues lose their event queue. -/
def destroy_out_queues (entry : pktio_entry_t) (num : Nat) : pktio_entry_t :=
  { entry with out_queue :=
      (entry.out_queue.take num).map (fun q =>
        if q.queue ≠ none then { q with queue := none } else q)
      ++ entry.out_queue.drop num }

/-- `odp_pktin_recv`: the driver of the device named by the queue handle
receives; `-1` for a handle without a slot. -/
def odp_pktin_recv (pktio_if_ops : List pktio_if_ops_t) (t : pktio_table_t)
    (queue : odp_pktin_queue_t) (num : Nat) :
    Option (Int × List odp_packet_hdr_t × pktio_table_t) :=
  match get_pktio_entry t queue.pktio with
  | none => some (-1, [], t)
  | some entry =>
    match entry_ops pktio_if_ops entry with
    | none => none
    | some (k, d) =>
      let r := d.recv entry queue.index num
      some (r.1, r.2.1, put_pktio_entry t queue.pktio { entry with pkt_priv := r.2.2 }
        [pktio_event.drv_recv k queue.index r.1])

/-- The inner `while` loop of `flush_in_queues` on one input queue: receive
batches of 16 and free them until `recv` returns 0 (`true`: go on with the next
queue) or a negative value (`false`: the flush returns). `fuel` bounds the
number of rounds; `none` when it is used up or the call does not return. -/
def flush_queue (pktio_if_ops : List pktio_if_ops_t) (pktin : odp_pktin_queue_t) :
    Nat → pktio_table_t → Option (Bool × pktio_table_t)
  | 0, _ => none
  | fuel + 1, t =>
    match odp_pktin_recv pktio_if_ops t pktin 16 with
    | none => none
    | some r =>
      if r.1 = 0 then some (true, r.2.2)
      else if r.1 < 0 then some (false, r.2.2)
      else flush_queue pktio_if_ops pktin fuel r.2.2

/-- The `for` loop of `flush_in_queues` over the direct-poll handles. -/
def flush_queues (pktio_if_ops : List pktio_if_ops_t) (fuel : Nat) :
    List odp_pktin_queue_t → pktio_table_t → Option pktio_table_t
  | [], t => some t
  | pktin :: rest, t =>
    match flush_queue pktio_if_ops pktin fuel t with
    | none => none
    | some (true, t1) => flush_queues pktio_if_ops fuel rest t1
    | some (false, t1) => some t1

/-- `flush_in_queues`: in direct mode, drain each of the `num_in_queue` input
queues. -/
def flush_in_queues (pktio_if_ops : List pktio_if_ops_t) (fuel : Nat)
    (t : pktio_table_t) (entry : pktio_entry_t) : Option pktio_table_t :=
  if entry.param.in_mode = ODP_PKTIN_MODE_DIRECT then
    flush_queues pktio_if_ops fuel
      ((entry.in_queue.take entry.num_in_queue).map (fun q => q.pktin)) t
  else some t

/-- `odp_pktio_close`. `ODP_ABORT` (when `_pktio_close` fails) is `none`. -/
def odp_pktio_close (pktio_if_ops : List pktio_if_ops_t) (fuel : Nat)
    (t : pktio_table_t) (hdl : odp_pktio_t) : Option (Int × pktio_table_t) :=
  match get_pktio_entry t hdl with
  | none => some (-1, t)
  | some entry =>
    if entry.state = PKTIO_STATE_STARTED then some (-1, t)
    else
      let flushed :=
        if entry.state = PKTIO_STATE_STOPPED then flush_in_queues pktio_if_ops fuel t entry
        else some t
      match flushed with
      | none => none
      | some t1 =>
        match get_pktio_entry t1 hdl with
        | none => none
        | some entry1 =>
          let entry2 := destroy_out_queues (destroy_in_queues entry1 entry1.num_in_queue)
            entry1.num_out_queue
          let entry3 := { entry2 with num_in_queue := 0, num_out_queue := 0 }
          match _pktio_close pktio_if_ops entry3 with
          | none => none
          | some res =>
            if res.1 ≠ 0 then none
            else some (0, put_pktio_entry t1 hdl res.2.1 res.2.2)

/-- `pktio_entry_by_index` reads `pktio_entry_ptr[index]`, which
`odp_pktio_init_global` fills for every slot; an index outside the table has no
slot. -/
def pktio_entry_by_index (t : pktio_table_t) (index : Nat) : Option pktio_entry_t :=
  t.entries[index]?

/-- `sched_cb_pktio_stop_finalize`; `none` for an index outside the table. -/
def sched_cb_pktio_stop_finalize (t : pktio_table_t) (pktio_index : Nat) :
    Option pktio_table_t :=
  match pktio_entry_by_index t pktio_index with
  | none => none
  | some entry =>
    let state := entry.state
    if state ≠ PKTIO_STATE_STOP_PENDING ∧ state ≠ PKTIO_STATE_CLOSE_PENDING then some t
    else if state = PKTIO_STATE_STOP_PENDING then
      some (put_pktio_entry t (pktio_index + 1) { entry with state := PKTIO_STATE_STOPPED }
        [pktio_event.set_state state PKTIO_STATE_STOPPED])
    else
      some (put_pktio_entry t (pktio_index + 1) { entry with state := PKTIO_STATE_FREE }
        [pktio_event.set_state state PKTIO_STATE_FREE])

/-- One call of the device API or of the scheduler bridge. -/
inductive pktio_call
  | odp_pktio_open (name : List Char) (pool : Nat) (param : Option odp_pktio_param_t)
  | odp_pktio_start (hdl : odp_pktio_t)
  | odp_pktio_stop (hdl : odp_pktio_t)
  | odp_pktio_close (hdl : odp_pktio_t)
  | sched_cb_pktio_stop_finalize (pktio_index : Nat)
  deriving DecidableEq, Repr

/-- The table after one call; `none` when the call does not return. -/
def pktio_step (PKTIO_NAME_LEN : Nat) (pktio_if_ops : List pktio_if_ops_t) (fuel : Nat)
    (t : pktio_table_t) : pktio_call → Option pktio_table_t
  | pktio_call.odp_pktio_open name pool param =>
    some (odp_pktio_open PKTIO_NAME_LEN pktio_if_ops t name pool param).2
  | pktio_call.odp_pktio_start hdl => (odp_pktio_start pktio_if_ops t hdl).map (fun r => r.2)
  | pktio_call.odp_pktio_stop hdl => (odp_pktio_stop pktio_if_ops t hdl).map (fun r => r.2)
  | pktio_call.odp_pktio_close hdl =>
    (odp_pktio_close pktio_if_ops fuel t hdl).map (fun r => r.2)
  | pktio_call.sched_cb_pktio_stop_finalize pktio_index =>
    sched_cb_pktio_stop_finalize t pktio_index

/-- The table after a single-threaded sequence of calls. -/
def pktio_run (PKTIO_NAME_LEN : Nat) (pktio_if_ops : List pktio_if_ops_t) (fuel : Nat) :
    pktio_table_t → List pktio_call → Option pktio_table_t
  | t, [] => some t
  | t, c :: rest =>
    match pktio_step PKTIO_NAME_LEN pktio_if_ops fuel t c with
    | none => none
    | some t1 => pktio_run PKTIO_NAME_LEN pktio_if_ops fuel t1 rest

/-- A slot counts as open towards the name index when `state >=
PKTIO_STATE_ACTIVE`, the test of `odp_pktio_lookup`. -/
def is_active (entry : pktio_entry_t) : Bool :=
  decide (entry.state.toNat ≥ PKTIO_STATE_ACTIVE.toNat)

/-- Is the call made on an open device? Only `odp_pktio_start` is constrained:
its handle must name a slot with `state >= PKTIO_STATE_ACTIVE` (a handle that
was not closed). -/
def call_on_open_device (t : pktio_table_t) : pktio_call → Bool
  | pktio_call.odp_pktio_start hdl =>
    match get_pktio_entry t hdl with
    | none => true
    | some entry => is_active entry
  | _ => true

/-- Every call of the sequence is made on an open device, in the table it
meets. -/
def calls_on_open_devices (PKTIO_NAME_LEN : Nat) (pktio_if_ops : List pktio_if_ops_t)
    (fuel : Nat) : pktio_table_t → List pktio_call → Bool
  | _, [] => true
  | t, c :: rest =>
    call_on_open_device t c &&
      match pktio_step PKTIO_NAME_LEN pktio_if_ops fuel t c with
      | none => true
      | some t1 => calls_on_open_devices PKTIO_NAME_LEN pktio_if_ops fuel t1 rest

/-- A cleared slot, as `memset` in `odp_pktio_init_global` leaves it, with
`nq` elements in each queue array. -/
def blank_entry (nq : Nat) : pktio_entry_t :=
  { state := PKTIO_STATE_FREE, name := [], ops := none, pool := 0,
    param := odp_pktio_param_init, handle := 0, config := odp_pktio_config_init,
    cls_enabled := false, num_in_queue := 0, num_out_queue := 0,
    in_queue := List.replicate nq { queue := none, queue_int := none, pktin := PKTIN_INVALID },
    out_queue := List.replicate nq { queue := none, pktout := PKTOUT_INVALID },
    in_discards := 0, pkt_priv := 0 }

/-- The table after `odp_pktio_init_global`: `n` cleared slots. -/
def blank_table (n nq : Nat) : pktio_table_t :=
  { entries := List.replicate n (blank_entry nq), trace := [] }

/-- A reference driver: `open` claims every name, every operation succeeds,
`recv` has no packets; `start` and `stop` are absent. -/
def loop_ops : pktio_if_ops_t :=
  { open_ := fun _ entry _ _ => (0, entry.pkt_priv),
    close := fun entry => (0, entry.pkt_priv),
    start := none,
    stop := none,
    recv := fun entry _ _ => (0, [], entry.pkt_priv),
    term := none }

/-- The slot handed to the probe loop by `setup_pktio_entry`: the allocated slot
`e0`, made ACTIVE and initialised, with pool, parameters, handle and default
configuration stored. -/
def setup_entry (e0 : pktio_entry_t) (hdl : odp_pktio_t) (pool : Nat)
    (param : odp_pktio_param_t) : pktio_entry_t :=
  { init_pktio_entry { e0 with state := PKTIO_STATE_ACTIVE } with
    pool := pool, param := param, handle := hdl, config := odp_pktio_config_init }

/-- A slot with its driver-private storage blanked: what the device table
itself owns of the slot. -/
def priv_cleared (e : pktio_entry_t) : pktio_entry_t := { e with pkt_priv := 0 }

/-- The name-index view of a slot: its state and its name. -/
def slot_view (e : pktio_entry_t) : PktioState × List Char := (e.state, e.name)

/-- The test `state >= PKTIO_STATE_ACTIVE` on a state. -/
def state_active (s : PktioState) : Bool := decide (s.toNat ≥ PKTIO_STATE_ACTIVE.toNat)

/-- A sample slot bound to driver 0 of the driver table, named "e0", in the given
state and input mode, with one (invalid) element in each queue array. -/
def sample_entry (s : PktioState) (mode : odp_pktin_mode_t) : pktio_entry_t :=
  { blank_entry 1 with
    state := s, name := ['e', '0'], ops := some 0, handle := 1,
    param := { in_mode := mode, out_mode := ODP_PKTOUT_MODE_DIRECT } }

/-- A one-slot table holding `sample_entry`. -/
def sample_table (s : PktioState) (mode : odp_pktin_mode_t) : pktio_table_t :=
  { entries := [sample_entry s mode], trace := [] }

/-- A driver whose `recv` delivers one packet while its private counter is
positive (counting it down) and then runs dry; `start` and `stop` succeed. -/
def draining_ops : pktio_if_ops_t :=
  { open_ := fun _ _ _ _ => (0, 2),
    close := fun entry => (0, entry.pkt_priv),
    start := some (fun entry => (0, entry.pkt_priv)),
    stop := some (fun entry => (0, entry.pkt_priv)),
    recv := fun entry _ _ =>
      if entry.pkt_priv = 0 then (0, [], 0)
      else (1, [{ id := entry.pkt_priv, dst_queue_flag := false, dst_queue := 0 }],
            entry.pkt_priv - 1),
    term := none }

/-- What one call does to the view `(state, name)` of the slot `i` it changes:
the transition of `odp_pktio_open` (a FREE slot is reclaimed, or bound to a name
that `odp_pktio_lookup` did not find), of `odp_pktio_start`, `odp_pktio_stop`,
`odp_pktio_close` and `sched_cb_pktio_stop_finalize`. -/
def slot_move (PKTIO_NAME_LEN : Nat) (t : pktio_table_t) :
    pktio_call → Nat → PktioState × List Char → PktioState × List Char → Prop
  | pktio_call.odp_pktio_open name _ _, _, old, new =>
    old.1 = PKTIO_STATE_FREE ∧
      ((new.1 = PKTIO_STATE_FREE ∧ new.2 = old.2) ∨
       (new.1 = PKTIO_STATE_OPENED ∧ new.2 = name ∧
          odp_pktio_lookup PKTIO_NAME_LEN t name = ODP_PKTIO_INVALID))
  | pktio_call.odp_pktio_start hdl, i, old, new =>
    hdl ≠ ODP_PKTIO_INVALID ∧ i = hdl - 1 ∧ new.2 = old.2 ∧
      old.1 ≠ PKTIO_STATE_STARTED ∧ new.1 = PKTIO_STATE_STARTED
  | pktio_call.odp_pktio_stop _, _, old, new =>
    new.2 = old.2 ∧ old.1 = PKTIO_STATE_STARTED ∧
      (new.1 = PKTIO_STATE_STOP_PENDING ∨ new.1 = PKTIO_STATE_STOPPED)
  | pktio_call.odp_pktio_close _, _, old, new =>
    new.2 = old.2 ∧
      ((old.1 = PKTIO_STATE_STOP_PENDING ∧ new.1 = PKTIO_STATE_CLOSE_PENDING) ∨
       ((old.1 = PKTIO_STATE_OPENED ∨ old.1 = PKTIO_STATE_STOPPED) ∧
          new.1 = PKTIO_STATE_FREE))
  | pktio_call.sched_cb_pktio_stop_finalize pktio_index, i, old, new =>
    i = pktio_index ∧ new.2 = old.2 ∧
      ((old.1 = PKTIO_STATE_STOP_PENDING ∧ new.1 = PKTIO_STATE_STOPPED) ∨
       (old.1 = PKTIO_STATE_CLOSE_PENDING ∧ new.1 = PKTIO_STATE_FREE))

/-- Name uniqueness on a list of slot views: two slots with
`state >= PKTIO_STATE_ACTIVE` and the same name are the same slot. -/
def view_unique (v : List (PktioState × List Char)) : Prop :=
  ∀ (i j : Nat) (a b : PktioState × List Char), v[i]? = some a → v[j]? = some b →
    state_active a.1 = true → state_active b.1 = true → a.2 = b.2 → i = j

/-- Name uniqueness of a table among the slots that `odp_pktio_lookup` sees: two
slots with `state >= PKTIO_STATE_ACTIVE` (neither FREE nor CLOSE_PENDING) and
the same name are the same slot. -/
def name_unique_active (t : pktio_table_t) : Prop :=
  ∀ (i j : Nat) (ei ej : pktio_entry_t),
    t.entries[i]? = some ei → t.entries[j]? = some ej →
    ei.state.toNat ≥ PKTIO_STATE_ACTIVE.toNat → ej.state.toNat ≥ PKTIO_STATE_ACTIVE.toNat →
    ei.name = ej.name → i = j

/-- Scheduled input, direct output. -/
def sched_param : odp_pktio_param_t :=
  { in_mode := ODP_PKTIN_MODE_SCHED, out_mode := ODP_PKTOUT_MODE_DIRECT }

/-- A call sequence: open "e0" in scheduled mode, start, stop, close (the slot is
left CLOSE_PENDING, waiting for the scheduler), then open "e0" again. -/
def reopen_calls : List pktio_call :=
  [pktio_call.odp_pktio_open ['e', '0'] 7 (some sched_param),
   pktio_call.odp_pktio_start 1,
   pktio_call.odp_pktio_stop 1,
   pktio_call.odp_pktio_close 1,
   pktio_call.odp_pktio_open ['e', '0'] 7 none]

/-- The table `reopen_calls` leads to, from two cleared slots and the reference
driver. -/
def reopen_table : pktio_table_t :=
  (pktio_run 256 [loop_ops] 0 (blank_table 2 1) reopen_calls).getD (blank_table 0 0)

/-- A one-slot table in scheduled input mode, OPENED, whose `num_in_queue` is 1
while `in_queue[0].queue` is `ODP_QUEUE_INVALID`: the state a failed
reconfiguration of the input queues leaves behind. -/
def missing_queue_table : pktio_table_t :=
  { entries := [{ sample_entry PKTIO_STATE_OPENED ODP_PKTIN_MODE_SCHED with num_in_queue := 1 }],
    trace := [] }

/-- `~x` on a `uint64_t` bit set. -/
def bits_not64 (x : Nat) : Nat := (2 ^ 64 - 1) ^^^ x

/-- `single_capability`: one input queue, one output queue, promiscuous mode
settable, everything else zero. -/
def single_capability : Int × odp_pktio_capability_t :=
  (0, { max_input_queues := 1, max_output_queues := 1, set_op_promisc_mode := true,
        config := { pktin_all_bits := 0, pktout_all_bits := 0, enable_loop := false,
                    parser_layer := 0 } })

/-- The capability structure of a caller before `odp_pktio_capability` fills it;
it is only read after a zero result. -/
def capability_unset : odp_pktio_capability_t :=
  { max_input_queues := 0, max_output_queues := 0, set_op_promisc_mode := false,
    config := { pktin_all_bits := 0, pktout_all_bits := 0, enable_loop := false,
                parser_layer := 0 } }

/-- `odp_pktio_capability`: result, the structure filled, and the table. -/
def odp_pktio_capability (pktio_if_ops : List pktio_if_ops_t) (t : pktio_table_t)
    (pktio : odp_pktio_t) : Option (Int × odp_pktio_capability_t × pktio_table_t) :=
  match get_pktio_entry t pktio with
  | none => some (-1, capability_unset, t)
  | some entry =>
    match entry_ops pktio_if_ops entry with
    | none => none
    | some (k, d) =>
      let called : Int × odp_pktio_capability_t × pktio_table_t :=
        match d.capability with
        | some f =>
          ((f entry).1, (f entry).2.1,
            put_pktio_entry t pktio { entry with pkt_priv := (f entry).2.2 }
              [pktio_event.drv_capability k (f entry).1])
        | none => (single_capability.1, single_capability.2, t)
      if called.1 = 0 then
        some (called.1,
          { called.2.1 with
            config := { called.2.1.config with parser_layer := ODP_PROTO_LAYER_ALL } },
          called.2.2)
      else some (called.1, called.2.1, called.2.2)

/-- `odp_pktio_config`; `config = none` is the `NULL` pointer, replaced by the
defaults of `odp_pktio_config_init`. -/
def odp_pktio_config (pktio_if_ops : List pktio_if_ops_t) (t : pktio_table_t)
    (hdl : odp_pktio_t) (config : Option odp_pktio_config_t) :
    Option (Int × pktio_table_t) :=
  match get_pktio_entry t hdl with
  | none => some (-1, t)
  | some _ =>
    let config1 := match config with
      | none => odp_pktio_config_init
      | some c => c
    match odp_pktio_capability pktio_if_ops t hdl with
    | none => none
    | some (rc, capa, t1) =>
      if rc ≠ 0 then some (-1, t1)
      else if config1.pktin_all_bits &&& bits_not64 capa.config.pktin_all_bits ≠ 0 then
        some (-1, t1)
      else if config1.pktout_all_bits &&& bits_not64 capa.config.pktout_all_bits ≠ 0 then
        some (-1, t1)
      else if config1.enable_loop = true ∧ capa.config.enable_loop = false then
        some (-1, t1)
      else
        match get_pktio_entry t1 hdl with
        | none => none
        | some entry =>
          if entry.state = PKTIO_STATE_STARTED then some (-1, t1)
          else
            let entry1 := { entry with config := config1 }
            match entry_ops pktio_if_ops entry1 with
            | none => none
            | some (k, d) =>
              match d.config with
              | none => some (0, put_pktio_entry t1 hdl entry1 [])
              | some f =>
                some ((f entry1 config1).1,
                  put_pktio_entry t1 hdl { entry1 with pkt_priv := (f entry1 config1).2 }
                    [pktio_event.drv_config k (f entry1 config1).1])

/-- The value `ODP_PKTIO_OP_MT` of the queue operation mode. -/
def ODP_PKTIO_OP_MT : Nat := 0

/-- The defaults written by `odp_pktin_queue_param_init`. -/
def odp_pktin_queue_param_init : odp_pktin_queue_param_t :=
  { op_mode := ODP_PKTIO_OP_MT, classifier_enable := false, num_queues := 1, queue_param := 0 }

/-- The defaults written by `odp_pktout_queue_param_init`. -/
def odp_pktout_queue_param_init : odp_pktout_queue_param_t :=
  { op_mode := ODP_PKTIO_OP_MT, num_queues := 1 }

/-- The event queue asked of `odp_queue_create`: the `i`-th input or output queue
of a device (names "odp-pktin-<id>-<i>" and "odp-pktout-<id>-<i>"). -/
inductive pktio_queue_name
  | pktin (pktio_id : Nat) (i : Nat)
  | pktout (pktio_id : Nat) (i : Nat)
  deriving DecidableEq, Repr

/-- The creation loop of `odp_pktin_queue_config` from queue `i`, `n` queues to
go: in queued and scheduled mode an event queue is created for each input queue
(a failed creation destroys the first `i + 1` queues and stops: `false`),
otherwise the queue is invalid; every input queue gets its direct-poll handle. -/
def pktin_queue_loop (odp_queue_create : pktio_queue_name → Option Nat)
    (mode : odp_pktin_mode_t) (pktio : odp_pktio_t) :
    Nat → Nat → pktio_entry_t → Bool × pktio_entry_t
  | 0, _, entry => (true, entry)
  | n + 1, i, entry =>
    let pktin : odp_pktin_queue_t := { pktio := entry.handle, index := i }
    if mode = ODP_PKTIN_MODE_QUEUE ∨ mode = ODP_PKTIN_MODE_SCHED then
      match odp_queue_create (pktio_queue_name.pktin (_odp_pktio_index pktio) i) with
      | none => (false, destroy_in_queues entry (i + 1))
      | some queue =>
        let slot : in_queue_t := { queue := some queue, queue_int := some queue, pktin := pktin }
        pktin_queue_loop odp_queue_create mode pktio n (i + 1)
          { entry with in_queue := entry.in_queue.set i slot }
    else
      let slot : in_queue_t := { queue := none, queue_int := none, pktin := pktin }
      pktin_queue_loop odp_queue_create mode pktio n (i + 1)
        { entry with in_queue := entry.in_queue.set i slot }

/-- `odp_pktin_queue_config`; `param = none` is the `NULL` pointer. -/
def odp_pktin_queue_config (pktio_if_ops : List pktio_if_ops_t)
    (odp_queue_create : pktio_queue_name → Option Nat) (t : pktio_table_t)
    (pktio : odp_pktio_t) (param : Option odp_pktin_queue_param_t) :
    Option (Int × pktio_table_t) :=
  let param1 := match param with
    | none => odp_pktin_queue_param_init
    | some p => p
  match get_pktio_entry t pktio with
  | none => some (-1, t)
  | some entry0 =>
    if entry0.state = PKTIO_STATE_STARTED then some (-1, t)
    else
      let mode := entry0.param.in_mode
      if mode = ODP_PKTIN_MODE_DISABLED then some (0, t)
      else if param1.classifier_enable = false ∧ param1.num_queues = 0 then some (-1, t)
      else
        let num_queues := if param1.classifier_enable then 1 else param1.num_queues
        match odp_pktio_capability pktio_if_ops t pktio with
        | none => none
        | some (rc, capa, t1) =>
          if rc ≠ 0 then some (-1, t1)
          else
            match get_pktio_entry t1 pktio with
            | none => none
            | some entry =>
              let entry1 := { entry with cls_enabled := param1.classifier_enable }
              if num_queues > capa.max_input_queues then
                some (-1, put_pktio_entry t1 pktio entry1 [])
              else
                let entry2 :=
                  if entry1.num_in_queue ≠ 0 then destroy_in_queues entry1 entry1.num_in_queue
                  else entry1
                let looped := pktin_queue_loop odp_queue_create mode pktio num_queues 0 entry2
                if looped.1 = false then some (-1, put_pktio_entry t1 pktio looped.2 [])
                else
                  let entry3 := { looped.2 with num_in_queue := num_queues }
                  match entry_ops pktio_if_ops entry3 with
                  | none => none
                  | some (k, d) =>
                    match d.input_queues_config with
                    | none => some (0, put_pktio_entry t1 pktio entry3 [])
                    | some f =>
                      some ((f entry3 param1).1,
                        put_pktio_entry t1 pktio { entry3 with pkt_priv := (f entry3 param1).2 }
                          [pktio_event.drv_input_queues_config k (f entry3 param1).1])

/-- Assignment to fields of `out_queue[i]`. -/
def out_queue_update (l : List out_queue_t) (i : Nat) (f : out_queue_t → out_queue_t) :
    List out_queue_t :=
  match l[i]? with
  | none => l
  | some q => l.set i (f q)

/-- The first loop of `odp_pktout_queue_config`: the first `n` output queues get
their direct-send handle. -/
def pktout_handle_loop (pktio : odp_pktio_t) : Nat → Nat → pktio_entry_t → pktio_entry_t
  | 0, _, entry => entry
  | n + 1, i, entry =>
    let handle : odp_pktout_queue_t := { pktio := pktio, index := i }
    let queues := out_queue_update entry.out_queue i (fun q => { q with pktout := handle })
    pktout_handle_loop pktio n (i + 1) { entry with out_queue := queues }

/-- The creation loop of `odp_pktout_queue_config` in queued mode, from queue `i`
with `n` queues to go; a failed creation destroys the first `i + 1` queues and
stops (`false`). -/
def pktout_queue_loop (odp_queue_create : pktio_queue_name → Option Nat)
    (pktio : odp_pktio_t) : Nat → Nat → pktio_entry_t → Bool × pktio_entry_t
  | 0, _, entry => (true, entry)
  | n + 1, i, entry =>
    match odp_queue_create (pktio_queue_name.pktout (_odp_pktio_index pktio) i) with
    | none => (false, destroy_out_queues entry (i + 1))
    | some queue =>
      let queues := out_queue_update entry.out_queue i (fun q => { q with queue := some queue })
      pktout_queue_loop odp_queue_create pktio n (i + 1) { entry with out_queue := queues }

/-- `odp_pktout_queue_config`; `param = none` is the `NULL` pointer. -/
def odp_pktout_queue_config (pktio_if_ops : List pktio_if_ops_t)
    (odp_queue_create : pktio_queue_name → Option Nat) (t : pktio_table_t)
    (pktio : odp_pktio_t) (param : Option odp_pktout_queue_param_t) :
    Option (Int × pktio_table_t) :=
  let param1 := match param with
    | none => odp_pktout_queue_param_init
    | some p => p
  match get_pktio_entry t pktio with
  | none => some (-1, t)
  | some entry0 =>
    if entry0.state = PKTIO_STATE_STARTED then some (-1, t)
    else
      let mode := entry0.param.out_mode
      if mode = ODP_PKTOUT_MODE_DISABLED ∨ mode = ODP_PKTOUT_MODE_TM then some (0, t)
      else if mode ≠ ODP_PKTOUT_MODE_DIRECT ∧ mode ≠ ODP_PKTOUT_MODE_QUEUE then some (-1, t)
      else if param1.num_queues = 0 then some (-1, t)
      else
        match odp_pktio_capability pktio_if_ops t pktio with
        | none => none
        | some (rc, capa, t1) =>
          if rc ≠ 0 then some (-1, t1)
          else if param1.num_queues > capa.max_output_queues then some (-1, t1)
          else
            match get_pktio_entry t1 pktio with
            | none => none
            | some entry =>
              let entry1 :=
                if entry.num_out_queue ≠ 0 then
                  { destroy_out_queues entry entry.num_out_queue with num_out_queue := 0 }
                else entry
              let entry2 := pktout_handle_loop pktio param1.num_queues 0 (init_out_queues entry1)
              let entry3 := { entry2 with num_out_queue := param1.num_queues }
              let looped :=
                if mode = ODP_PKTOUT_MODE_QUEUE then
                  pktout_queue_loop odp_queue_create pktio param1.num_queues 0 entry3
                else (true, entry3)
              if looped.1 = false then some (-1, put_pktio_entry t1 pktio looped.2 [])
              else
                match entry_ops pktio_if_ops looped.2 with
                | none => none
                | some (k, d) =>
                  match d.output_queues_config with
                  | none => some (0, put_pktio_entry t1 pktio looped.2 [])
                  | some f =>
                    some ((f looped.2 param1).1,
                      put_pktio_entry t1 pktio
                        { looped.2 with pkt_priv := (f looped.2 param1).2 }
                        [pktio_event.drv_output_queues_config k (f looped.2 param1).1])
/-- A driver with all the configuration operations: it reports four input and
four output queues, the pktin feature bits 0 and 1, the pktout feature bit 0 and
no loopback; `config`, `input_queues_config` and `output_queues_config` succeed
and count their calls in the driver-private storage. -/
def feature_ops : pktio_if_ops_t :=
  { open_ := fun _ entry _ _ => (0, entry.pkt_priv),
    close := fun entry => (0, entry.pkt_priv),
    start := none,
    stop := none,
    recv := fun entry _ _ => (0, [], entry.pkt_priv),
    term := none,
    capability := some (fun entry =>
      (0, { max_input_queues := 4, max_output_queues := 4, set_op_promisc_mode := true,
            config := { pktin_all_bits := 3, pktout_all_bits := 1, enable_loop := false,
                        parser_layer := 0 } }, entry.pkt_priv)),
    config := some (fun entry _ => (0, entry.pkt_priv + 1)),
    input_queues_config := some (fun entry _ => (0, entry.pkt_priv + 1)),
    output_queues_config := some (fun entry _ => (0, entry.pkt_priv + 1)) }

/-- What `feature_ops` reports through `odp_pktio_capability`. -/
def feature_capa : odp_pktio_capability_t :=
  { max_input_queues := 4, max_output_queues := 4, set_op_promisc_mode := true,
    config := { pktin_all_bits := 3, pktout_all_bits := 1, enable_loop := false,
                parser_layer := ODP_PROTO_LAYER_ALL } }

/-- The table a capability query of driver 0 leaves from `sample_table`. -/
def queried_table (s : PktioState) (mode : odp_pktin_mode_t) : pktio_table_t :=
  { entries := [sample_entry s mode], trace := [pktio_event.drv_capability 0 0] }

/-- A configuration asking for pktin feature bit 2. -/
def config_bit2 : odp_pktio_config_t :=
  { pktin_all_bits := 4, pktout_all_bits := 0, enable_loop := false, parser_layer := 0 }

/-- A configuration asking for pktin feature bit 0 and pktout feature bit 0. -/
def config_bit0 : odp_pktio_config_t :=
  { pktin_all_bits := 1, pktout_all_bits := 1, enable_loop := false, parser_layer := 0 }

/-- Input queue parameters with the classifier enabled and five queues asked. -/
def cls_param5 : odp_pktin_queue_param_t :=
  { op_mode := ODP_PKTIO_OP_MT, classifier_enable := true, num_queues := 5, queue_param := 0 }

/-- Input queue parameters with the classifier disabled and five queues asked. -/
def plain_param5 : odp_pktin_queue_param_t :=
  { op_mode := ODP_PKTIO_OP_MT, classifier_enable := false, num_queues := 5, queue_param := 0 }

/-- A queue subsystem in which every creation succeeds with handle 100 + i. -/
def queue_create_ok : pktio_queue_name → Option Nat
  | pktio_queue_name.pktin _ i => some (100 + i)
  | pktio_queue_name.pktout _ i => some (200 + i)

/-- The queue interface `queue_fn` as far as packet input calls it, over the
state `Q` of the queue subsystem; a queue is named by a number. `enq` and
`enq_multi` return the result of the call (negative: failure), `deq` a buffer
or `NULL`, `deq_multi` the buffers written (their number is the count it
returns), `get_pktin` the direct-poll handle stored in the queue. -/
structure queue_fn_t (Q : Type) where
  enq : Q → Nat → odp_packet_hdr_t → Int × Q
  enq_multi : Q → Nat → List odp_packet_hdr_t → Int × Q
  deq : Q → Nat → Option odp_packet_hdr_t × Q
  deq_multi : Q → Nat → Nat → List odp_packet_hdr_t × Q
  get_pktin : Q → Nat → odp_pktin_queue_t

/-- The `for` loop of `pktin_recv_buf` over the received packets: a packet with
the `dst_queue` flag is enqueued to its destination queue (and freed when that
fails), the others are collected in order. Returns the collected buffers, the
queue state and the ghost events. -/
def pktin_recv_buf_loop {Q : Type} (queue_fn : queue_fn_t Q) :
    List odp_packet_hdr_t → Q → List odp_packet_hdr_t × Q × List pktio_event
  | [], q => ([], q, [])
  | pkt :: rest, q =>
    if pkt.dst_queue_flag = true then
      let r := queue_fn.enq q pkt.dst_queue pkt
      let freed := if r.1 < 0 then [pktio_event.packet_free pkt.id] else []
      let tl := pktin_recv_buf_loop queue_fn rest r.2
      (tl.1, tl.2.1, pktio_event.queue_enq pkt.dst_queue pkt.id r.1 :: (freed ++ tl.2.2))
    else
      let tl := pktin_recv_buf_loop queue_fn rest q
      (pkt :: tl.1, tl.2.1, tl.2.2)

/-- `pktin_recv_buf`: receive up to `num` packets from the input queue and
dispatch them; returns `num_rx` and the buffers written to `buffer_hdrs`. The
loop runs over the first `pkts` received packets. -/
def pktin_recv_buf {Q : Type} (queue_fn : queue_fn_t Q) (pktio_if_ops : List pktio_if_ops_t)
    (t : pktio_table_t) (q : Q) (queue : odp_pktin_queue_t) (num : Nat) :
    Option (Int × List odp_packet_hdr_t × pktio_table_t × Q) :=
  match odp_pktin_recv pktio_if_ops t queue num with
  | none => none
  | some (pkts, packets, t1) =>
    let r := pktin_recv_buf_loop queue_fn (packets.take pkts.toNat) q
    some ((r.1.length : Int), r.1, { t1 with trace := t1.trace ++ r.2.2 }, r.2.1)

/-- `pktin_dequeue` on the queue `q_int`, with `QUEUE_MULTI_MAX` as parameter:
the buffer returned (`none`: `NULL`), the table and the queue state. -/
def pktin_dequeue {Q : Type} (QUEUE_MULTI_MAX : Nat) (queue_fn : queue_fn_t Q)
    (pktio_if_ops : List pktio_if_ops_t) (t : pktio_table_t) (q : Q) (q_int : Nat) :
    Option (Option odp_packet_hdr_t × pktio_table_t × Q) :=
  let r := queue_fn.deq q q_int
  match r.1 with
  | some buf_hdr => some (some buf_hdr, t, r.2)
  | none =>
    match pktin_recv_buf queue_fn pktio_if_ops t r.2 (queue_fn.get_pktin r.2 q_int)
        QUEUE_MULTI_MAX with
    | none => none
    | some (pkts, hdr_tbl, t1, q1) =>
      if pkts ≤ 0 then some (none, t1, q1)
      else
        let q2 :=
          if pkts > 1 then
            (queue_fn.enq_multi q1 q_int ((hdr_tbl.drop 1).take (pkts - 1).toNat)).2
          else q1
        some (hdr_tbl.head?, t1, q2)

/-- `pktin_deq_multi` on the queue `q_int`: the buffers written to `buf_hdr`
(their number is the value returned); `none` is `ODP_ABORT`. -/
def pktin_deq_multi {Q : Type} (QUEUE_MULTI_MAX : Nat) (queue_fn : queue_fn_t Q)
    (pktio_if_ops : List pktio_if_ops_t) (t : pktio_table_t) (q : Q) (q_int : Nat)
    (num : Nat) : Option (List odp_packet_hdr_t × pktio_table_t × Q) :=
  let r := queue_fn.deq_multi q q_int num
  let nbr := r.1.length
  if nbr > num then none
  else if nbr = num then some (r.1, t, r.2)
  else
    match pktin_recv_buf queue_fn pktio_if_ops t r.2 (queue_fn.get_pktin r.2 q_int)
        QUEUE_MULTI_MAX with
    | none => none
    | some (pkts, hdr_tbl, t1, q1) =>
      if pkts ≤ 0 then some (r.1, t1, q1)
      else
        let i := min pkts.toNat (num - nbr)
        let rest := (hdr_tbl.take pkts.toNat).drop i
        let q2 := if rest.length ≠ 0 then (queue_fn.enq_multi q1 q_int rest).2 else q1
        some (r.1 ++ hdr_tbl.take i, t1, q2)

/-- The `for` loop of `sched_cb_pktin_poll_one` over the received packets, from
the value `discards` of `stats.in_discards` (a 64-bit counter): a packet with
the `dst_queue` flag is enqueued to its destination queue, and freed and counted
when that fails; the others are written to `evt_tbl` in order. Returns the
events written, the queue state, the counter and the ghost events. -/
def poll_one_loop {Q : Type} (queue_fn : queue_fn_t Q) :
    List odp_packet_hdr_t → Q → Nat → List odp_packet_hdr_t × Q × Nat × List pktio_event
  | [], q, discards => ([], q, discards, [])
  | pkt :: rest, q, discards =>
    if pkt.dst_queue_flag = true then
      let r := queue_fn.enq_multi q pkt.dst_queue [pkt]
      if r.1 < 0 then
        let tl := poll_one_loop queue_fn rest r.2 ((discards + 1) % 2 ^ 64)
        (tl.1, tl.2.1, tl.2.2.1,
          pktio_event.queue_enq pkt.dst_queue pkt.id r.1 :: pktio_event.packet_free pkt.id
            :: tl.2.2.2)
      else
        let tl := poll_one_loop queue_fn rest r.2 discards
        (tl.1, tl.2.1, tl.2.2.1, pktio_event.queue_enq pkt.dst_queue pkt.id r.1 :: tl.2.2.2)
    else
      let tl := poll_one_loop queue_fn rest q discards
      (pkt :: tl.1, tl.2.1, tl.2.2.1, tl.2.2.2)

/-- `sched_cb_pktin_poll_one`, with `QUEUE_MULTI_MAX` as parameter: the value
returned, the events written to `evt_tbl`, the table and the queue state.
`ODP_ASSERT` aborts in a debug build (`odp_debug`) only; `none` stands for the
abort, an index without a slot and a slot without driver. -/
def sched_cb_pktin_poll_one {Q : Type} (odp_debug : Bool) (QUEUE_MULTI_MAX : Nat)
    (queue_fn : queue_fn_t Q) (pktio_if_ops : List pktio_if_ops_t) (t : pktio_table_t)
    (q : Q) (pktio_index : Nat) (rx_queue : Nat) :
    Option (Int × List odp_packet_hdr_t × pktio_table_t × Q) :=
  match pktio_entry_by_index t pktio_index with
  | none => none
  | some entry =>
    if entry.state ≠ PKTIO_STATE_STARTED then
      if entry.state.toNat < PKTIO_STATE_ACTIVE.toNat ∨ entry.state = PKTIO_STATE_STOP_PENDING
      then some (-1, [], t, q)
      else some (0, [], t, q)
    else if odp_debug = true ∧ ¬ rx_queue < entry.num_in_queue then none
    else
      match entry_ops pktio_if_ops entry with
      | none => none
      | some (k, d) =>
        let r := d.recv entry rx_queue QUEUE_MULTI_MAX
        let l := poll_one_loop queue_fn (r.2.1.take r.1.toNat) q entry.in_discards
        some ((l.1.length : Int), l.1,
          put_pktio_entry t (pktio_index + 1)
            { entry with pkt_priv := r.2.2, in_discards := l.2.2.1 }
            (pktio_event.drv_recv k rx_queue r.1 :: l.2.2.2),
          l.2.1)

/-- The `for` loop of `sched_cb_pktin_poll` over `index[]`; an element of
`index[]` outside `in_queue[]` and a `NULL` internal queue are `none`. -/
def sched_cb_pktin_poll_loop {Q : Type} (QUEUE_MULTI_MAX : Nat) (queue_fn : queue_fn_t Q)
    (pktio_if_ops : List pktio_if_ops_t) (pktio_index : Nat) :
    List Nat → pktio_table_t → Q → Option (Int × pktio_table_t × Q)
  | [], t, q => some (0, t, q)
  | i :: rest, t, q =>
    match (pktio_entry_by_index t pktio_index).bind (fun entry => entry.in_queue[i]?) with
    | none => none
    | some in_queue =>
      match pktin_recv_buf queue_fn pktio_if_ops t q in_queue.pktin QUEUE_MULTI_MAX with
      | none => none
      | some (num, hdr_tbl, t1, q1) =>
        if num = 0 then
          sched_cb_pktin_poll_loop QUEUE_MULTI_MAX queue_fn pktio_if_ops pktio_index rest t1 q1
        else if num < 0 then some (-1, t1, q1)
        else
          match (pktio_entry_by_index t1 pktio_index).bind
              (fun entry => entry.in_queue[i]?) with
          | none => none
          | some in_queue1 =>
            match in_queue1.queue_int with
            | none => none
            | some q_int =>
              sched_cb_pktin_poll_loop QUEUE_MULTI_MAX queue_fn pktio_if_ops pktio_index rest
                t1 (queue_fn.enq_multi q1 q_int hdr_tbl).2

/-- `sched_cb_pktin_poll`; `index` holds the `num_queue` elements of `index[]`. -/
def sched_cb_pktin_poll {Q : Type} (QUEUE_MULTI_MAX : Nat) (queue_fn : queue_fn_t Q)
    (pktio_if_ops : List pktio_if_ops_t) (t : pktio_table_t) (q : Q) (pktio_index : Nat)
    (index : List Nat) : Option (Int × pktio_table_t × Q) :=
  match pktio_entry_by_index t pktio_index with
  | none => none
  | some entry =>
    let state := entry.state
    if state ≠ PKTIO_STATE_STARTED then
      if state.toNat < PKTIO_STATE_ACTIVE.toNat ∨ state = PKTIO_STATE_STOP_PENDING
      then some (-1, t, q)
      else some (0, t, q)
    else sched_cb_pktin_poll_loop QUEUE_MULTI_MAX queue_fn pktio_if_ops pktio_index index t q

/-- A STARTED slot in scheduled mode with one configured input queue (event queue
100, direct-poll handle of queue 0 of device 1), bound to driver 0. -/
def polled_entry : pktio_entry_t :=
  { sample_entry PKTIO_STATE_STARTED ODP_PKTIN_MODE_SCHED with
    num_in_queue := 1,
    in_queue := [{ queue := some 100, queue_int := some 100,
                   pktin := { pktio := 1, index := 0 } }] }

/-- A one-slot table holding `polled_entry`. -/
def polled_table : pktio_table_t :=
  { entries := [polled_entry], trace := [] }

/-- A packet without classifier destination. -/
def plain_pkt (id : Nat) : odp_packet_hdr_t :=
  { id := id, dst_queue_flag := false, dst_queue := 0 }

/-- A packet the classifier redirected to `queue`. -/
def redirected_pkt (id queue : Nat) : odp_packet_hdr_t :=
  { id := id, dst_queue_flag := true, dst_queue := queue }

/-- A driver whose `recv` delivers, on every call, packet 1 (not redirected),
packet 2 (redirected to queue 7) and packet 3 (redirected to queue 8). -/
def redirect_ops : pktio_if_ops_t :=
  { open_ := fun _ entry _ _ => (0, entry.pkt_priv),
    close := fun entry => (0, entry.pkt_priv),
    start := none,
    stop := none,
    recv := fun entry _ _ =>
      (3, [plain_pkt 1, redirected_pkt 2 7, redirected_pkt 3 8], entry.pkt_priv),
    term := none }

/-- A driver whose `recv` reports an error. -/
def failing_recv_ops : pktio_if_ops_t :=
  { open_ := fun _ entry _ _ => (0, entry.pkt_priv),
    close := fun entry => (0, entry.pkt_priv),
    start := none,
    stop := none,
    recv := fun entry _ _ => (-1, [], entry.pkt_priv),
    term := none }

/-- A queue subsystem without state in which queue 7 is full (every enqueue to
it fails) and every other enqueue succeeds; nothing can be dequeued. -/
def full_queue_fn : queue_fn_t Unit :=
  { enq := fun _ queue _ => (if queue = 7 then -1 else 0, ()),
    enq_multi := fun _ queue pkts => (if queue = 7 then -1 else (pkts.length : Int), ()),
    deq := fun _ _ => (none, ()),
    deq_multi := fun _ _ _ => ([], ()),
    get_pktin := fun _ _ => { pktio := 1, index := 0 } }

/-- Modelled from the spec: a queue subsystem of FIFO queues whose enqueues
succeed. The state gives the contents of each queue, head first; an enqueue
appends, a dequeue takes from the head; `pktin_of` is the direct-poll handle
stored in each queue. -/
def fifo_queue_fn (pktin_of : Nat → odp_pktin_queue_t) :
    queue_fn_t (Nat → List odp_packet_hdr_t) :=
  { enq := fun q queue pkt => (0, Function.update q queue (q queue ++ [pkt])),
    enq_multi := fun q queue pkts =>
      ((pkts.length : Int), Function.update q queue (q queue ++ pkts)),
    deq := fun q queue => ((q queue).head?, Function.update q queue (q queue).tail),
    deq_multi := fun q queue num =>
      ((q queue).take num, Function.update q queue ((q queue).drop num)),
    get_pktin := fun _ queue => pktin_of queue }

/-- A driver delivers the packets of `stream` in that order on input queue
`index`: each `recv` returns, as its count says, at most `num` of the packets
that follow the read position `pos pkt_priv` and advances the position by their
number; a `recv` that reports an error delivers nothing. -/
def delivers_in_order (d : pktio_if_ops_t) (index : Nat) (pos : Nat → Nat)
    (stream : List odp_packet_hdr_t) : Prop :=
  ∀ (entry : pktio_entry_t) (num : Nat),
    (d.recv entry index num).2.1
        = (stream.drop (pos entry.pkt_priv)).take (d.recv entry index num).2.1.length ∧
      (d.recv entry index num).2.1.length ≤ num ∧
      pos (d.recv entry index num).2.2
        = pos entry.pkt_priv + (d.recv entry index num).2.1.length ∧
      ((d.recv entry index num).1 = ((d.recv entry index num).2.1.length : Int) ∨
        ((d.recv entry index num).1 < 0 ∧ (d.recv entry index num).2.1 = []))

/-- A call of one of the two dequeue functions installed on an input queue. -/
inductive pktin_deq_call
  | dequeue
  | deq_multi (num : Nat)
  deriving DecidableEq, Repr

/-- One call on the queue `q_int`: the packets it returns, the table and the
queue state. -/
def pktin_deq_step {Q : Type} (QUEUE_MULTI_MAX : Nat) (queue_fn : queue_fn_t Q)
    (pktio_if_ops : List pktio_if_ops_t) (q_int : Nat) (t : pktio_table_t) (q : Q) :
    pktin_deq_call → Option (List odp_packet_hdr_t × pktio_table_t × Q)
  | pktin_deq_call.dequeue =>
    match pktin_dequeue QUEUE_MULTI_MAX queue_fn pktio_if_ops t q q_int with
    | none => none
    | some r => some (r.1.toList, r.2.1, r.2.2)
  | pktin_deq_call.deq_multi num =>
    pktin_deq_multi QUEUE_MULTI_MAX queue_fn pktio_if_ops t q q_int num

/-- A sequence of calls on the queue `q_int`: what each call returned. -/
def pktin_deq_run {Q : Type} (QUEUE_MULTI_MAX : Nat) (queue_fn : queue_fn_t Q)
    (pktio_if_ops : List pktio_if_ops_t) (q_int : Nat) :
    List pktin_deq_call → pktio_table_t → Q →
      Option (List (List odp_packet_hdr_t) × pktio_table_t × Q)
  | [], t, q => some ([], t, q)
  | c :: rest, t, q =>
    match pktin_deq_step QUEUE_MULTI_MAX queue_fn pktio_if_ops q_int t q c with
    | none => none
    | some r =>
      match pktin_deq_run QUEUE_MULTI_MAX queue_fn pktio_if_ops q_int rest r.2.1 r.2.2 with
      | none => none
      | some rs => some (r.1 :: rs.1, rs.2.1, rs.2.2)

/-- The bound on what one call returns: one packet from `pktin_dequeue`, `num`
from `pktin_deq_multi`. -/
def pktin_deq_bound (c : pktin_deq_call) (r : List odp_packet_hdr_t) : Prop :=
  match c with
  | pktin_deq_call.dequeue => r.length ≤ 1
  | pktin_deq_call.deq_multi num => r.length ≤ num

/-- The state of an input queue between calls: the slot of the queue's device is
bound to the driver `d`, and the packets returned so far, the contents of the
backing queue and the packets the driver has not delivered make up `stream`. -/
def fifo_inv (pktio_if_ops : List pktio_if_ops_t) (pktin_of : Nat → odp_pktin_queue_t)
    (q_int : Nat) (k : Nat) (d : pktio_if_ops_t) (pos : Nat → Nat)
    (stream returned : List odp_packet_hdr_t) (t : pktio_table_t)
    (q : Nat → List odp_packet_hdr_t) : Prop :=
  ∃ e, get_pktio_entry t (pktin_of q_int).pktio = some e ∧
    entry_ops pktio_if_ops e = some (k, d) ∧
    returned ++ q q_int ++ stream.drop (pos e.pkt_priv) = stream

/-- A driver that delivers the packets of `stream`, up to three on each call,
reading on from the position kept in its private storage. -/
def stream_ops (stream : List odp_packet_hdr_t) : pktio_if_ops_t :=
  { open_ := fun _ entry _ _ => (0, entry.pkt_priv),
    close := fun entry => (0, entry.pkt_priv),
    start := none,
    stop := none,
    recv := fun entry _ num =>
      let pkts := (stream.drop entry.pkt_priv).take (min 3 num)
      ((pkts.length : Int), pkts, entry.pkt_priv + pkts.length),
    term := none }

/-- Seven packets without destination queue. -/
def sample_stream : List odp_packet_hdr_t :=
  [plain_pkt 1, plain_pkt 2, plain_pkt 3, plain_pkt 4, plain_pkt 5, plain_pkt 6, plain_pkt 7]

/-- The empty queue subsystem. -/
def fifo_empty : Nat → List odp_packet_hdr_t := fun _ => []

/-- A STARTED slot in queued mode with one configured input queue (event queue
100, direct-poll handle of queue 0 of device 1), bound to driver 0. -/
def queued_entry : pktio_entry_t :=
  { sample_entry PKTIO_STATE_STARTED ODP_PKTIN_MODE_QUEUE with
    num_in_queue := 1,
    in_queue := [{ queue := some 100, queue_int := some 100,
                   pktin := { pktio := 1, index := 0 } }] }

/-- A one-slot table holding `queued_entry`. -/
def queued_table : pktio_table_t :=
  { entries := [queued_entry], trace := [] }

/-- Every event queue belongs to input queue 0 of device 1. -/
def sample_pktin_of : Nat → odp_pktin_queue_t := fun _ => { pktio := 1, index := 0 }

/-- Modelled from the spec: the wait sentinel `ODP_PKTIN_NO_WAIT` is zero. -/
def ODP_PKTIN_NO_WAIT : Nat := 0

/-- Modelled from the spec: the wait sentinel `ODP_PKTIN_WAIT` is the largest
value of the 64-bit wait type. -/
def ODP_PKTIN_WAIT : Nat := 2 ^ 64 - 1

/-- The sleep unit `SLEEP_USEC` in microseconds. -/
def SLEEP_USEC : Nat := 1

/-- The number `SLEEP_CHECK` of rounds between two checks of the deadline. -/
def SLEEP_CHECK : Nat := 32

/-- The local variables of `odp_pktin_recv_tmo` that live across the rounds of
its loop: `wait`, `started`, the deadline `t1`, `sleep_round`, and the number of
clock readings made so far. -/
structure recv_tmo_state where
  wait : Nat
  started : Bool
  t1 : Nat
  sleep_round : Nat
  reads : Nat
  deriving DecidableEq, Repr

/-- Modelled from the spec: the deadline part of one round of the loop of
`odp_pktin_recv_tmo` for a finite `wait`. Time is a number of nanoseconds,
`odp_time_local` reads `clock` (the `n`-th reading gives `clock n`),
`odp_time_sum` adds and `odp_time_cmp` compares. Returns whether the deadline
has passed, the variables and the clock readings made. -/
def recv_tmo_deadline (clock : Nat → Nat) (s : recv_tmo_state) :
    Bool × recv_tmo_state × List pktio_event :=
  let s1 : recv_tmo_state :=
    if s.started = false then
      { s with started := true, t1 := clock s.reads + s.wait * 1000 % 2 ^ 64,
               reads := s.reads + 1 }
    else s
  let evs1 := if s.started = false then [pktio_event.time_local (clock s.reads)] else []
  let round := (s1.sleep_round + 1) % 2 ^ 64
  let s2 : recv_tmo_state := { s1 with sleep_round := round }
  if round &&& (SLEEP_CHECK - 1) = 0 then
    let t2 := clock s2.reads
    let s3 : recv_tmo_state := { s2 with reads := s2.reads + 1 }
    if t2 > s3.t1 then (true, s3, evs1 ++ [pktio_event.time_local t2])
    else
      (false, { s3 with wait := if s3.wait > SLEEP_USEC then s3.wait - SLEEP_USEC else 0 },
        evs1 ++ [pktio_event.time_local t2])
  else
    (false, { s2 with wait := if s2.wait > SLEEP_USEC then s2.wait - SLEEP_USEC else 0 }, evs1)

/-- The `while (1)` loop of `odp_pktin_recv_tmo`; `fuel` bounds the number of
rounds, `none` when it is used up (or the slot has no driver). -/
def odp_pktin_recv_tmo_loop (clock : Nat → Nat) (pktio_if_ops : List pktio_if_ops_t)
    (queue : odp_pktin_queue_t) (num : Nat) :
    Nat → recv_tmo_state → pktio_table_t → Option (Int × List odp_packet_hdr_t × pktio_table_t)
  | 0, _, _ => none
  | fuel + 1, s, t =>
    match get_pktio_entry t queue.pktio with
    | none => none
    | some entry =>
      match entry_ops pktio_if_ops entry with
      | none => none
      | some (k, d) =>
        let r := d.recv entry queue.index num
        let entry1 := { entry with pkt_priv := r.2.2 }
        let ev := pktio_event.drv_recv k queue.index r.1
        if r.1 ≠ 0 then some (r.1, r.2.1, put_pktio_entry t queue.pktio entry1 [ev])
        else if s.wait = 0 then some (0, r.2.1, put_pktio_entry t queue.pktio entry1 [ev])
        else if s.wait ≠ ODP_PKTIN_WAIT then
          let dl := recv_tmo_deadline clock s
          if dl.1 = true then
            some (0, r.2.1, put_pktio_entry t queue.pktio entry1 (ev :: dl.2.2))
          else
            odp_pktin_recv_tmo_loop clock pktio_if_ops queue num fuel dl.2.1
              (put_pktio_entry t queue.pktio entry1
                (ev :: dl.2.2 ++ [pktio_event.nanosleep (1000 * SLEEP_USEC)]))
        else
          odp_pktin_recv_tmo_loop clock pktio_if_ops queue num fuel s
            (put_pktio_entry t queue.pktio entry1
              [ev, pktio_event.nanosleep (1000 * SLEEP_USEC)])

/-- `odp_pktin_recv_tmo`: `-1` for a handle without a slot; the driver's
`recv_tmo` when there is one and `wait` is not `ODP_PKTIN_NO_WAIT`; the loop
otherwise. -/
def odp_pktin_recv_tmo (clock : Nat → Nat) (fuel : Nat) (pktio_if_ops : List pktio_if_ops_t)
    (t : pktio_table_t) (queue : odp_pktin_queue_t) (num : Nat) (wait : Nat) :
    Option (Int × List odp_packet_hdr_t × pktio_table_t) :=
  let s0 : recv_tmo_state :=
    { wait := wait, started := false, t1 := 0, sleep_round := 0, reads := 0 }
  match get_pktio_entry t queue.pktio with
  | none => some (-1, [], t)
  | some entry =>
    match entry_ops pktio_if_ops entry with
    | none => none
    | some (k, d) =>
      match d.recv_tmo with
      | some f =>
        if wait ≠ ODP_PKTIN_NO_WAIT then
          let r := f entry queue.index num wait
          some (r.1, r.2.1, put_pktio_entry t queue.pktio { entry with pkt_priv := r.2.2 }
            [pktio_event.drv_recv_tmo k queue.index wait r.1])
        else odp_pktin_recv_tmo_loop clock pktio_if_ops queue num fuel s0 t
      | none => odp_pktin_recv_tmo_loop clock pktio_if_ops queue num fuel s0 t

/-- `odp_pktin_wait_time` on a 64-bit `nsec` (the sum cannot overflow). -/
def odp_pktin_wait_time (nsec : Nat) : Nat :=
  if nsec = 0 then 0 else nsec / 1000 + 1

/-- A driver with a `recv_tmo` that delivers packet 9; its `recv` has no
packets. -/
def tmo_ops : pktio_if_ops_t :=
  { open_ := fun _ entry _ _ => (0, entry.pkt_priv),
    close := fun entry => (0, entry.pkt_priv),
    start := none,
    stop := none,
    recv := fun entry _ _ => (0, [], entry.pkt_priv),
    term := none,
    recv_tmo := some (fun entry _ _ _ => (1, [plain_pkt 9], entry.pkt_priv)) }

/-- The number of calls of a driver's `recv` in a run of ghost events. -/
def recv_calls (evs : List pktio_event) : Nat :=
  evs.countP (fun ev =>
    match ev with
    | pktio_event.drv_recv _ _ _ => true
    | _ => false)

/-- The value of an expression of type `uint32_t` (or `unsigned`). -/
def u32 (x : Nat) : Nat := x % 2 ^ 32

/-- The fields of a netmap descriptor ring `netmap_ring_t` that
`map_netmap_rings` writes. -/
structure netmap_ring_t where
  first : Nat
  cur : Nat
  last : Nat
  num : Nat
  deriving DecidableEq, Repr

/-- The `for` loop of `map_netmap_rings` from queue `i` with `n` queues to go;
`desc_id` is the next ring to map. Arithmetic is `unsigned`. -/
def map_netmap_rings_loop (rings_per_queue remainder : Nat) :
    Nat → Nat → Nat → List netmap_ring_t → List netmap_ring_t
  | 0, _, _, rings => rings
  | n + 1, i, desc_id, rings =>
    let mapped_rings := if i < remainder then u32 (rings_per_queue + 1) else rings_per_queue
    let last := u32 (u32 (desc_id + mapped_rings) + (2 ^ 32 - 1))
    let desc_ring : netmap_ring_t :=
      { first := desc_id, cur := desc_id, last := last, num := mapped_rings }
    map_netmap_rings_loop rings_per_queue remainder n (i + 1) (u32 (last + 1))
      (rings.set i desc_ring)

/-- `map_netmap_rings` of `pktio/netmap.c` on the array `rings`. -/
def map_netmap_rings (rings : List netmap_ring_t) (num_queues num_rings : Nat) :
    List netmap_ring_t :=
  let rings_per_queue := num_rings / num_queues
  let remainder := num_rings % num_queues
  map_netmap_rings_loop rings_per_queue remainder num_queues 0 0 rings

/-- The first ring of queue `i` when `num_rings` rings are dealt to
`num_queues` queues, the first `num_rings % num_queues` queues getting one ring
more than the others. -/
def ring_first (num_queues num_rings i : Nat) : Nat :=
  i * (num_rings / num_queues) + min i (num_rings % num_queues)

/-- An array of `n` cleared descriptor rings. -/
def blank_rings (n : Nat) : List netmap_ring_t :=
  List.replicate n { first := 0, cur := 0, last := 0, num := 0 }

/-! ## The buffer pool (`pool/generic.c`) -/

/-- The cache line size `ODP_CACHE_LINE_SIZE` of `abi/cpu.h`. -/
def ODP_CACHE_LINE_SIZE : Nat := 64

/-- The page size `FIRST_HP_SIZE` from which packet buffers must not cross page
boundaries. -/
def FIRST_HP_SIZE : Nat := 2 * 1024 * 1024

/-- The limit `MAX_SIZE` for contiguous allocations. -/
def MAX_SIZE : Nat := 10 * 1024 * 1024

/-- Modelled from the spec: the compile-time constants of the configuration and
pool headers and the layout of the buffer headers (not among the sources):
the size of `odp_packet_hdr_t`, the offsets of the `data` member in
`odp_buffer_hdr_t` and `odp_packet_hdr_t`, and the sizes of `pool_ring_t` and of
one element of its `buf` array. -/
structure pool_config_t where
  ODP_CONFIG_BUFFER_ALIGN_MIN : Nat
  ODP_CONFIG_BUFFER_ALIGN_MAX : Nat
  CONFIG_PACKET_HEADROOM : Nat
  CONFIG_PACKET_TAILROOM : Nat
  CONFIG_PACKET_MAX_SEG_LEN : Nat
  CONFIG_PACKET_MAX_LEN : Nat
  CONFIG_PACKET_SEG_LEN_MIN : Nat
  CONFIG_PACKET_MAX_SEGS : Nat
  CACHE_BURST : Nat
  ODP_POOL_NAME_LEN : Nat
  sizeof_packet_hdr : Nat
  buf_data_offset : Nat
  pkt_data_offset : Nat
  sizeof_pool_ring : Nat
  sizeof_ring_buf : Nat
  deriving DecidableEq, Repr

/-- The minimal ring size `RING_SIZE_MIN`. -/
def RING_SIZE_MIN (cfg : pool_config_t) : Nat := 2 * cfg.CACHE_BURST

/-- Modelled from the spec: `ROUNDUP_CACHE_LINE(x)`, the 32-bit value `x` rounded
up to a multiple of the cache line size. -/
def ROUNDUP_CACHE_LINE (x : Nat) : Nat :=
  u32 (ODP_CACHE_LINE_SIZE * (u32 (x + (ODP_CACHE_LINE_SIZE - 1)) / ODP_CACHE_LINE_SIZE))

/-- Modelled from the spec: `ROUNDDOWN_POWER2(x, align)`, the 32-bit value `x`
with the bits below the power of two `align` cleared: `x & ~(align - 1)`. -/
def ROUNDDOWN_POWER2 (x align : Nat) : Nat :=
  x &&& ((2 ^ 32 - 1) ^^^ u32 (align + (2 ^ 32 - 1)))

/-- Doubling `p` until it reaches `x`, `fuel` times at most. -/
def pow2_ceil_loop (x : Nat) : Nat → Nat → Nat
  | 0, p => p
  | fuel + 1, p => if x ≤ p then p else pow2_ceil_loop x fuel (2 * p)

/-- The least power of two that is at least `x`, for `x` below `2 ^ 33`. -/
def pow2_ceil (x : Nat) : Nat := pow2_ceil_loop x 33 1

/-- Modelled from the spec: `ROUNDUP_POWER2_U32(x)`, the least power of two that
is at least `x`, as a 32-bit value. -/
def ROUNDUP_POWER2_U32 (x : Nat) : Nat := u32 (pow2_ceil x)

/-- The pool types `odp_pool_type_t`; `unknown` is any other value. -/
inductive odp_pool_type_t
  | ODP_POOL_BUFFER
  | ODP_POOL_PACKET
  | ODP_POOL_TIMEOUT
  | unknown
  deriving DecidableEq, Repr

open odp_pool_type_t

/-- The pool parameters `odp_pool_param_t`: the type and the members of the
`buf`, `pkt` and `tmo` parts that pool creation reads (32-bit values). -/
structure odp_pool_param_t where
  type : odp_pool_type_t
  buf_num : Nat
  buf_size : Nat
  buf_align : Nat
  pkt_num : Nat
  pkt_len : Nat
  pkt_max_len : Nat
  pkt_seg_len : Nat
  pkt_uarea_size : Nat
  pkt_headroom : Nat
  tmo_num : Nat
  deriving DecidableEq, Repr

/-- A pool handle `odp_pool_t`. -/
abbrev odp_pool_t := Nat

/-- Modelled from the spec: the invalid pool handle. -/
def ODP_POOL_INVALID : odp_pool_t := 0

/-- Modelled from the spec: `pool_index_to_handle`, the slot index plus one. -/
def pool_index_to_handle (pool_idx : Nat) : odp_pool_t := pool_idx + 1

/-- Modelled from the spec: the free ring of a pool, a bounded FIFO of buffer
indices, head first. The ring holds `mask + 1` entries at most; an enqueue into
a full ring inserts nothing. -/
structure ring_t where
  data : List Nat
  deriving DecidableEq, Repr

/-- Modelled from the spec: `ring_init`, the empty ring. -/
def ring_init : ring_t := { data := [] }

/-- Modelled from the spec: `ring_enq`. -/
def ring_enq (ring : ring_t) (mask : Nat) (data : Nat) : ring_t :=
  if ring.data.length ≤ mask then { data := ring.data ++ [data] } else ring

/-- A thread's cache `pool_cache_t` of free buffer indices: the first `num`
elements of `buf_index` are in use. -/
structure pool_cache_t where
  num : Nat
  buf_index : List Nat
  deriving DecidableEq, Repr

/-- The buffer header that `init_buffers` writes at the start of a block, with
the block index, the block address and the address `data` as ghost fields;
`uarea_addr = none` is `NULL`. -/
structure odp_buffer_hdr_t where
  index : Nat
  addr : Nat
  data : Nat
  size : Nat
  type : odp_pool_type_t
  uarea_addr : Option Nat
  seg_data : Nat
  seg_len : Nat
  base_data : Nat
  buf_end : Nat
  deriving DecidableEq, Repr

/-- A block of shared memory as `odp_shm_addr` and `odp_shm_info` describe it:
its address and its page size (`none`: `odp_shm_info` fails). -/
structure shm_block_t where
  addr : Nat
  page_size : Option Nat
  deriving DecidableEq, Repr

/-- The names under which pool creation reserves shared memory: the ring of
slot `i` ("pool_ring_<i>"), the pool memory (the pool name) and the user area
(the pool name followed by "_uarea"). -/
inductive shm_name_t
  | ring (i : Nat)
  | pool (name : List Char)
  | uarea (name : List Char)
  deriving DecidableEq, Repr

/-- A pool slot `pool_t` (the fields that creation, destruction, lookup and the
cache flush read or write); `ring = none` is the `NULL` pointer, a shared memory
handle `none` is `ODP_SHM_INVALID`, `hdrs` are the buffer headers in the pool
memory. -/
structure pool_t where
  reserved : Bool
  name : List Char
  params : Option odp_pool_param_t
  pool_hdl : odp_pool_t
  pool_idx : Nat
  ring : Option ring_t
  ring_shm : Option shm_block_t
  ring_mask : Nat
  num : Nat
  align : Nat
  headroom : Nat
  seg_len : Nat
  max_len : Nat
  tailroom : Nat
  block_size : Nat
  uarea_size : Nat
  shm_size : Nat
  uarea_shm_size : Nat
  shm : Option shm_block_t
  uarea_shm : Option shm_block_t
  base_addr : Nat
  uarea_base_addr : Nat
  local_cache : List pool_cache_t
  hdrs : List odp_buffer_hdr_t
  deriving DecidableEq, Repr

/-- The pool table `pool_tbl`: its length is `ODP_CONFIG_POOLS`. -/
structure pool_table_t where
  pool : List pool_t
  deriving DecidableEq, Repr

/-- `pool_entry`: the slot with index `i`. -/
def pool_entry (tbl : pool_table_t) (i : Nat) : Option pool_t := tbl.pool[i]?

/-- Modelled from the spec: `pool_entry_from_hdl`, the slot of a handle; the
invalid handle and a handle beyond the table have none. -/
def pool_entry_from_hdl (tbl : pool_table_t) (pool_hdl : odp_pool_t) : Option pool_t :=
  if pool_hdl = ODP_POOL_INVALID then none else tbl.pool[pool_hdl - 1]?

/-- Store a slot back into the table (writes through the pool pointer). -/
def put_pool (tbl : pool_table_t) (i : Nat) (pool : pool_t) : pool_table_t :=
  { pool := tbl.pool.set i pool }

/-- A cleared pool slot as `generic_pool_init_global` leaves slot `i`, with
`threads` cleared caches. -/
def blank_pool (threads : Nat) (i : Nat) : pool_t :=
  { reserved := false, name := [], params := none, pool_hdl := pool_index_to_handle i,
    pool_idx := i, ring := none, ring_shm := none, ring_mask := 0, num := 0, align := 0,
    headroom := 0, seg_len := 0, max_len := 0, tailroom := 0, block_size := 0,
    uarea_size := 0, shm_size := 0, uarea_shm_size := 0, shm := none, uarea_shm := none,
    base_addr := 0, uarea_base_addr := 0,
    local_cache := List.replicate threads { num := 0, buf_index := [] },
    hdrs := [] }

/-- The pool table after `generic_pool_init_global`: `n` cleared slots. -/
def generic_pool_init_global (n threads : Nat) : pool_table_t :=
  { pool := (List.range n).map (blank_pool threads) }

/-- The `for` loop of `flush_cache` from element `i`, `n` elements to go; a read
beyond `buf_index` is `none`. -/
def flush_cache_loop (buf_index : List Nat) (mask : Nat) : Nat → Nat → ring_t → Option ring_t
  | 0, _, ring => some ring
  | n + 1, i, ring =>
    match buf_index[i]? with
    | none => none
    | some index => flush_cache_loop buf_index mask n (i + 1) (ring_enq ring mask index)

/-- `flush_cache` on the cache of thread `thr` of a pool: the cached indices go
to the ring and the cache is emptied. `none` when the pool has no such cache, or
when the cache holds indices and the ring pointer is `NULL`. -/
def flush_cache (pool : pool_t) (thr : Nat) : Option pool_t :=
  match pool.local_cache[thr]? with
  | none => none
  | some cache =>
    let cache_num := cache.num
    let emptied := pool.local_cache.set thr { cache with num := 0 }
    match pool.ring with
    | none => if cache_num = 0 then some { pool with local_cache := emptied } else none
    | some ring =>
      match flush_cache_loop cache.buf_index pool.ring_mask cache_num 0 ring with
      | none => none
      | some ring1 => some { pool with ring := some ring1, local_cache := emptied }

/-- The loop of `generic_pool_term_local` over the pool slots, for the calling
thread `thr_id`. -/
def term_local_loop (thr_id : Nat) : List pool_t → Option (List pool_t)
  | [] => some []
  | pool :: rest =>
    match flush_cache pool thr_id with
    | none => none
    | some pool1 =>
      match term_local_loop thr_id rest with
      | none => none
      | some rest1 => some (pool1 :: rest1)

/-- `generic_pool_term_local` for the thread `thr_id` (whose caches
`generic_pool_init_local` recorded): the return value and the table. -/
def generic_pool_term_local (tbl : pool_table_t) (thr_id : Nat) : Option (Int × pool_table_t) :=
  match term_local_loop thr_id tbl.pool with
  | none => none
  | some pools => some (0, { pool := pools })

/-- Modelled from the spec: the alignment `ODP_PAGE_SIZE` asked of the shared
memory allocator. -/
def ODP_PAGE_SIZE : Nat := 4096

/-- The values that `pool_create` computes from the parameters before it fills
in the pool slot. -/
structure pool_sizes_t where
  align : Nat
  headroom : Nat
  tailroom : Nat
  seg_len : Nat
  max_len : Nat
  uarea_size : Nat
  num : Nat
  ring_size : Nat
  hdr_size : Nat
  block_size : Nat
  num_extra : Nat
  deriving DecidableEq, Repr

/-- The alignment check of `pool_create`: the alignment of a buffer pool, zero
for the other types, raised to `ODP_CONFIG_BUFFER_ALIGN_MIN`; `none` when it is
rejected ("Bad align requirement"). -/
def pool_create_align (cfg : pool_config_t) (params : odp_pool_param_t) : Option Nat :=
  let align0 := if params.type = ODP_POOL_BUFFER then params.buf_align else 0
  let align :=
    if align0 < cfg.ODP_CONFIG_BUFFER_ALIGN_MIN then cfg.ODP_CONFIG_BUFFER_ALIGN_MIN
    else align0
  if align > cfg.ODP_CONFIG_BUFFER_ALIGN_MAX ∨ align ≠ ROUNDDOWN_POWER2 align align then none
  else some align

/-- The segment length that `pool_create` chooses for a packet pool; the
arithmetic is 32-bit. -/
def pool_create_seg_len (cfg : pool_config_t) (params : odp_pool_param_t) : Nat × Nat :=
  let seg_len0 := cfg.CONFIG_PACKET_MAX_SEG_LEN
  let seg_len1 :=
    if params.pkt_len ≠ 0 ∧ params.pkt_len < cfg.CONFIG_PACKET_MAX_SEG_LEN then params.pkt_len
    else seg_len0
  let seg_len2 :=
    if params.pkt_seg_len ≠ 0 ∧ params.pkt_seg_len > seg_len1 then params.pkt_seg_len
    else seg_len1
  let seg_len3 :=
    if seg_len2 < cfg.CONFIG_PACKET_SEG_LEN_MIN then cfg.CONFIG_PACKET_SEG_LEN_MIN
    else seg_len2
  let max_len :=
    if params.pkt_max_len ≠ 0 then params.pkt_max_len else cfg.CONFIG_PACKET_MAX_LEN
  let seg_len4 :=
    if u32 (u32 (max_len + seg_len3) + (2 ^ 32 - 1)) / seg_len3 > cfg.CONFIG_PACKET_MAX_SEGS
    then u32 (u32 (max_len + cfg.CONFIG_PACKET_MAX_SEGS) + (2 ^ 32 - 1))
      / cfg.CONFIG_PACKET_MAX_SEGS
    else seg_len3
  (seg_len4, max_len)

/-- The validation and the size computations of `pool_create`: `none` where
`pool_create` returns `ODP_POOL_INVALID` before reserving a pool slot. -/
def pool_create_sizes (cfg : pool_config_t) (params : odp_pool_param_t) :
    Option pool_sizes_t :=
  match pool_create_align cfg params with
  | none => none
  | some align =>
    let chosen : Option (Nat × Nat × Nat × Nat × Nat × Nat) :=
      match params.type with
      | ODP_POOL_BUFFER => some (params.buf_num, params.buf_size, 0, 0, 0, 0)
      | ODP_POOL_PACKET =>
        if params.pkt_headroom > cfg.CONFIG_PACKET_HEADROOM then none
        else
          let sl := pool_create_seg_len cfg params
          if sl.1 > cfg.CONFIG_PACKET_MAX_SEG_LEN then none
          else some (params.pkt_num, sl.1, sl.2, cfg.CONFIG_PACKET_HEADROOM,
            cfg.CONFIG_PACKET_TAILROOM, params.pkt_uarea_size)
      | ODP_POOL_TIMEOUT => some (params.tmo_num, 0, 0, 0, 0, 0)
      | unknown => none
    match chosen with
    | none => none
    | some (num, seg_len, max_len, headroom, tailroom, uarea_size0) =>
      let uarea_size := if uarea_size0 ≠ 0 then ROUNDUP_CACHE_LINE uarea_size0 else uarea_size0
      let ring_size :=
        if num ≤ RING_SIZE_MIN cfg then RING_SIZE_MIN cfg else ROUNDUP_POWER2_U32 num
      let hdr_size := ROUNDUP_CACHE_LINE cfg.sizeof_packet_hdr
      let block_size :=
        ROUNDUP_CACHE_LINE (u32 (hdr_size + align + headroom + seg_len + tailroom))
      let num_extra1 :=
        if params.type = ODP_POOL_PACKET then
          u32 ((u32 (num * block_size) + FIRST_HP_SIZE - 1) / FIRST_HP_SIZE)
        else 0
      let num_extra :=
        if params.type = ODP_POOL_PACKET then
          u32 (num_extra1 + (u32 (num_extra1 * block_size) + FIRST_HP_SIZE - 1) / FIRST_HP_SIZE)
        else 0
      some { align := align, headroom := headroom, tailroom := tailroom, seg_len := seg_len,
             max_len := max_len, uarea_size := uarea_size, num := num, ring_size := ring_size,
             hdr_size := hdr_size, block_size := block_size, num_extra := num_extra }

/-- The scan of `reserve_pool` from slot `i`: the first slot that is not
reserved is reserved and gets its ring from `odp_shm_reserve`; when that fails
the slot is released again and the scan stops. Returns the index of the slot
reserved, if any, and the slots. -/
def reserve_pool_scan (cfg : pool_config_t)
    (odp_shm_reserve : shm_name_t → Nat → Nat → Nat → Option shm_block_t) (ring_size : Nat) :
    List pool_t → Nat → Option Nat × List pool_t
  | [], _ => (none, [])
  | pool :: rest, i =>
    if pool.reserved = false then
      let ring_shm_size := u32 (cfg.sizeof_pool_ring + u32 (cfg.sizeof_ring_buf * ring_size))
      match odp_shm_reserve (shm_name_t.ring i) ring_shm_size ODP_CACHE_LINE_SIZE 0 with
      | none => (none, { pool with reserved := false, ring_shm := none } :: rest)
      | some shm =>
        (some i, { pool with reserved := true, ring_shm := some shm, ring := some ring_init }
          :: rest)
    else
      let r := reserve_pool_scan cfg odp_shm_reserve ring_size rest (i + 1)
      (r.1, pool :: r.2)

/-- `reserve_pool`: the index of the slot reserved (`none`: `NULL`) and the
table. -/
def reserve_pool (cfg : pool_config_t)
    (odp_shm_reserve : shm_name_t → Nat → Nat → Nat → Option shm_block_t)
    (tbl : pool_table_t) (ring_size : Nat) : Option Nat × pool_table_t :=
  let r := reserve_pool_scan cfg odp_shm_reserve ring_size tbl.pool 0
  (r.1, { pool := r.2 })

/-- The type of a pool, read from its stored parameters. -/
def pool_type (pool : pool_t) : odp_pool_type_t :=
  match pool.params with
  | none => unknown
  | some params => params.type

/-- The page of an address: `addr & ~(page_size - 1)` on 64-bit values. -/
def page_of (addr page_size : Nat) : Nat := addr &&& bits_not64 (page_size - 1)

/-- The loop "move to correct align" of `init_buffers`: `offset` is
incremented until `data + offset` is a multiple of `align`; `fuel` bounds the
number of tests. -/
def align_offset_loop (data align : Nat) : Nat → Nat → Option Nat
  | 0, _ => none
  | fuel + 1, offset =>
    if (data + offset) % align ≠ 0 then align_offset_loop data align fuel (u32 (offset + 1))
    else some offset

/-- The `for` loop of `init_buffers` from block `i`, with `skipped_blocks`
blocks skipped so far: the headers initialised, the ring and the number of
blocks skipped. `fuel` bounds the number of rounds. The alignment loop is given
`align + 1` tests, more than it needs when `align` is not zero. Addresses are
natural numbers: a block lies in the 64-bit address space, so that pointer
arithmetic within it does not wrap, while the 32-bit index expressions do. -/
def init_buffers_loop (cfg : pool_config_t) (pool : pool_t) (page_size : Nat) :
    Nat → Nat → Nat → ring_t → Option (List odp_buffer_hdr_t × ring_t × Nat)
  | 0, _, _, _ => none
  | fuel + 1, i, skipped_blocks, ring =>
    if ¬ i < u32 (pool.num + skipped_blocks) then some ([], ring, skipped_blocks)
    else
      let addr := pool.base_addr + u32 (i * pool.block_size)
      let type := pool_type pool
      if type = ODP_POOL_PACKET ∧ page_size ≥ FIRST_HP_SIZE ∧
          page_of (addr + pool.block_size - 1) page_size ≠ page_of addr page_size
      then
        init_buffers_loop cfg pool page_size fuel (u32 (i + 1)) (skipped_blocks + 1) ring
      else
        let uarea :=
          if pool.uarea_size ≠ 0 then
            some (pool.uarea_base_addr
              + u32 (u32 (i + (2 ^ 32 - u32 skipped_blocks)) * pool.uarea_size))
          else none
        let data :=
          if type = ODP_POOL_PACKET then addr + cfg.pkt_data_offset
          else addr + cfg.buf_data_offset
        match align_offset_loop data pool.align (pool.align + 1) pool.headroom with
        | none => none
        | some offset =>
          let buf_hdr : odp_buffer_hdr_t :=
            { index := i, addr := addr, data := data,
              size := u32 (pool.headroom + pool.seg_len + pool.tailroom),
              type := type, uarea_addr := uarea,
              seg_data := data + offset, seg_len := pool.seg_len,
              base_data := data + offset,
              buf_end := data + u32 (offset + pool.seg_len + pool.tailroom) }
          match init_buffers_loop cfg pool page_size fuel (u32 (i + 1)) skipped_blocks
              (ring_enq ring pool.ring_mask i) with
          | none => none
          | some r => some (buf_hdr :: r.1, r.2.1, r.2.2)

/-- `init_buffers`: `none` is `ODP_ABORT` (no information on the pool memory),
a `NULL` ring, or a loop that does not end within `fuel` rounds. -/
def init_buffers (cfg : pool_config_t) (fuel : Nat) (pool : pool_t) : Option pool_t :=
  match pool.shm.bind (fun shm => shm.page_size) with
  | none => none
  | some page_size =>
    match pool.ring with
    | none => none
    | some ring =>
      match init_buffers_loop cfg pool page_size fuel 0 0 ring with
      | none => none
      | some r => some { pool with hdrs := r.1, ring := some r.2.1 }

/-- `pool_create`: the handle returned and the table; `name = none` and
`params = none` are `NULL` pointers, `none` as result is an abort. -/
def pool_create (cfg : pool_config_t)
    (odp_shm_reserve : shm_name_t → Nat → Nat → Nat → Option shm_block_t) (fuel : Nat)
    (tbl : pool_table_t) (name : Option (List Char)) (params : Option odp_pool_param_t)
    (shmflags : Nat) : Option (odp_pool_t × pool_table_t) :=
  match params with
  | none => some (ODP_POOL_INVALID, tbl)
  | some params1 =>
    match pool_create_sizes cfg params1 with
    | none => some (ODP_POOL_INVALID, tbl)
    | some sz =>
      match reserve_pool cfg odp_shm_reserve tbl sz.ring_size with
      | (none, tbl1) => some (ODP_POOL_INVALID, tbl1)
      | (some i, tbl1) =>
        match pool_entry tbl1 i with
        | none => none
        | some pool0 =>
          let pool_name := match name with
            | none => []
            | some n => n.take (cfg.ODP_POOL_NAME_LEN - 1)
          let pool1 : pool_t :=
            { pool0 with
              name := pool_name, params := some params1,
              ring_mask := u32 (sz.ring_size + (2 ^ 32 - 1)),
              num := sz.num, align := sz.align, headroom := sz.headroom,
              seg_len := sz.seg_len, max_len := sz.max_len, tailroom := sz.tailroom,
              block_size := sz.block_size, uarea_size := sz.uarea_size,
              shm_size := u32 (u32 (sz.num + sz.num_extra) * sz.block_size),
              uarea_shm_size := u32 (sz.num * sz.uarea_size) }
          match odp_shm_reserve (shm_name_t.pool pool_name) pool1.shm_size ODP_PAGE_SIZE shmflags with
          | none =>
            some (ODP_POOL_INVALID,
              put_pool tbl1 i { pool1 with shm := none, reserved := false })
          | some shm =>
            let pool2 : pool_t :=
              { pool1 with shm := some shm, base_addr := shm.addr, uarea_shm := none }
            let with_uarea : Option pool_t :=
              if sz.uarea_size ≠ 0 then
                match odp_shm_reserve (shm_name_t.uarea pool_name) pool2.uarea_shm_size
                    ODP_PAGE_SIZE shmflags with
                | none => none
                | some ushm =>
                  some { pool2 with uarea_shm := some ushm, uarea_base_addr := ushm.addr }
              else some pool2
            match with_uarea with
            | none => some (ODP_POOL_INVALID, put_pool tbl1 i { pool2 with reserved := false })
            | some pool3 =>
              match init_buffers cfg fuel { pool3 with ring := some ring_init } with
              | none => none
              | some pool4 => some (pool4.pool_hdl, put_pool tbl1 i pool4)

/-- `check_params` against the limits of `generic_pool_capability`; `none` is
the `NULL` parameter pointer. -/
def check_params (cfg : pool_config_t) (params : Option odp_pool_param_t) : Option Int :=
  match params with
  | none => none
  | some p =>
    match p.type with
    | ODP_POOL_BUFFER =>
      if p.buf_size > MAX_SIZE then some (-1)
      else if p.buf_align > cfg.ODP_CONFIG_BUFFER_ALIGN_MAX then some (-1)
      else some 0
    | ODP_POOL_PACKET =>
      if p.pkt_len > cfg.CONFIG_PACKET_MAX_LEN then some (-1)
      else if p.pkt_max_len > cfg.CONFIG_PACKET_MAX_LEN then some (-1)
      else if p.pkt_seg_len > cfg.CONFIG_PACKET_MAX_SEG_LEN then some (-1)
      else if p.pkt_uarea_size > MAX_SIZE then some (-1)
      else some 0
    | ODP_POOL_TIMEOUT => some 0
    | unknown => some (-1)

/-- Modelled from the spec: the shared memory flag `ODP_SHM_PROC` that makes the
memory shareable across processes. -/
def ODP_SHM_PROC : Nat := 2

/-- `generic_pool_create`. -/
def generic_pool_create (cfg : pool_config_t)
    (odp_shm_reserve : shm_name_t → Nat → Nat → Nat → Option shm_block_t) (fuel : Nat)
    (tbl : pool_table_t) (name : Option (List Char)) (params : Option odp_pool_param_t) :
    Option (odp_pool_t × pool_table_t) :=
  match check_params cfg params with
  | none => none
  | some rc =>
    if rc ≠ 0 then some (ODP_POOL_INVALID, tbl)
    else
      let shm_flags :=
        match params with
        | some p => if p.type = ODP_POOL_PACKET then ODP_SHM_PROC else 0
        | none => 0
      pool_create cfg odp_shm_reserve fuel tbl name params shm_flags

/-- The loop of `generic_pool_destroy` over the thread caches, from thread `thr`
with `n` threads to go. -/
def destroy_flush_loop : Nat → Nat → pool_t → Option pool_t
  | 0, _, pool => some pool
  | n + 1, thr, pool =>
    match flush_cache pool thr with
    | none => none
    | some pool1 => destroy_flush_loop n (thr + 1) pool1

/-- `generic_pool_destroy`: every thread's cache is flushed, the memory is
freed, the slot is released and its ring pointer cleared. The number of
threads `ODP_THREAD_COUNT_MAX` is the length of `local_cache`. -/
def generic_pool_destroy (tbl : pool_table_t) (pool_hdl : odp_pool_t) :
    Option (Int × pool_table_t) :=
  match pool_entry_from_hdl tbl pool_hdl with
  | none => some (-1, tbl)
  | some pool =>
    if pool.reserved = false then some (-1, tbl)
    else
      match destroy_flush_loop pool.local_cache.length 0 pool with
      | none => none
      | some pool1 =>
        some (0, put_pool tbl (pool_hdl - 1) { pool1 with reserved := false, ring := none })

/-- The scan of `generic_pool_lookup`: the handle of the first slot whose name
compares equal. -/
def pool_lookup_scan (name : List Char) : List pool_t → odp_pool_t
  | [] => ODP_POOL_INVALID
  | pool :: rest => if name = pool.name then pool.pool_hdl else pool_lookup_scan name rest

/-- `generic_pool_lookup`. -/
def generic_pool_lookup (tbl : pool_table_t) (name : List Char) : odp_pool_t :=
  pool_lookup_scan name tbl.pool

/-- Sample values of the configuration constants. -/
def sample_pool_config : pool_config_t :=
  { ODP_CONFIG_BUFFER_ALIGN_MIN := 16, ODP_CONFIG_BUFFER_ALIGN_MAX := 4096,
    CONFIG_PACKET_HEADROOM := 128, CONFIG_PACKET_TAILROOM := 0,
    CONFIG_PACKET_MAX_SEG_LEN := 2048, CONFIG_PACKET_MAX_LEN := 8192,
    CONFIG_PACKET_SEG_LEN_MIN := 256, CONFIG_PACKET_MAX_SEGS := 4,
    CACHE_BURST := 32, ODP_POOL_NAME_LEN := 32, sizeof_packet_hdr := 256,
    buf_data_offset := 128, pkt_data_offset := 256, sizeof_pool_ring := 64,
    sizeof_ring_buf := 4 }

/-- A shared memory allocator that always succeeds: rings at address 4096, pool
memory at `2 ^ 30`, user areas at `2 ^ 31`, all with pages of `page_size`. -/
def sample_shm_reserve (page_size : Nat) : shm_name_t → Nat → Nat → Nat → Option shm_block_t
  | shm_name_t.ring _, _, _, _ => some { addr := 4096, page_size := some page_size }
  | shm_name_t.pool _, _, _, _ => some { addr := 2 ^ 30, page_size := some page_size }
  | shm_name_t.uarea _, _, _, _ => some { addr := 2 ^ 31, page_size := some page_size }

/-- Parameters of a buffer pool of `num` buffers of 100 bytes with alignment
`align`. -/
def buffer_params (num align : Nat) : odp_pool_param_t :=
  { type := ODP_POOL_BUFFER, buf_num := num, buf_size := 100, buf_align := align,
    pkt_num := 0, pkt_len := 0, pkt_max_len := 0, pkt_seg_len := 0, pkt_uarea_size := 0,
    pkt_headroom := 0, tmo_num := 0 }

/-- Parameters of a packet pool of `num` packets with the default lengths and a
user area of `uarea_size` bytes. -/
def packet_params (num uarea_size : Nat) : odp_pool_param_t :=
  { type := ODP_POOL_PACKET, buf_num := 0, buf_size := 0, buf_align := 0,
    pkt_num := num, pkt_len := 0, pkt_max_len := 0, pkt_seg_len := 0,
    pkt_uarea_size := uarea_size, pkt_headroom := 0, tmo_num := 0 }

/-- The fields of a pool slot as `pool_create` fills them in from the sizes it
computed. -/
def pool_filled (cfg : pool_config_t) (name : Option (List Char)) (params : odp_pool_param_t)
    (sz : pool_sizes_t) (pool : pool_t) : Prop :=
  pool.reserved = true ∧
  pool.name = (match name with
    | none => []
    | some n => n.take (cfg.ODP_POOL_NAME_LEN - 1)) ∧
  pool.params = some params ∧
  pool.ring_mask = u32 (sz.ring_size + (2 ^ 32 - 1)) ∧
  pool.num = sz.num ∧ pool.align = sz.align ∧ pool.headroom = sz.headroom ∧
  pool.seg_len = sz.seg_len ∧ pool.tailroom = sz.tailroom ∧
  pool.block_size = sz.block_size ∧ pool.uarea_size = sz.uarea_size

/-- The handles of a pool table are those `generic_pool_init_global` set. -/
def pool_handles_ok (tbl : pool_table_t) : Prop :=
  ∀ i pool, tbl.pool[i]? = some pool → pool.pool_hdl = pool_index_to_handle i

/-- The pool slot as `pool_create` passes it to `init_buffers` when the pool has
no user area: the slot `pb` reserved with ring memory `rshm`, filled in from the
sizes `sz`, with the pool memory `shm`. -/
def filled_slot (cfg : pool_config_t) (pb : pool_t) (name : Option (List Char))
    (params : odp_pool_param_t) (sz : pool_sizes_t) (rshm shm : shm_block_t) : pool_t :=
  { pb with
    reserved := true, ring_shm := some rshm, ring := some ring_init,
    name := (match name with
      | none => []
      | some n => n.take (cfg.ODP_POOL_NAME_LEN - 1)),
    params := some params,
    ring_mask := u32 (sz.ring_size + (2 ^ 32 - 1)),
    num := sz.num, align := sz.align, headroom := sz.headroom,
    seg_len := sz.seg_len, max_len := sz.max_len, tailroom := sz.tailroom,
    block_size := sz.block_size, uarea_size := sz.uarea_size,
    shm_size := u32 (u32 (sz.num + sz.num_extra) * sz.block_size),
    uarea_shm_size := u32 (sz.num * sz.uarea_size),
    shm := some shm, base_addr := shm.addr, uarea_shm := none }

/-- The cache of thread `thr` of a pool can be flushed: the pool has that cache
and either a ring with room for the cached indices, which lie within
`buf_index`, or no ring and an empty cache. -/
def flushable (pool : pool_t) (thr : Nat) : Prop :=
  ∃ cache, pool.local_cache[thr]? = some cache ∧
    ((∃ ring, pool.ring = some ring ∧ cache.num ≤ cache.buf_index.length ∧
        ring.data.length + cache.num ≤ pool.ring_mask + 1) ∨
      (pool.ring = none ∧ cache.num = 0))

/-- A pool slot with a ring of eight entries holding the indices 0 and 1, whose
thread 0 caches the indices 5 and 6 (of a `buf_index` array of four). -/
def cached_pool : pool_t :=
  { blank_pool 1 0 with
    reserved := true, ring := some { data := [0, 1] }, ring_mask := 7, num := 4,
    local_cache := [{ num := 2, buf_index := [5, 6, 0, 0] }] }

/-- A packet pool slot as `init_buffers` receives it, with two blocks of 2496
bytes whose memory starts 8 bytes past a multiple of 16. -/
def sample_unaligned_pool : pool_t :=
  { blank_pool 1 0 with
    reserved := true, params := some (packet_params 2 0), ring := some ring_init,
    ring_mask := 63, num := 2, align := 16, headroom := 128, seg_len := 2048,
    max_len := 8192, block_size := 2496, shm_size := 4992,
    shm := some { addr := 2 ^ 30 + 8, page_size := some 4096 }, base_addr := 2 ^ 30 + 8 }

/-- The assumptions on the configuration constants under which the block size
computation of `pool_create` stays within 32 bits: the minimum alignment is not
zero, the data fields lie within the packet header (`data` is the last member
of the headers, and the packet header begins with the buffer header), and the
largest sum of header, alignment, headroom, segment and tailroom stays below
`2 ^ 31`. -/
def pool_config_ok (cfg : pool_config_t) : Prop :=
  0 < cfg.ODP_CONFIG_BUFFER_ALIGN_MIN ∧
  cfg.buf_data_offset ≤ cfg.sizeof_packet_hdr ∧
  0 < cfg.pkt_data_offset ∧ cfg.pkt_data_offset ≤ cfg.sizeof_packet_hdr ∧
  cfg.sizeof_packet_hdr + cfg.ODP_CONFIG_BUFFER_ALIGN_MAX + cfg.CONFIG_PACKET_HEADROOM
    + cfg.CONFIG_PACKET_MAX_SEG_LEN + cfg.CONFIG_PACKET_TAILROOM + MAX_SIZE + 128 ≤ 2 ^ 31

/-- A shared memory allocator that always succeeds and places the pool memory at
`addr`: rings at address 4096, user areas at `2 ^ 31`, all with pages of
`page_size`. -/
def offset_shm_reserve (addr page_size : Nat) :
    shm_name_t → Nat → Nat → Nat → Option shm_block_t
  | shm_name_t.ring _, _, _, _ => some { addr := 4096, page_size := some page_size }
  | shm_name_t.pool _, _, _, _ => some { addr := addr, page_size := some page_size }
  | shm_name_t.uarea _, _, _, _ => some { addr := 2 ^ 31, page_size := some page_size }

/-- The pool table after a packet pool of two packets has been created on a
fresh table of one slot, on pages of 2 MiB, with the pool memory starting 4096
bytes before a page boundary. -/
def straddle_table : pool_table_t :=
  match generic_pool_create sample_pool_config
      (offset_shm_reserve (2 ^ 30 + 2 ^ 21 - 4096) (2 ^ 21)) 8
      (generic_pool_init_global 1 1) (some ['p']) (some (packet_params 2 0)) with
  | some r => r.2
  | none => { pool := [] }

/-- The pool of `straddle_table`. -/
def straddle_pool : pool_t :=
  match pool_entry_from_hdl straddle_table 1 with
  | some pool => pool
  | none => blank_pool 1 0

/-! ## Lemmas on lists, handles and the open path -/

/-- An index that holds an element lies inside the list. -/
theorem list_get_lt {α : Type} (l : List α) (i : Nat) (a : α) (h : l[i]? = some a) :
    i < l.length := by
  by_contra hc
  rw [List.getElem?_eq_none (Nat.not_lt.mp hc)] at h
  cases h

/-- Writing back the element already stored leaves a list unchanged. -/
theorem list_set_same {α : Type} (l : List α) (i : Nat) (a : α) (h : l[i]? = some a) :
    l.set i a = l := by
  apply List.ext_getElem?
  intro j
  rw [List.getElem?_set]
  by_cases hij : i = j
  · subst hij
    simp [list_get_lt l i a h, h]
  · simp [hij]

/-- Storing a slot unchanged, with no event, is the identity on the table. -/
theorem put_pktio_entry_same (t : pktio_table_t) (hdl : odp_pktio_t) (entry : pktio_entry_t)
    (h : get_pktio_entry t hdl = some entry) : put_pktio_entry t hdl entry [] = t := by
  unfold get_pktio_entry at h
  split at h
  · cases h
  · cases t with
    | mk entries trace =>
      simp only [put_pktio_entry, List.append_nil, pktio_table_t.mk.injEq, and_true]
      exact list_set_same entries (hdl - 1) entry h

/-- A valid handle is nonzero and its slot is `entries[hdl - 1]`. -/
theorem get_pktio_entry_some (t : pktio_table_t) (hdl : odp_pktio_t) (e : pktio_entry_t)
    (h : get_pktio_entry t hdl = some e) :
    hdl ≠ ODP_PKTIO_INVALID ∧ t.entries[hdl - 1]? = some e := by
  unfold get_pktio_entry at h
  split at h
  · cases h
  · rename_i hne
    exact ⟨hne, h⟩

/-- The slot stored by `put_pktio_entry` is the one read back. -/
theorem get_put_pktio_entry (t : pktio_table_t) (hdl : odp_pktio_t) (e0 e : pktio_entry_t)
    (evs : List pktio_event) (h : get_pktio_entry t hdl = some e0) :
    get_pktio_entry (put_pktio_entry t hdl e evs) hdl = some e := by
  obtain ⟨hne, hget⟩ := get_pktio_entry_some t hdl e0 h
  have hlt := list_get_lt _ _ _ hget
  simp [get_pktio_entry, hne, put_pktio_entry, List.getElem?_set, hlt]


/-- The scan of `alloc_lock_pktio_entry` returns the lowest index of a FREE
slot. -/
theorem alloc_scan_some (l : List pktio_entry_t) (k i : Nat) (h : alloc_scan l k = some i) :
    ∃ e, k ≤ i ∧ l[i - k]? = some e ∧ e.state = PKTIO_STATE_FREE ∧
      ∀ j, j < i - k → ∀ e1, l[j]? = some e1 → e1.state ≠ PKTIO_STATE_FREE := by
  induction l generalizing k with
  | nil => simp [alloc_scan] at h
  | cons a rest ih =>
    unfold alloc_scan at h
    by_cases hf : is_free a = true
    · simp only [hf, if_true, Option.some.injEq] at h
      subst h
      refine ⟨a, le_refl _, by simp, ?_, ?_⟩
      · simpa [is_free] using hf
      · intro j hj; omega
    · simp only [hf] at h
      obtain ⟨e, hk, hget, hfree, hmin⟩ := ih (k + 1) h
      refine ⟨e, by omega, ?_, hfree, ?_⟩
      · have : i - k = (i - (k + 1)) + 1 := by omega
        rw [this]
        simpa using hget
      · intro j hj e1 hj1
        cases j with
        | zero =>
          simp at hj1
          subst hj1
          simpa [is_free] using hf
        | succ j1 =>
          simp at hj1
          exact hmin j1 (by omega) e1 hj1

/-- The probe loop changes nothing in the slot but the driver-private storage. -/
theorem open_loop_entry (hdl : odp_pktio_t) (name : List Char) (pool : Nat)
    (ds : List pktio_if_ops_t) (s : Nat) (r : Int) (e : pktio_entry_t) :
    (open_loop hdl name pool ds s r e).2.2.1 =
      { e with pkt_priv := (open_loop hdl name pool ds s r e).2.2.1.pkt_priv } := by
  induction ds generalizing s r e with
  | nil => simp [open_loop]
  | cons d rest ih =>
    unfold open_loop
    by_cases h0 : (d.open_ hdl e name pool).1 = 0
    · simp [h0]
    · simp only [h0, if_false]
      rw [ih]

/-- A probe loop that ends with 0 stopped at a driver `k` of the table: the
drivers before `k` were each called once, in order, and returned nonzero, the
driver `k` returned 0, and no later driver was called. -/
theorem open_loop_trace (hdl : odp_pktio_t) (name : List Char) (pool : Nat)
    (ds : List pktio_if_ops_t) (s : Nat) (r : Int) (e : pktio_entry_t) (hr : r ≠ 0)
    (h0 : (open_loop hdl name pool ds s r e).1 = 0) :
    ∃ rets : List Int,
      s ≤ (open_loop hdl name pool ds s r e).2.1 ∧
      (open_loop hdl name pool ds s r e).2.1 < s + ds.length ∧
      rets.length = (open_loop hdl name pool ds s r e).2.1 - s ∧
      (∀ x ∈ rets, x ≠ 0) ∧
      (open_loop hdl name pool ds s r e).2.2.2 =
        List.zipWith pktio_event.drv_open (List.range' s rets.length) rets ++
          [pktio_event.drv_open (open_loop hdl name pool ds s r e).2.1 0] := by
  induction ds generalizing s r e with
  | nil => simp [open_loop] at h0; exact absurd h0 hr
  | cons d rest ih =>
    unfold open_loop at h0 ⊢
    by_cases hd : (d.open_ hdl e name pool).1 = 0
    · simp only [hd, if_true]
      exact ⟨[], by simp⟩
    · simp only [hd, if_false] at h0 ⊢
      obtain ⟨rets, h1, h2, h3, h4, h5⟩ := ih (s + 1) _ _ hd h0
      refine ⟨(d.open_ hdl e name pool).1 :: rets, by omega, ?_, ?_, ?_, ?_⟩
      · simp only [List.length_cons]; omega
      · simp only [List.length_cons]; omega
      · intro x hx
        rcases List.mem_cons.mp hx with rfl | hx1
        · exact hd
        · exact h4 x hx1
      · rw [h5]
        simp [List.range'_succ]

/-- The slot handed to the probe loop is ACTIVE and keeps the name of the
allocated slot. -/
theorem setup_entry_state (e0 : pktio_entry_t) (hdl : odp_pktio_t) (pool : Nat)
    (param : odp_pktio_param_t) :
    (setup_entry e0 hdl pool param).state = PKTIO_STATE_ACTIVE ∧
    (setup_entry e0 hdl pool param).name = e0.name := by
  simp [setup_entry, init_pktio_entry, init_in_queues, init_out_queues]

/-- `setup_pktio_entry` once a slot is allocated: the outcome is decided by the
probe loop alone. -/
theorem setup_pktio_entry_alloc (L : Nat) (ops : List pktio_if_ops_t) (t : pktio_table_t)
    (name : List Char) (pool : Nat) (param : odp_pktio_param_t) (i : Nat)
    (e0 : pktio_entry_t) (hlen : name.length < L - 1)
    (hscan : alloc_scan t.entries 0 = some i) (hget : t.entries[i]? = some e0) :
    setup_pktio_entry L ops t name pool param =
      if (open_loop (i + 1) name pool ops 0 (-1) (setup_entry e0 (i + 1) pool param)).1 ≠ 0 then
        (ODP_PKTIO_INVALID,
          { entries := t.entries.set i
              { (open_loop (i + 1) name pool ops 0 (-1)
                  (setup_entry e0 (i + 1) pool param)).2.2.1 with state := PKTIO_STATE_FREE },
            trace := t.trace ++ pktio_event.set_state e0.state PKTIO_STATE_ACTIVE ::
              ((open_loop (i + 1) name pool ops 0 (-1)
                  (setup_entry e0 (i + 1) pool param)).2.2.2 ++
                [pktio_event.set_state PKTIO_STATE_ACTIVE PKTIO_STATE_FREE]) })
      else
        (i + 1,
          { entries := t.entries.set i
              { (open_loop (i + 1) name pool ops 0 (-1)
                  (setup_entry e0 (i + 1) pool param)).2.2.1 with
                name := snprintf_s L name, state := PKTIO_STATE_OPENED,
                ops := some (open_loop (i + 1) name pool ops 0 (-1)
                  (setup_entry e0 (i + 1) pool param)).2.1 },
            trace := t.trace ++ pktio_event.set_state e0.state PKTIO_STATE_ACTIVE ::
              ((open_loop (i + 1) name pool ops 0 (-1)
                  (setup_entry e0 (i + 1) pool param)).2.2.2 ++
                [pktio_event.set_state PKTIO_STATE_ACTIVE PKTIO_STATE_OPENED]) }) := by
  have hlt := list_get_lt _ _ _ hget
  have hst : (open_loop (i + 1) name pool ops 0 (-1) (setup_entry e0 (i + 1) pool param)).2.2.1.state
      = PKTIO_STATE_ACTIVE := by
    rw [open_loop_entry]
    exact (setup_entry_state e0 (i + 1) pool param).1
  have hnl : ¬ (name.length ≥ L - 1) := by omega
  unfold setup_pktio_entry alloc_lock_pktio_entry
  simp only [hnl, if_false, hscan, hget]
  have hne : ¬ (i + 1 = ODP_PKTIO_INVALID) := by simp [ODP_PKTIO_INVALID]
  simp only [hne, if_false]
  have hg : get_pktio_entry (put_pktio_entry t (i + 1)
      (init_pktio_entry { e0 with state := PKTIO_STATE_ACTIVE })
      [pktio_event.set_state e0.state PKTIO_STATE_ACTIVE]) (i + 1)
      = some (init_pktio_entry { e0 with state := PKTIO_STATE_ACTIVE }) := by
    apply get_put_pktio_entry t (i + 1) e0
    simp [get_pktio_entry, ODP_PKTIO_INVALID, hget]
  rw [hg]
  unfold setup_entry at hst ⊢
  simp only [hst]
  split
  · simp [put_pktio_entry, List.set_set]
  · simp [put_pktio_entry, List.set_set]

/-- The test `state >= PKTIO_STATE_ACTIVE`. -/
theorem is_active_iff (e : pktio_entry_t) :
    is_active e = true ↔ e.state.toNat ≥ PKTIO_STATE_ACTIVE.toNat := by
  simp [is_active]

/-- A FREE slot fails the test `state >= PKTIO_STATE_ACTIVE`. -/
theorem is_active_free (e : pktio_entry_t) (h : e.state = PKTIO_STATE_FREE) :
    is_active e = false := by
  simp [is_active, h, PktioState.toNat]

/-- `odp_pktio_lookup` finds nothing exactly when no slot with
`state >= PKTIO_STATE_ACTIVE` carries a name that compares equal. -/
theorem lookup_scan_invalid (L : Nat) (name : List Char) (l : List pktio_entry_t) (k : Nat) :
    lookup_scan L name l k = ODP_PKTIO_INVALID ↔
      ∀ e ∈ l, ¬ (is_active e = true ∧ strncmp_eq e.name name L = true) := by
  induction l generalizing k with
  | nil => simp [lookup_scan]
  | cons a rest ih =>
    unfold lookup_scan
    rw [List.forall_mem_cons]
    by_cases hf : is_free a = true
    · have hna : is_active a = false :=
        is_active_free a (by simpa [is_free] using hf)
      rw [if_pos hf, ih]
      simp [hna]
    · rw [if_neg hf]
      by_cases hm : a.state.toNat ≥ PKTIO_STATE_ACTIVE.toNat ∧ strncmp_eq a.name name L = true
      · rw [if_pos hm]
        constructor
        · intro h; simp [ODP_PKTIO_INVALID] at h
        · intro h
          exact absurd ⟨(is_active_iff a).mpr hm.1, hm.2⟩ h.1
      · rw [if_neg hm, ih]
        have : ¬ (is_active a = true ∧ strncmp_eq a.name name L = true) := by
          intro h
          exact hm ⟨(is_active_iff a).mp h.1, h.2⟩
        constructor
        · intro h; exact ⟨this, h⟩
        · intro h; exact h.2

/-- A handle returned by the lookup scan names a slot with
`state >= PKTIO_STATE_ACTIVE` whose name compares equal. -/
theorem lookup_scan_valid (L : Nat) (name : List Char) (l : List pktio_entry_t) (k : Nat)
    (h : lookup_scan L name l k ≠ ODP_PKTIO_INVALID) :
    ∃ j e, lookup_scan L name l k = k + j + 1 ∧ l[j]? = some e ∧ is_active e = true ∧
      strncmp_eq e.name name L = true := by
  induction l generalizing k with
  | nil => simp [lookup_scan] at h
  | cons a rest ih =>
    unfold lookup_scan at h ⊢
    by_cases hf : is_free a = true
    · rw [if_pos hf] at h ⊢
      obtain ⟨j, e, h1, h2, h3, h4⟩ := ih (k + 1) h
      exact ⟨j + 1, e, by rw [h1]; ring, by simpa using h2, h3, h4⟩
    · rw [if_neg hf] at h ⊢
      by_cases hm : a.state.toNat ≥ PKTIO_STATE_ACTIVE.toNat ∧ strncmp_eq a.name name L = true
      · rw [if_pos hm]
        exact ⟨0, a, rfl, by simp, (is_active_iff a).mpr hm.1, hm.2⟩
      · rw [if_neg hm] at h ⊢
        obtain ⟨j, e, h1, h2, h3, h4⟩ := ih (k + 1) h
        exact ⟨j + 1, e, by rw [h1]; ring, by simpa using h2, h3, h4⟩

/-- The three outcomes of `odp_pktio_open`: refused without touching the table;
a slot allocated and reclaimed because every driver refused; or the lowest FREE
slot bound to the name and to the driver at which the probe loop stopped. -/
theorem odp_pktio_open_cases (L : Nat) (ops : List pktio_if_ops_t) (t : pktio_table_t)
    (name : List Char) (pool : Nat) (param : Option odp_pktio_param_t) :
    odp_pktio_open L ops t name pool param = (ODP_PKTIO_INVALID, t) ∨
    (∃ i e0 e1, t.entries[i]? = some e0 ∧ e0.state = PKTIO_STATE_FREE ∧
      e1.state = PKTIO_STATE_FREE ∧ e1.name = e0.name ∧
      (odp_pktio_open L ops t name pool param).1 = ODP_PKTIO_INVALID ∧
      (odp_pktio_open L ops t name pool param).2.entries = t.entries.set i e1) ∨
    (∃ i e0 e1 k, t.entries[i]? = some e0 ∧ e0.state = PKTIO_STATE_FREE ∧
      (∀ j, j < i → ∀ e, t.entries[j]? = some e → e.state ≠ PKTIO_STATE_FREE) ∧
      e1.state = PKTIO_STATE_OPENED ∧ e1.name = name ∧ e1.ops = some k ∧ k < ops.length ∧
      name.length < L - 1 ∧ odp_pktio_lookup L t name = ODP_PKTIO_INVALID ∧
      (∃ es, (open_loop (i + 1) name pool ops 0 (-1) es).1 = 0) ∧
      (odp_pktio_open L ops t name pool param).1 = i + 1 ∧
      (odp_pktio_open L ops t name pool param).2.entries = t.entries.set i e1) := by
  unfold odp_pktio_open
  by_cases hlk : odp_pktio_lookup L t name ≠ ODP_PKTIO_INVALID
  · left; rw [if_pos hlk]
  · rw [if_neg hlk]
    have hlk1 : odp_pktio_lookup L t name = ODP_PKTIO_INVALID := not_not.mp hlk
    generalize (match param with
      | none => odp_pktio_param_init
      | some p => p) = param1
    by_cases hlen : name.length ≥ L - 1
    · left; simp [setup_pktio_entry, hlen]
    · cases hscan : alloc_scan t.entries 0 with
      | none =>
        left
        simp [setup_pktio_entry, hlen, alloc_lock_pktio_entry, hscan]
      | some i =>
        obtain ⟨e0, _, hget, hfree, hmin⟩ := alloc_scan_some t.entries 0 i hscan
        simp only [Nat.sub_zero] at hget hmin
        right
        rw [setup_pktio_entry_alloc L ops t name pool param1 i e0 (by omega) hscan hget]
        by_cases h0 : (open_loop (i + 1) name pool ops 0 (-1)
            (setup_entry e0 (i + 1) pool param1)).1 ≠ 0
        · left
          rw [if_pos h0]
          refine ⟨i, e0, _, hget, hfree, rfl, ?_, rfl, rfl⟩
          simp only
          rw [open_loop_entry]
          exact (setup_entry_state e0 (i + 1) pool param1).2
        · right
          rw [if_neg h0]
          have h00 := not_not.mp h0
          obtain ⟨rets, _, hk, _, _, _⟩ := open_loop_trace (i + 1) name pool ops 0 (-1)
            (setup_entry e0 (i + 1) pool param1) (by decide) h00
          refine ⟨i, e0, _, _, hget, hfree, hmin, rfl, ?_, rfl, ?_, by omega, hlk1,
            ⟨_, h00⟩, rfl, rfl⟩
          · simp only [snprintf_s]
            exact List.take_of_length_le (by omega)
          · simpa using hk

/-! ## The open path -/

/-- Replacing a list element by one with the same image leaves the mapped list
unchanged. -/
theorem list_map_set_same {α β : Type} (f : α → β) (l : List α) (i : Nat) (a b : α)
    (h : l[i]? = some a) (hf : f b = f a) : (l.set i b).map f = l.map f := by
  rw [List.map_set]
  apply list_set_same
  simp [h, hf]

/-- Reading a slot through a table that agrees up to driver-private storage. -/
theorem get_pktio_entry_cleared (t t1 : pktio_table_t) (hdl : odp_pktio_t) (e : pktio_entry_t)
    (hfr : t1.entries.map priv_cleared = t.entries.map priv_cleared)
    (h : get_pktio_entry t hdl = some e) :
    ∃ e1, get_pktio_entry t1 hdl = some e1 ∧ priv_cleared e1 = priv_cleared e := by
  obtain ⟨hne, hget⟩ := get_pktio_entry_some t hdl e h
  have h1 : (t1.entries.map priv_cleared)[hdl - 1]? = some (priv_cleared e) := by
    rw [hfr]; simp [hget]
  rw [List.getElem?_map] at h1
  cases hg : t1.entries[hdl - 1]? with
  | none => rw [hg] at h1; cases h1
  | some e1 =>
    rw [hg] at h1
    refine ⟨e1, ?_, by simpa using h1⟩
    simp [get_pktio_entry, hne, hg]

/-- Storing a slot that differs only in driver-private storage keeps the table
up to driver-private storage. -/
theorem put_pktio_entry_cleared (t : pktio_table_t) (hdl : odp_pktio_t) (e e1 : pktio_entry_t)
    (evs : List pktio_event) (h : get_pktio_entry t hdl = some e)
    (he : priv_cleared e1 = priv_cleared e) :
    (put_pktio_entry t hdl e1 evs).entries.map priv_cleared = t.entries.map priv_cleared := by
  obtain ⟨_, hget⟩ := get_pktio_entry_some t hdl e h
  exact list_map_set_same priv_cleared t.entries (hdl - 1) e e1 hget he

/-- `odp_pktin_recv` changes driver-private storage only. -/
theorem odp_pktin_recv_frame (ops : List pktio_if_ops_t) (t : pktio_table_t)
    (queue : odp_pktin_queue_t) (num : Nat) (r : Int × List odp_packet_hdr_t × pktio_table_t)
    (h : odp_pktin_recv ops t queue num = some r) :
    r.2.2.entries.map priv_cleared = t.entries.map priv_cleared := by
  unfold odp_pktin_recv at h
  cases hg : get_pktio_entry t queue.pktio with
  | none =>
    rw [hg] at h
    simp only [Option.some.injEq] at h
    rw [← h]
  | some entry =>
    rw [hg] at h
    simp only at h
    cases ho : entry_ops ops entry with
    | none => rw [ho] at h; cases h
    | some kd =>
      rw [ho] at h
      simp only [Option.some.injEq] at h
      rw [← h]
      exact put_pktio_entry_cleared t queue.pktio entry _ _ hg rfl

/-- The drain loop of one queue changes driver-private storage only. -/
theorem flush_queue_frame (ops : List pktio_if_ops_t) (pktin : odp_pktin_queue_t)
    (fuel : Nat) (t : pktio_table_t) (r : Bool × pktio_table_t)
    (h : flush_queue ops pktin fuel t = some r) :
    r.2.entries.map priv_cleared = t.entries.map priv_cleared := by
  induction fuel generalizing t with
  | zero => simp [flush_queue] at h
  | succ n ih =>
    unfold flush_queue at h
    cases hr : odp_pktin_recv ops t pktin 16 with
    | none => rw [hr] at h; cases h
    | some x =>
      rw [hr] at h
      simp only at h
      have hx := odp_pktin_recv_frame ops t pktin 16 x hr
      by_cases h0 : x.1 = 0
      · rw [if_pos h0] at h
        simp only [Option.some.injEq] at h
        rw [← h]; exact hx
      · rw [if_neg h0] at h
        by_cases h1 : x.1 < 0
        · rw [if_pos h1] at h
          simp only [Option.some.injEq] at h
          rw [← h]; exact hx
        · rw [if_neg h1] at h
          rw [ih _ h, hx]

/-- The drain of all queues changes driver-private storage only. -/
theorem flush_queues_frame (ops : List pktio_if_ops_t) (fuel : Nat)
    (qs : List odp_pktin_queue_t) (t t1 : pktio_table_t)
    (h : flush_queues ops fuel qs t = some t1) :
    t1.entries.map priv_cleared = t.entries.map priv_cleared := by
  induction qs generalizing t with
  | nil =>
    simp only [flush_queues, Option.some.injEq] at h
    rw [h]
  | cons q rest ih =>
    unfold flush_queues at h
    cases hq : flush_queue ops q fuel t with
    | none => rw [hq] at h; cases h
    | some x =>
      rw [hq] at h
      have hx := flush_queue_frame ops q fuel t x hq
      obtain ⟨b, t2⟩ := x
      cases b with
      | true =>
        simp only at h hx
        rw [ih _ h, hx]
      | false =>
        simp only [Option.some.injEq] at h hx
        rw [← h, hx]

/-- `flush_in_queues` changes driver-private storage only. -/
theorem flush_in_queues_frame (ops : List pktio_if_ops_t) (fuel : Nat)
    (t t1 : pktio_table_t) (entry : pktio_entry_t)
    (h : flush_in_queues ops fuel t entry = some t1) :
    t1.entries.map priv_cleared = t.entries.map priv_cleared := by
  unfold flush_in_queues at h
  split at h
  · exact flush_queues_frame ops fuel _ t t1 h
  · simp only [Option.some.injEq] at h
    rw [h]

/-! ## The transitions of one slot -/

/-- `_pktio_stop` on one slot: either it fails with `-1` and the state stays, or
it returns 0 from STARTED and the state becomes STOP_PENDING (scheduled input)
or STOPPED (any other input mode). Nothing but state and driver-private storage
changes, and the only state assignment logged is that transition. -/
theorem _pktio_stop_spec (ops : List pktio_if_ops_t) (e : pktio_entry_t)
    (r : Int × pktio_entry_t × List pktio_event) (h : _pktio_stop ops e = some r) :
    priv_cleared r.2.1 = priv_cleared { e with state := r.2.1.state } ∧
    (∀ a b, pktio_event.set_state a b ∈ r.2.2 → a = e.state ∧ b = r.2.1.state ∧ r.1 = 0) ∧
    ((r.1 = -1 ∧ r.2.1.state = e.state) ∨
     (r.1 = 0 ∧ e.state = PKTIO_STATE_STARTED ∧
        e.param.in_mode = ODP_PKTIN_MODE_SCHED ∧ r.2.1.state = PKTIO_STATE_STOP_PENDING) ∨
     (r.1 = 0 ∧ e.state = PKTIO_STATE_STARTED ∧
        e.param.in_mode ≠ ODP_PKTIN_MODE_SCHED ∧ r.2.1.state = PKTIO_STATE_STOPPED)) := by
  unfold _pktio_stop at h
  by_cases hs : e.state ≠ PKTIO_STATE_STARTED
  · rw [if_pos hs] at h
    simp only [Option.some.injEq] at h
    subst h
    simp [priv_cleared]
  · rw [if_neg hs] at h
    have hs1 : e.state = PKTIO_STATE_STARTED := not_not.mp hs
    cases ho : entry_ops ops e with
    | none => rw [ho] at h; cases h
    | some kd =>
      obtain ⟨k, d⟩ := kd
      rw [ho] at h
      simp only at h
      cases hd : d.stop with
      | none =>
        rw [hd] at h
        simp only [ne_eq, not_true_eq_false, if_false] at h
        by_cases hm : e.param.in_mode = ODP_PKTIN_MODE_SCHED
        · rw [if_pos hm] at h
          simp only [Option.some.injEq] at h
          subst h
          simp [priv_cleared, hs1, hm]
        · rw [if_neg hm] at h
          simp only [Option.some.injEq] at h
          subst h
          simp [priv_cleared, hs1, hm]
      | some f =>
        rw [hd] at h
        simp only at h
        by_cases hr : (f e).1 ≠ 0
        · rw [if_pos hr] at h
          simp only [Option.some.injEq] at h
          subst h
          simp [priv_cleared]
        · rw [if_neg hr] at h
          have hr0 : (f e).1 = 0 := not_not.mp hr
          by_cases hm : e.param.in_mode = ODP_PKTIN_MODE_SCHED
          · rw [if_pos hm] at h
            simp only [Option.some.injEq] at h
            subst h
            simp [priv_cleared, hs1, hm, hr0]
          · rw [if_neg hm] at h
            simp only [Option.some.injEq] at h
            subst h
            simp [priv_cleared, hs1, hm, hr0]

/-- `_pktio_close` on one slot: either it fails with `-1` and the state stays, or
it returns 0 and the state becomes CLOSE_PENDING (from STOP_PENDING) or FREE
(from OPENED or STOPPED). Nothing but state and driver-private storage changes,
and the only state assignment logged is that transition. -/
theorem _pktio_close_spec (ops : List pktio_if_ops_t) (e : pktio_entry_t)
    (r : Int × pktio_entry_t × List pktio_event) (h : _pktio_close ops e = some r) :
    priv_cleared r.2.1 = priv_cleared { e with state := r.2.1.state } ∧
    (∀ a b, pktio_event.set_state a b ∈ r.2.2 → a = e.state ∧ b = r.2.1.state ∧ r.1 = 0) ∧
    ((r.1 = -1 ∧ r.2.1.state = e.state) ∨
     (r.1 = 0 ∧ e.state = PKTIO_STATE_STOP_PENDING ∧
        r.2.1.state = PKTIO_STATE_CLOSE_PENDING) ∨
     (r.1 = 0 ∧ (e.state = PKTIO_STATE_OPENED ∨ e.state = PKTIO_STATE_STOPPED) ∧
        r.2.1.state = PKTIO_STATE_FREE)) := by
  unfold _pktio_close at h
  simp only at h
  by_cases hs : e.state ≠ PKTIO_STATE_OPENED ∧ e.state ≠ PKTIO_STATE_STOPPED ∧
      e.state ≠ PKTIO_STATE_STOP_PENDING
  · rw [if_pos hs] at h
    simp only [Option.some.injEq] at h
    subst h
    simp [priv_cleared]
  · rw [if_neg hs] at h
    cases ho : entry_ops ops e with
    | none => rw [ho] at h; cases h
    | some kd =>
      obtain ⟨k, d⟩ := kd
      rw [ho] at h
      simp only at h
      by_cases hr : (d.close e).1 ≠ 0
      · rw [if_pos hr] at h
        simp only [Option.some.injEq] at h
        subst h
        simp [priv_cleared]
      · rw [if_neg hr] at h
        by_cases hp : e.state = PKTIO_STATE_STOP_PENDING
        · rw [if_pos hp] at h
          simp only [Option.some.injEq] at h
          subst h
          simp [priv_cleared, hp]
        · rw [if_neg hp] at h
          simp only [Option.some.injEq] at h
          subst h
          have : e.state = PKTIO_STATE_OPENED ∨ e.state = PKTIO_STATE_STOPPED := by
            by_contra hc
            push_neg at hc
            exact hs ⟨hc.1, hc.2, hp⟩
          simp [priv_cleared, this]

/-- The slot views of a table are determined up to driver-private storage. -/
theorem view_of_cleared (l l1 : List pktio_entry_t)
    (h : l1.map priv_cleared = l.map priv_cleared) : l1.map slot_view = l.map slot_view := by
  have hc : slot_view = slot_view ∘ priv_cleared := by
    funext e; simp [slot_view, priv_cleared]
  rw [hc, ← List.map_map, h, List.map_map]

/-- `odp_pktin_recv` logs one `recv` call at most. -/
theorem odp_pktin_recv_trace (ops : List pktio_if_ops_t) (t : pktio_table_t)
    (queue : odp_pktin_queue_t) (num : Nat) (r : Int × List odp_packet_hdr_t × pktio_table_t)
    (h : odp_pktin_recv ops t queue num = some r) :
    ∃ evs, r.2.2.trace = t.trace ++ evs ∧ ∀ a b, pktio_event.set_state a b ∉ evs := by
  unfold odp_pktin_recv at h
  cases hg : get_pktio_entry t queue.pktio with
  | none =>
    rw [hg] at h
    simp only [Option.some.injEq] at h
    rw [← h]
    exact ⟨[], by simp, by simp⟩
  | some entry =>
    rw [hg] at h
    simp only at h
    cases ho : entry_ops ops entry with
    | none => rw [ho] at h; cases h
    | some kd =>
      rw [ho] at h
      simp only [Option.some.injEq] at h
      rw [← h]
      exact ⟨_, rfl, by simp⟩

/-- The drain loop of one queue logs no state assignment. -/
theorem flush_queue_trace (ops : List pktio_if_ops_t) (pktin : odp_pktin_queue_t)
    (fuel : Nat) (t : pktio_table_t) (r : Bool × pktio_table_t)
    (h : flush_queue ops pktin fuel t = some r) :
    ∃ evs, r.2.trace = t.trace ++ evs ∧ ∀ a b, pktio_event.set_state a b ∉ evs := by
  induction fuel generalizing t with
  | zero => simp [flush_queue] at h
  | succ n ih =>
    unfold flush_queue at h
    cases hr : odp_pktin_recv ops t pktin 16 with
    | none => rw [hr] at h; cases h
    | some x =>
      rw [hr] at h
      simp only at h
      obtain ⟨evs, hx1, hx2⟩ := odp_pktin_recv_trace ops t pktin 16 x hr
      by_cases h0 : x.1 = 0
      · rw [if_pos h0] at h
        simp only [Option.some.injEq] at h
        rw [← h]; exact ⟨evs, hx1, hx2⟩
      · rw [if_neg h0] at h
        by_cases h1 : x.1 < 0
        · rw [if_pos h1] at h
          simp only [Option.some.injEq] at h
          rw [← h]; exact ⟨evs, hx1, hx2⟩
        · rw [if_neg h1] at h
          obtain ⟨evs1, hy1, hy2⟩ := ih _ h
          refine ⟨evs ++ evs1, by rw [hy1, hx1, List.append_assoc], ?_⟩
          intro a b hm
          rcases List.mem_append.mp hm with hm1 | hm1
          · exact hx2 a b hm1
          · exact hy2 a b hm1

/-- The drain of all queues logs no state assignment. -/
theorem flush_queues_trace (ops : List pktio_if_ops_t) (fuel : Nat)
    (qs : List odp_pktin_queue_t) (t t1 : pktio_table_t)
    (h : flush_queues ops fuel qs t = some t1) :
    ∃ evs, t1.trace = t.trace ++ evs ∧ ∀ a b, pktio_event.set_state a b ∉ evs := by
  induction qs generalizing t with
  | nil =>
    simp only [flush_queues, Option.some.injEq] at h
    rw [h]
    exact ⟨[], by simp, by simp⟩
  | cons q rest ih =>
    unfold flush_queues at h
    cases hq : flush_queue ops q fuel t with
    | none => rw [hq] at h; cases h
    | some x =>
      rw [hq] at h
      obtain ⟨evs, hx1, hx2⟩ := flush_queue_trace ops q fuel t x hq
      obtain ⟨b, t2⟩ := x
      cases b with
      | true =>
        simp only at h hx1
        obtain ⟨evs1, hy1, hy2⟩ := ih _ h
        refine ⟨evs ++ evs1, by rw [hy1, hx1, List.append_assoc], ?_⟩
        intro a b hm
        rcases List.mem_append.mp hm with hm1 | hm1
        · exact hx2 a b hm1
        · exact hy2 a b hm1
      | false =>
        simp only [Option.some.injEq] at h hx1
        rw [← h]
        exact ⟨evs, hx1, hx2⟩

/-- `flush_in_queues` logs no state assignment. -/
theorem flush_in_queues_trace (ops : List pktio_if_ops_t) (fuel : Nat)
    (t t1 : pktio_table_t) (entry : pktio_entry_t)
    (h : flush_in_queues ops fuel t entry = some t1) :
    ∃ evs, t1.trace = t.trace ++ evs ∧ ∀ a b, pktio_event.set_state a b ∉ evs := by
  unfold flush_in_queues at h
  split at h
  · exact flush_queues_trace ops fuel _ t t1 h
  · simp only [Option.some.injEq] at h
    rw [h]
    exact ⟨[], by simp, by simp⟩

/-- `odp_pktio_start`, whenever it returns: either it is refused with `-1` and
the table stays (no slot, or a STARTED slot), or the slot is stored back with
at most its state changed to STARTED (and driver-private storage), the only
state assignment logged being that one. A zero result means STARTED. -/
theorem odp_pktio_start_spec (ops : List pktio_if_ops_t) (t : pktio_table_t)
    (hdl : odp_pktio_t) (r : Int × pktio_table_t) (h : odp_pktio_start ops t hdl = some r) :
    (r.1 = -1 ∧ r.2 = t ∧
      (get_pktio_entry t hdl = none ∨
        ∃ e, get_pktio_entry t hdl = some e ∧ e.state = PKTIO_STATE_STARTED)) ∨
    (∃ e e1 evs, get_pktio_entry t hdl = some e ∧ e.state ≠ PKTIO_STATE_STARTED ∧
      r.2 = put_pktio_entry t hdl e1 evs ∧
      priv_cleared e1 = priv_cleared { e with state := e1.state } ∧
      (∀ a b, pktio_event.set_state a b ∈ evs →
        a = e.state ∧ b = PKTIO_STATE_STARTED) ∧
      (e1.state = e.state ∨ e1.state = PKTIO_STATE_STARTED) ∧
      (r.1 = 0 → e1.state = PKTIO_STATE_STARTED)) := by
  unfold odp_pktio_start at h
  cases hg : get_pktio_entry t hdl with
  | none =>
    rw [hg] at h
    simp only [Option.some.injEq] at h
    subst h
    left; exact ⟨rfl, rfl, Or.inl rfl⟩
  | some e =>
    rw [hg] at h
    simp only at h
    by_cases hs : e.state = PKTIO_STATE_STARTED
    · rw [if_pos hs] at h
      simp only [Option.some.injEq] at h
      subst h
      left; exact ⟨rfl, rfl, Or.inr ⟨e, rfl, hs⟩⟩
    · rw [if_neg hs] at h
      right
      cases ho : entry_ops ops e with
      | none => rw [ho] at h; cases h
      | some kd =>
        obtain ⟨k, d⟩ := kd
        rw [ho] at h
        simp only at h
        cases hd : d.start with
        | none =>
          rw [hd] at h
          simp only [if_true] at h
          split at h
          · split at h
            · simp only [Option.some.injEq] at h
              subst h
              exact ⟨e, _, _, rfl, hs, rfl, by simp [priv_cleared], by simp, by simp, by simp⟩
            · simp only [Option.some.injEq] at h
              subst h
              exact ⟨e, _, _, rfl, hs, rfl, by simp [priv_cleared], by simp, by simp, by simp⟩
          · simp only [Option.some.injEq] at h
            subst h
            exact ⟨e, _, _, rfl, hs, rfl, by simp [priv_cleared], by simp, by simp, by simp⟩
        | some f =>
          rw [hd] at h
          simp only at h
          by_cases hr : (f e).1 = 0
          · simp only [hr, if_true] at h
            split at h
            · split at h
              · simp only [Option.some.injEq] at h
                subst h
                exact ⟨e, _, _, rfl, hs, rfl, by simp [priv_cleared], by simp, by simp, by simp⟩
              · simp only [Option.some.injEq] at h
                subst h
                exact ⟨e, _, _, rfl, hs, rfl, by simp [priv_cleared], by simp, by simp, by simp⟩
            · simp only [Option.some.injEq] at h
              subst h
              exact ⟨e, _, _, rfl, hs, rfl, by simp [priv_cleared], by simp, by simp, by simp⟩
          · simp only [hr, if_false] at h
            split at h
            · split at h
              · simp only [Option.some.injEq] at h
                subst h
                exact ⟨e, _, _, rfl, hs, rfl, by simp [priv_cleared], by simp, by simp,
                  by simp⟩
              · simp only [Option.some.injEq] at h
                subst h
                exact ⟨e, _, _, rfl, hs, rfl, by simp [priv_cleared], by simp, by simp,
                  by simp [hr]⟩
            · simp only [Option.some.injEq] at h
              subst h
              exact ⟨e, _, _, rfl, hs, rfl, by simp [priv_cleared], by simp, by simp,
                by simp [hr]⟩

/-- `odp_pktio_stop`, whenever it returns: `-1` on a handle without a slot, else
the result of `_pktio_stop` on the slot, which is stored back. -/
theorem odp_pktio_stop_spec (ops : List pktio_if_ops_t) (t : pktio_table_t)
    (hdl : odp_pktio_t) (r : Int × pktio_table_t) (h : odp_pktio_stop ops t hdl = some r) :
    (r.1 = -1 ∧ r.2 = t ∧ get_pktio_entry t hdl = none) ∨
    (∃ e r0, get_pktio_entry t hdl = some e ∧ _pktio_stop ops e = some r0 ∧
      r.1 = r0.1 ∧ r.2 = put_pktio_entry t hdl r0.2.1 r0.2.2) := by
  unfold odp_pktio_stop at h
  cases hg : get_pktio_entry t hdl with
  | none =>
    rw [hg] at h
    simp only [Option.some.injEq] at h
    subst h
    left; exact ⟨rfl, rfl, rfl⟩
  | some e =>
    rw [hg] at h
    simp only at h
    cases hs : _pktio_stop ops e with
    | none => rw [hs] at h; cases h
    | some r0 =>
      rw [hs] at h
      simp only [Option.some.injEq] at h
      subst h
      right; exact ⟨e, r0, rfl, hs, rfl, rfl⟩

/-- The queue teardown of `odp_pktio_close` keeps state, name and driver. -/
theorem close_teardown_fields (e : pktio_entry_t) :
    let e3 : pktio_entry_t :=
      { destroy_out_queues (destroy_in_queues e e.num_in_queue) e.num_out_queue with
        num_in_queue := 0, num_out_queue := 0 }
    e3.state = e.state ∧ e3.name = e.name ∧ e3.ops = e.ops ∧ e3.param = e.param := by
  simp [destroy_out_queues, destroy_in_queues]

/-- `odp_pktio_close`, whenever it returns: either it is refused with `-1` and
the table stays (no slot, or a STARTED slot), or it returns 0, the flush has
changed driver-private storage only, and the slot is stored back with both
queue counts 0 and with state CLOSE_PENDING (from STOP_PENDING) or FREE (from
OPENED or STOPPED); that transition is the only state assignment logged. -/
theorem odp_pktio_close_spec (ops : List pktio_if_ops_t) (fuel : Nat) (t : pktio_table_t)
    (hdl : odp_pktio_t) (r : Int × pktio_table_t)
    (h : odp_pktio_close ops fuel t hdl = some r) :
    (r.1 = -1 ∧ r.2 = t ∧
      (get_pktio_entry t hdl = none ∨
        ∃ e, get_pktio_entry t hdl = some e ∧ e.state = PKTIO_STATE_STARTED)) ∨
    (r.1 = 0 ∧ ∃ e e1 t1 evs0 evs, get_pktio_entry t hdl = some e ∧
      t1.entries.map priv_cleared = t.entries.map priv_cleared ∧
      t1.trace = t.trace ++ evs0 ∧ (∀ a b, pktio_event.set_state a b ∉ evs0) ∧
      r.2 = put_pktio_entry t1 hdl e1 evs ∧
      e1.name = e.name ∧ e1.ops = e.ops ∧ e1.num_in_queue = 0 ∧ e1.num_out_queue = 0 ∧
      (∀ a b, pktio_event.set_state a b ∈ evs → a = e.state ∧ b = e1.state) ∧
      ((e.state = PKTIO_STATE_STOP_PENDING ∧ e1.state = PKTIO_STATE_CLOSE_PENDING) ∨
       ((e.state = PKTIO_STATE_OPENED ∨ e.state = PKTIO_STATE_STOPPED) ∧
          e1.state = PKTIO_STATE_FREE))) := by
  unfold odp_pktio_close at h
  cases hg : get_pktio_entry t hdl with
  | none =>
    rw [hg] at h
    simp only [Option.some.injEq] at h
    subst h
    left; exact ⟨rfl, rfl, Or.inl rfl⟩
  | some e =>
    rw [hg] at h
    simp only at h
    by_cases hs : e.state = PKTIO_STATE_STARTED
    · rw [if_pos hs] at h
      simp only [Option.some.injEq] at h
      subst h
      left; exact ⟨rfl, rfl, Or.inr ⟨e, rfl, hs⟩⟩
    · rw [if_neg hs] at h
      right
      have hfl : ∀ t1, (if e.state = PKTIO_STATE_STOPPED then flush_in_queues ops fuel t e
          else some t) = some t1 →
          t1.entries.map priv_cleared = t.entries.map priv_cleared ∧
          ∃ evs0, t1.trace = t.trace ++ evs0 ∧ ∀ a b, pktio_event.set_state a b ∉ evs0 := by
        intro t1 h1
        split at h1
        · exact ⟨flush_in_queues_frame ops fuel t t1 e h1,
            flush_in_queues_trace ops fuel t t1 e h1⟩
        · simp only [Option.some.injEq] at h1
          subst h1
          exact ⟨rfl, [], by simp, by simp⟩
      cases hf : (if e.state = PKTIO_STATE_STOPPED then flush_in_queues ops fuel t e
          else some t) with
      | none => rw [hf] at h; cases h
      | some t1 =>
        rw [hf] at h
        simp only at h
        obtain ⟨hfr, evs0, htr, hno⟩ := hfl t1 hf
        obtain ⟨e1, hg1, hc1⟩ := get_pktio_entry_cleared t t1 hdl e hfr hg
        rw [hg1] at h
        simp only at h
        have hst1 : e1.state = e.state := by
          have := congrArg pktio_entry_t.state hc1
          simpa [priv_cleared] using this
        have hnm1 : e1.name = e.name := by
          have := congrArg pktio_entry_t.name hc1
          simpa [priv_cleared] using this
        have hop1 : e1.ops = e.ops := by
          have := congrArg pktio_entry_t.ops hc1
          simpa [priv_cleared] using this
        obtain ⟨ht1, ht2, ht3, _⟩ := close_teardown_fields e1
        simp only at ht1 ht2 ht3
        cases hcl : _pktio_close ops
            { destroy_out_queues (destroy_in_queues e1 e1.num_in_queue) e1.num_out_queue with
              num_in_queue := 0, num_out_queue := 0 } with
        | none => rw [hcl] at h; cases h
        | some r0 =>
          rw [hcl] at h
          simp only at h
          by_cases hr0 : r0.1 ≠ 0
          · rw [if_pos hr0] at h; cases h
          · rw [if_neg hr0] at h
            simp only [Option.some.injEq] at h
            subst h
            obtain ⟨hpc, hev, hcases⟩ := _pktio_close_spec ops _ r0 hcl
            have hr00 : r0.1 = 0 := not_not.mp hr0
            have hnm : r0.2.1.name = e.name := by
              have := congrArg pktio_entry_t.name hpc
              simp only [priv_cleared] at this
              rw [this, ht2, hnm1]
            have hops : r0.2.1.ops = e.ops := by
              have := congrArg pktio_entry_t.ops hpc
              simp only [priv_cleared] at this
              rw [this, ht3, hop1]
            have hni : r0.2.1.num_in_queue = 0 := by
              have := congrArg pktio_entry_t.num_in_queue hpc
              simpa [priv_cleared] using this
            have hno1 : r0.2.1.num_out_queue = 0 := by
              have := congrArg pktio_entry_t.num_out_queue hpc
              simpa [priv_cleared] using this
            refine ⟨rfl, e, r0.2.1, t1, evs0, r0.2.2, rfl, hfr, htr, hno, rfl, hnm, hops, hni,
              hno1, ?_, ?_⟩
            · intro a b hab
              obtain ⟨ha, hb, _⟩ := hev a b hab
              rw [ht1, hst1] at ha
              exact ⟨ha, hb⟩
            · rw [ht1, hst1] at hcases
              rcases hcases with hc | hc | hc
              · rw [hr00] at hc; exact absurd hc.1 (by decide)
              · exact Or.inl ⟨hc.2.1, hc.2.2⟩
              · exact Or.inr ⟨hc.2.1, hc.2.2⟩

/-- The driver of a slot depends on its `ops` pointer only. -/
theorem entry_ops_congr (ops : List pktio_if_ops_t) (e e1 : pktio_entry_t)
    (h : e1.ops = e.ops) : entry_ops ops e1 = entry_ops ops e := by
  simp [entry_ops, h]

/-- `_pktio_close` succeeds on a slot in OPENED, STOPPED or STOP_PENDING whose
driver's `close` returns 0. -/
theorem _pktio_close_ok (ops : List pktio_if_ops_t) (e : pktio_entry_t) (k : Nat)
    (d : pktio_if_ops_t)
    (hst : e.state = PKTIO_STATE_OPENED ∨ e.state = PKTIO_STATE_STOPPED ∨
      e.state = PKTIO_STATE_STOP_PENDING)
    (hbound : entry_ops ops e = some (k, d)) (h0 : (d.close e).1 = 0) :
    ∃ r, _pktio_close ops e = some r ∧ r.1 = 0 := by
  unfold _pktio_close
  have hs : ¬ (e.state ≠ PKTIO_STATE_OPENED ∧ e.state ≠ PKTIO_STATE_STOPPED ∧
      e.state ≠ PKTIO_STATE_STOP_PENDING) := by
    intro hc
    rcases hst with h | h | h
    · exact hc.1 h
    · exact hc.2.1 h
    · exact hc.2.2 h
  simp only
  rw [if_neg hs, hbound]
  simp only [h0, ne_eq, not_true_eq_false, if_false]
  split
  · exact ⟨_, rfl, rfl⟩
  · exact ⟨_, rfl, rfl⟩

/-- `odp_pktio_close` returns 0 on a slot in OPENED, STOPPED or STOP_PENDING
whose driver's `close` returns 0, provided the drain of a STOPPED slot finishes
within `fuel` rounds per queue. -/
theorem odp_pktio_close_ok (ops : List pktio_if_ops_t) (fuel : Nat) (t : pktio_table_t)
    (hdl : odp_pktio_t) (e : pktio_entry_t) (k : Nat) (d : pktio_if_ops_t)
    (hslot : get_pktio_entry t hdl = some e)
    (hst : e.state = PKTIO_STATE_OPENED ∨ e.state = PKTIO_STATE_STOPPED ∨
      e.state = PKTIO_STATE_STOP_PENDING)
    (hbound : entry_ops ops e = some (k, d))
    (hclose0 : ∀ e1, (d.close e1).1 = 0)
    (hdrain : e.state = PKTIO_STATE_STOPPED → (flush_in_queues ops fuel t e).isSome = true) :
    ∃ t2, odp_pktio_close ops fuel t hdl = some (0, t2) := by
  unfold odp_pktio_close
  rw [hslot]
  simp only
  have hns : ¬ e.state = PKTIO_STATE_STARTED := by
    intro hc
    rcases hst with h | h | h <;> rw [hc] at h <;> cases h
  rw [if_neg hns]
  have hfl : ∃ t1, (if e.state = PKTIO_STATE_STOPPED then flush_in_queues ops fuel t e
      else some t) = some t1 ∧ t1.entries.map priv_cleared = t.entries.map priv_cleared := by
    by_cases hsp : e.state = PKTIO_STATE_STOPPED
    · rw [if_pos hsp]
      have hd := hdrain hsp
      cases hf : flush_in_queues ops fuel t e with
      | none => rw [hf] at hd; cases hd
      | some t1 => exact ⟨t1, rfl, flush_in_queues_frame ops fuel t t1 e hf⟩
    · rw [if_neg hsp]
      exact ⟨t, rfl, rfl⟩
  obtain ⟨t1, hf, hfr⟩ := hfl
  rw [hf]
  simp only
  obtain ⟨e1, hg1, hc1⟩ := get_pktio_entry_cleared t t1 hdl e hfr hslot
  rw [hg1]
  simp only
  have hst1 : e1.state = e.state := by
    have := congrArg pktio_entry_t.state hc1
    simpa [priv_cleared] using this
  have hop1 : e1.ops = e.ops := by
    have := congrArg pktio_entry_t.ops hc1
    simpa [priv_cleared] using this
  obtain ⟨ht1, _, ht3, _⟩ := close_teardown_fields e1
  simp only at ht1 ht3
  obtain ⟨r0, hr0, hr1⟩ := _pktio_close_ok ops
    { destroy_out_queues (destroy_in_queues e1 e1.num_in_queue) e1.num_out_queue with
      num_in_queue := 0, num_out_queue := 0 } k d
    (by rw [ht1, hst1]; exact hst)
    (by rw [entry_ops_congr ops e _ (by rw [ht3, hop1])]; exact hbound)
    (hclose0 _)
  rw [hr0]
  simp only [hr1, ne_eq, not_true_eq_false, if_false]
  exact ⟨_, rfl⟩

/-! ## One call, seen on the slot views -/

/-- The views after storing a slot. -/
theorem put_pktio_entry_view (t : pktio_table_t) (hdl : odp_pktio_t) (e : pktio_entry_t)
    (evs : List pktio_event) :
    (put_pktio_entry t hdl e evs).entries.map slot_view =
      (t.entries.map slot_view).set (hdl - 1) (slot_view e) := by
  simp [put_pktio_entry, List.map_set]

/-- Every call that returns either leaves all slot views alone or changes the
view of one slot `i` by the transition `slot_move` of that call. -/
theorem pktio_step_view (L : Nat) (ops : List pktio_if_ops_t) (fuel : Nat)
    (t t1 : pktio_table_t) (c : pktio_call)
    (h : pktio_step L ops fuel t c = some t1) :
    t1.entries.map slot_view = t.entries.map slot_view ∨
    ∃ i e new, t.entries[i]? = some e ∧
      t1.entries.map slot_view = (t.entries.map slot_view).set i new ∧
      slot_move L t c i (slot_view e) new := by
  cases c with
  | odp_pktio_open name pool param =>
    simp only [pktio_step, Option.some.injEq] at h
    subst h
    rcases odp_pktio_open_cases L ops t name pool param with h1 | h1 | h1
    · left; rw [h1]
    · obtain ⟨i, e0, e1, hget, hfree, hfree1, hname, _, hent⟩ := h1
      right
      refine ⟨i, e0, slot_view e1, hget, by rw [hent, List.map_set], ?_⟩
      simp only [slot_move, slot_view]
      exact ⟨hfree, Or.inl ⟨hfree1, hname⟩⟩
    · obtain ⟨i, e0, e1, k, hget, hfree, _, hst, hname, _, _, _, hlk, _, _, hent⟩ := h1
      right
      refine ⟨i, e0, slot_view e1, hget, by rw [hent, List.map_set], ?_⟩
      simp only [slot_move, slot_view]
      exact ⟨hfree, Or.inr ⟨hst, hname, hlk⟩⟩
  | odp_pktio_start hdl =>
    simp only [pktio_step, Option.map_eq_some'] at h
    obtain ⟨r, hr, hr2⟩ := h
    subst hr2
    rcases odp_pktio_start_spec ops t hdl r hr with h1 | h1
    · left; rw [h1.2.1]
    · obtain ⟨e, e1, evs, hg, hns, hput, hpc, _, hcases, _⟩ := h1
      obtain ⟨hne, hget⟩ := get_pktio_entry_some t hdl e hg
      have hnm : e1.name = e.name := by
        have := congrArg pktio_entry_t.name hpc
        simpa [priv_cleared] using this
      rw [hput, put_pktio_entry_view]
      rcases hcases with hc | hc
      · left
        apply list_set_same
        simp [hget, slot_view, hc, hnm]
      · right
        refine ⟨hdl - 1, e, slot_view e1, hget, rfl, ?_⟩
        simp only [slot_move, slot_view]
        exact ⟨hne, trivial, hnm, hns, hc⟩
  | odp_pktio_stop hdl =>
    simp only [pktio_step, Option.map_eq_some'] at h
    obtain ⟨r, hr, hr2⟩ := h
    subst hr2
    rcases odp_pktio_stop_spec ops t hdl r hr with h1 | h1
    · left; rw [h1.2.1]
    · obtain ⟨e, r0, hg, hs, _, hput⟩ := h1
      obtain ⟨hne, hget⟩ := get_pktio_entry_some t hdl e hg
      obtain ⟨hpc, _, hcases⟩ := _pktio_stop_spec ops e r0 hs
      have hnm : r0.2.1.name = e.name := by
        have := congrArg pktio_entry_t.name hpc
        simpa [priv_cleared] using this
      rw [hput, put_pktio_entry_view]
      rcases hcases with hc | hc | hc
      · left
        apply list_set_same
        simp [hget, slot_view, hc.2, hnm]
      · right
        refine ⟨hdl - 1, e, slot_view r0.2.1, hget, rfl, ?_⟩
        simp only [slot_move, slot_view]
        exact ⟨hnm, hc.2.1, Or.inl hc.2.2.2⟩
      · right
        refine ⟨hdl - 1, e, slot_view r0.2.1, hget, rfl, ?_⟩
        simp only [slot_move, slot_view]
        exact ⟨hnm, hc.2.1, Or.inr hc.2.2.2⟩
  | odp_pktio_close hdl =>
    simp only [pktio_step, Option.map_eq_some'] at h
    obtain ⟨r, hr, hr2⟩ := h
    subst hr2
    rcases odp_pktio_close_spec ops fuel t hdl r hr with h1 | h1
    · left; rw [h1.2.1]
    · obtain ⟨_, e, e1, t2, evs0, evs, hg, hfr, _, _, hput, hnm, _, _, _, _, hcases⟩ := h1
      obtain ⟨hne, hget⟩ := get_pktio_entry_some t hdl e hg
      right
      refine ⟨hdl - 1, e, slot_view e1, hget, ?_, ?_⟩
      · rw [hput, put_pktio_entry_view, view_of_cleared _ _ hfr]
      · simp only [slot_move, slot_view]
        exact ⟨hnm, hcases⟩
  | sched_cb_pktio_stop_finalize idx =>
    simp only [pktio_step] at h
    unfold sched_cb_pktio_stop_finalize pktio_entry_by_index at h
    cases hg : t.entries[idx]? with
    | none => rw [hg] at h; cases h
    | some e =>
      rw [hg] at h
      simp only at h
      by_cases hp : e.state ≠ PKTIO_STATE_STOP_PENDING ∧ e.state ≠ PKTIO_STATE_CLOSE_PENDING
      · rw [if_pos hp] at h
        simp only [Option.some.injEq] at h
        subst h
        left; rfl
      · rw [if_neg hp] at h
        right
        by_cases hsp : e.state = PKTIO_STATE_STOP_PENDING
        · rw [if_pos hsp] at h
          simp only [Option.some.injEq] at h
          subst h
          refine ⟨idx, e, (PKTIO_STATE_STOPPED, e.name), hg, ?_, ?_⟩
          · rw [put_pktio_entry_view]; simp [slot_view]
          · simp only [slot_move, slot_view]
            exact ⟨trivial, trivial, Or.inl ⟨hsp, trivial⟩⟩
        · rw [if_neg hsp] at h
          simp only [Option.some.injEq] at h
          subst h
          have hcp : e.state = PKTIO_STATE_CLOSE_PENDING := by
            by_contra hc
            exact hp ⟨hsp, hc⟩
          refine ⟨idx, e, (PKTIO_STATE_FREE, e.name), hg, ?_, ?_⟩
          · rw [put_pktio_entry_view]; simp [slot_view]
          · simp only [slot_move, slot_view]
            exact ⟨trivial, trivial, Or.inr ⟨hcp, trivial⟩⟩

/-! ## Name uniqueness along call sequences -/

/-- Uniqueness survives a view change that keeps the name and does not make an
inactive slot active. -/
theorem view_unique_set_same_name (v : List (PktioState × List Char)) (i : Nat)
    (old new : PktioState × List Char) (hv : view_unique v) (hold : v[i]? = some old)
    (hname : new.2 = old.2) (hact : state_active new.1 = true → state_active old.1 = true) :
    view_unique (v.set i new) := by
  have hlt := list_get_lt _ _ _ hold
  intro j1 j2 a b ha hb haa hba hab
  by_cases h1 : i = j1
  · by_cases h2 : i = j2
    · rw [← h1, ← h2]
    · subst h1
      rw [List.getElem?_set_self hlt] at ha
      rw [List.getElem?_set_ne h2] at hb
      simp only [Option.some.injEq] at ha
      subst ha
      exact hv i j2 old b hold hb (hact haa) hba (by rw [← hname]; exact hab)
  · by_cases h2 : i = j2
    · subst h2
      rw [List.getElem?_set_self hlt] at hb
      rw [List.getElem?_set_ne h1] at ha
      simp only [Option.some.injEq] at hb
      subst hb
      exact hv j1 i a old ha hold haa (hact hba) (by rw [hab, hname])
    · rw [List.getElem?_set_ne h1] at ha
      rw [List.getElem?_set_ne h2] at hb
      exact hv j1 j2 a b ha hb haa hba hab

/-- Uniqueness survives giving a slot a name that no active slot carries. -/
theorem view_unique_set_fresh_name (v : List (PktioState × List Char)) (i : Nat)
    (new : PktioState × List Char) (hv : view_unique v)
    (hfresh : ∀ b ∈ v, state_active b.1 = true → b.2 ≠ new.2) :
    view_unique (v.set i new) := by
  by_cases hlt : i < v.length
  · intro j1 j2 a b ha hb haa hba hab
    by_cases h1 : i = j1
    · by_cases h2 : i = j2
      · rw [← h1, ← h2]
      · subst h1
        rw [List.getElem?_set_self hlt] at ha
        rw [List.getElem?_set_ne h2] at hb
        simp only [Option.some.injEq] at ha
        subst ha
        exact absurd hab.symm (hfresh b (List.getElem?_mem hb) hba)
    · by_cases h2 : i = j2
      · subst h2
        rw [List.getElem?_set_self hlt] at hb
        rw [List.getElem?_set_ne h1] at ha
        simp only [Option.some.injEq] at hb
        subst hb
        exact absurd hab (hfresh a (List.getElem?_mem ha) haa)
      · rw [List.getElem?_set_ne h1] at ha
        rw [List.getElem?_set_ne h2] at hb
        exact hv j1 j2 a b ha hb haa hba hab
  · rw [List.set_eq_of_length_le (Nat.not_lt.mp hlt)]
    exact hv

/-- When `odp_pktio_lookup` finds nothing, no active slot carries the name. -/
theorem lookup_invalid_fresh (L : Nat) (t : pktio_table_t) (name : List Char)
    (h : odp_pktio_lookup L t name = ODP_PKTIO_INVALID) :
    ∀ b ∈ t.entries.map slot_view, state_active b.1 = true → b.2 ≠ name := by
  intro b hb hact hname
  obtain ⟨e, he, hbe⟩ := List.mem_map.mp hb
  have hno := (lookup_scan_invalid L name t.entries 0).mp h e he
  apply hno
  subst hbe
  simp only [slot_view] at hact hname
  refine ⟨by simpa [is_active, state_active] using hact, ?_⟩
  simp [strncmp_eq, hname]

/-- One call made on an open device keeps name uniqueness among the slots with
`state >= PKTIO_STATE_ACTIVE`. -/
theorem pktio_step_unique (L : Nat) (ops : List pktio_if_ops_t) (fuel : Nat)
    (t t1 : pktio_table_t) (c : pktio_call)
    (hv : view_unique (t.entries.map slot_view))
    (hc : call_on_open_device t c = true)
    (h : pktio_step L ops fuel t c = some t1) :
    view_unique (t1.entries.map slot_view) := by
  rcases pktio_step_view L ops fuel t t1 c h with h1 | h1
  · rw [h1]; exact hv
  · obtain ⟨i, e, new, hget, hview, hmove⟩ := h1
    have hold : (t.entries.map slot_view)[i]? = some (slot_view e) := by
      simp [hget]
    rw [hview]
    cases c with
    | odp_pktio_open name pool param =>
      simp only [slot_move] at hmove
      rcases hmove.2 with hm | hm
      · apply view_unique_set_same_name _ _ _ _ hv hold hm.2
        intro ha; rw [hm.1] at ha; simp [state_active, PktioState.toNat] at ha
      · apply view_unique_set_fresh_name _ _ _ hv
        rw [hm.2.1]
        exact lookup_invalid_fresh L t name hm.2.2
    | odp_pktio_start hdl =>
      simp only [slot_move] at hmove
      obtain ⟨hne, hi, hnm, _, _⟩ := hmove
      apply view_unique_set_same_name _ _ _ _ hv hold hnm
      intro _
      simp only [call_on_open_device] at hc
      have hg : get_pktio_entry t hdl = some e := by
        simp [get_pktio_entry, hne, ← hi, hget]
      rw [hg] at hc
      simpa [is_active, state_active, slot_view] using hc
    | odp_pktio_stop hdl =>
      simp only [slot_move] at hmove
      apply view_unique_set_same_name _ _ _ _ hv hold hmove.1
      intro _; rw [hmove.2.1]; simp [state_active, PktioState.toNat]
    | odp_pktio_close hdl =>
      simp only [slot_move] at hmove
      apply view_unique_set_same_name _ _ _ _ hv hold hmove.1
      intro ha
      rcases hmove.2 with hm | hm
      · rw [hm.2] at ha; simp [state_active, PktioState.toNat] at ha
      · rw [hm.2] at ha; simp [state_active, PktioState.toNat] at ha
    | sched_cb_pktio_stop_finalize idx =>
      simp only [slot_move] at hmove
      apply view_unique_set_same_name _ _ _ _ hv hold hmove.2.1
      intro ha
      rcases hmove.2.2 with hm | hm
      · rw [hm.1]; simp [state_active, PktioState.toNat]
      · rw [hm.2] at ha; simp [state_active, PktioState.toNat] at ha

/-- A sequence of calls made on open devices keeps name uniqueness among the
slots with `state >= PKTIO_STATE_ACTIVE`. -/
theorem pktio_run_unique (L : Nat) (ops : List pktio_if_ops_t) (fuel : Nat)
    (calls : List pktio_call) (t0 t : pktio_table_t)
    (hv : view_unique (t0.entries.map slot_view))
    (hcalls : calls_on_open_devices L ops fuel t0 calls = true)
    (hrun : pktio_run L ops fuel t0 calls = some t) :
    view_unique (t.entries.map slot_view) := by
  induction calls generalizing t0 with
  | nil =>
    simp only [pktio_run, Option.some.injEq] at hrun
    rw [← hrun]; exact hv
  | cons c rest ih =>
    unfold pktio_run at hrun
    unfold calls_on_open_devices at hcalls
    cases hs : pktio_step L ops fuel t0 c with
    | none => rw [hs] at hrun; cases hrun
    | some t1 =>
      rw [hs] at hrun hcalls
      simp only [Bool.and_eq_true] at hcalls
      exact ih t1 (pktio_step_unique L ops fuel t0 t1 c hv hcalls.1 hs) hcalls.2 hrun

/-- C1, as amended. In every table reached from an all-FREE table by a
single-threaded sequence of `odp_pktio_open`, `odp_pktio_start`,
`odp_pktio_stop`, `odp_pktio_close` and `sched_cb_pktio_stop_finalize` calls
in which `odp_pktio_start` is only called on open devices, at most one slot
with `state >= PKTIO_STATE_ACTIVE` (neither FREE nor CLOSE_PENDING) carries a
given name. -/
theorem pktio_name_unique_among_active (L : Nat) (ops : List pktio_if_ops_t) (fuel : Nat)
    (calls : List pktio_call) (t0 t : pktio_table_t)
    (hfree : ∀ e ∈ t0.entries, e.state = PKTIO_STATE_FREE)
    (hcalls : calls_on_open_devices L ops fuel t0 calls = true)
    (hrun : pktio_run L ops fuel t0 calls = some t) :
    name_unique_active t := by
  have hv0 : view_unique (t0.entries.map slot_view) := by
    intro i j a b ha _ haa _ _
    obtain ⟨e, he, hae⟩ := List.mem_map.mp (List.getElem?_mem ha)
    subst hae
    simp [slot_view, hfree e he, state_active, PktioState.toNat] at haa
  have hv := pktio_run_unique L ops fuel calls t0 t hv0 hcalls hrun
  intro i j ei ej hi hj hai haj hname
  exact hv i j (slot_view ei) (slot_view ej) (by simp [hi]) (by simp [hj])
    (by simpa [state_active, slot_view] using hai)
    (by simpa [state_active, slot_view] using haj)
    (by simpa [slot_view] using hname)

/-- Witness of C1 as amended: the sequence open, start, stop, close, open again
from two cleared slots. -/
theorem pktio_name_unique_among_active_witness : name_unique_active reopen_table :=
  pktio_name_unique_among_active 256 [loop_ops] 0 reopen_calls (blank_table 2 1) reopen_table
    (by decide) (by decide) (by decide)

/-- Counterexample to C1 as stated. From two cleared (FREE) slots, the sequence
open "e0" (scheduled mode), start, stop, close, open "e0" is accepted call by
call, and it ends with two slots that are not FREE and carry the same name:
slot 0 is CLOSE_PENDING and still named "e0", slot 1 is OPENED under "e0". -/
theorem pktio_name_unique_nonfree_counterexample :
    (blank_table 2 1).entries.map slot_view
      = [(PKTIO_STATE_FREE, []), (PKTIO_STATE_FREE, [])] ∧
    calls_on_open_devices 256 [loop_ops] 0 (blank_table 2 1) reopen_calls = true ∧
    (pktio_run 256 [loop_ops] 0 (blank_table 2 1) reopen_calls).map
        (fun t => t.entries.map slot_view)
      = some [(PKTIO_STATE_CLOSE_PENDING, ['e', '0']), (PKTIO_STATE_OPENED, ['e', '0'])] := by
  decide

/-! ## Open, close, lookup -/

/-- The result of `odp_pktio_lookup` is determined by the slot views. -/
theorem lookup_invalid_of_view (L : Nat) (t t1 : pktio_table_t) (name : List Char) (i : Nat)
    (s : PktioState) (n : List Char)
    (h : odp_pktio_lookup L t name = ODP_PKTIO_INVALID)
    (hview : t1.entries.map slot_view = (t.entries.map slot_view).set i (s, n))
    (hs : state_active s = false) :
    odp_pktio_lookup L t1 name = ODP_PKTIO_INVALID := by
  apply (lookup_scan_invalid L name t1.entries 0).mpr
  intro e he hmatch
  have hm : slot_view e ∈ (t.entries.map slot_view).set i (s, n) := by
    rw [← hview]; exact List.mem_map_of_mem _ he
  rcases List.mem_or_eq_of_mem_set hm with h1 | h1
  · obtain ⟨e0, he0, hv0⟩ := List.mem_map.mp h1
    apply (lookup_scan_invalid L name t.entries 0).mp h e0 he0
    simp only [slot_view, Prod.mk.injEq] at hv0
    simpa [is_active, hv0.1, hv0.2] using hmatch
  · simp only [slot_view, Prod.mk.injEq] at h1
    have := hmatch.1
    simp [is_active, h1.1] at this
    simp [state_active] at hs
    omega

/-- C4. When `odp_pktio_open` of a name succeeds with handle `h` and the `close`
of the driver bound to the slot returns 0, `odp_pktio_close` of `h` returns 0,
leaves the slot of `h` FREE, and `odp_pktio_lookup` of the name then returns
`ODP_PKTIO_INVALID`. -/
theorem odp_pktio_open_close_lookup (L : Nat) (ops : List pktio_if_ops_t) (fuel : Nat)
    (t t1 : pktio_table_t) (name : List Char) (pool : Nat)
    (param : Option odp_pktio_param_t) (h : odp_pktio_t) (e : pktio_entry_t) (k : Nat)
    (d : pktio_if_ops_t)
    (hopen : odp_pktio_open L ops t name pool param = (h, t1))
    (hvalid : h ≠ ODP_PKTIO_INVALID)
    (hslot : get_pktio_entry t1 h = some e)
    (hbound : entry_ops ops e = some (k, d))
    (hclose0 : ∀ e1, (d.close e1).1 = 0) :
    ∃ t2 e2, odp_pktio_close ops fuel t1 h = some (0, t2) ∧
      get_pktio_entry t2 h = some e2 ∧ e2.state = PKTIO_STATE_FREE ∧
      odp_pktio_lookup L t2 name = ODP_PKTIO_INVALID := by
  rcases odp_pktio_open_cases L ops t name pool param with h1 | h1 | h1
  · rw [hopen] at h1
    simp only [Prod.mk.injEq] at h1
    exact absurd h1.1 hvalid
  · obtain ⟨_, _, _, _, _, _, _, hret, _⟩ := h1
    rw [hopen] at hret
    exact absurd hret hvalid
  · obtain ⟨i, e0, e1, k1, hget, hfree, _, hst, hname, _, _, _, hlk, _, hret, hent⟩ := h1
    rw [hopen] at hret hent
    simp only at hret hent
    have hlt := list_get_lt _ _ _ hget
    have he : e = e1 := by
      have := (get_pktio_entry_some t1 h e hslot).2
      rw [hent, hret] at this
      simpa [List.getElem?_set, hlt] using this.symm
    subst he
    obtain ⟨t2, hcl⟩ := odp_pktio_close_ok ops fuel t1 h e k d hslot (Or.inl hst) hbound
      hclose0 (fun hc => by rw [hst] at hc; cases hc)
    rcases odp_pktio_close_spec ops fuel t1 h (0, t2) hcl with h2 | h2
    · have h21 := h2.1
      simp at h21
    · obtain ⟨_, e', e2, t3, evs0, evs, hg, hfr, _, _, hput, hnm, _, _, _, _, hcases⟩ := h2
      rw [hslot] at hg
      simp only [Option.some.injEq] at hg
      subst hg
      simp only at hput
      have hfree2 : e2.state = PKTIO_STATE_FREE := by
        rcases hcases with hc | hc
        · rw [hst] at hc; exact absurd hc.1 (by decide)
        · exact hc.2
      obtain ⟨e3, hg3, _⟩ := get_pktio_entry_cleared t1 t3 h e hfr hslot
      refine ⟨t2, e2, hcl, ?_, hfree2, ?_⟩
      · rw [hput]; exact get_put_pktio_entry t3 h e3 e2 evs hg3
      · apply lookup_invalid_of_view L t t2 name i PKTIO_STATE_FREE e.name hlk
        · rw [hput, put_pktio_entry_view, view_of_cleared _ _ hfr, hent, hret, List.map_set,
            Nat.add_sub_cancel, List.set_set]
          simp [slot_view, hfree2, hnm]
        · decide

/-- Witness of C4: open "e0" on two cleared slots with the reference driver. -/
theorem odp_pktio_open_close_lookup_witness :
    ∃ t2 e2,
      odp_pktio_close [loop_ops] 0
        (odp_pktio_open 256 [loop_ops] (blank_table 2 1) ['e', '0'] 7 none).2 1 = some (0, t2) ∧
      get_pktio_entry t2 1 = some e2 ∧ e2.state = PKTIO_STATE_FREE ∧
      odp_pktio_lookup 256 t2 ['e', '0'] = ODP_PKTIO_INVALID :=
  odp_pktio_open_close_lookup 256 [loop_ops] 0 (blank_table 2 1)
    (odp_pktio_open 256 [loop_ops] (blank_table 2 1) ['e', '0'] 7 none).2 ['e', '0'] 7 none 1
    ((get_pktio_entry
      (odp_pktio_open 256 [loop_ops] (blank_table 2 1) ['e', '0'] 7 none).2 1).getD
      (blank_entry 0))
    0 loop_ops (by decide) (by decide) (by decide) rfl (fun _ => rfl)

/-! ## Start and stop -/

/-- Counterexample to C5 as stated. After open (scheduled mode), start and stop
the slot is STOP_PENDING; `odp_pktio_start` on it is not refused: it returns 0
and the slot is STARTED again. -/
theorem odp_pktio_start_stop_pending_counterexample :
    (pktio_run 256 [loop_ops] 0 (blank_table 1 1)
        [pktio_call.odp_pktio_open ['e', '0'] 7 (some sched_param),
         pktio_call.odp_pktio_start 1, pktio_call.odp_pktio_stop 1]).map
        (fun t => t.entries.map slot_view)
      = some [(PKTIO_STATE_STOP_PENDING, ['e', '0'])] ∧
    ((pktio_run 256 [loop_ops] 0 (blank_table 1 1)
        [pktio_call.odp_pktio_open ['e', '0'] 7 (some sched_param),
         pktio_call.odp_pktio_start 1, pktio_call.odp_pktio_stop 1]).bind
        (fun t => odp_pktio_start [loop_ops] t 1)).map
        (fun r => (r.1, r.2.entries.map slot_view))
      = some (0, [(PKTIO_STATE_STARTED, ['e', '0'])]) := by
  decide

/-- C5, as amended. `odp_pktio_start` is refused on account of the slot state
from STARTED only: on a STARTED slot it returns `-1` and leaves the table as it
is, without calling the driver; on a slot in any other state whose driver has no
`start` or whose `start` returns 0, it moves the slot to STARTED, returning 0
(or `-1` when, in scheduled mode, an input queue is missing). -/
theorem odp_pktio_start_refused_when_started (ops : List pktio_if_ops_t)
    (t : pktio_table_t) (hdl : odp_pktio_t) (e : pktio_entry_t)
    (hslot : get_pktio_entry t hdl = some e) :
    (e.state = PKTIO_STATE_STARTED → odp_pktio_start ops t hdl = some (-1, t)) ∧
    (e.state ≠ PKTIO_STATE_STARTED → ∀ k d, entry_ops ops e = some (k, d) →
      (d.start = none ∨ ∃ f, d.start = some f ∧ (f e).1 = 0) →
      ∃ t1 e1, odp_pktio_start ops t hdl = some
          (if e.param.in_mode = ODP_PKTIN_MODE_SCHED ∧ sched_queue_missing e = true
            then -1 else 0, t1) ∧
        get_pktio_entry t1 hdl = some e1 ∧ e1.state = PKTIO_STATE_STARTED) := by
  constructor
  · intro hs
    simp [odp_pktio_start, hslot, hs]
  · intro hs k d hbound hstart
    unfold odp_pktio_start
    rw [hslot]
    simp only
    rw [if_neg hs, hbound]
    simp only
    rcases hstart with hn | ⟨f, hf, hf0⟩
    · rw [hn]
      simp only [if_true]
      by_cases hm : e.param.in_mode = ODP_PKTIN_MODE_SCHED
      · rw [if_pos hm]
        by_cases hq : sched_queue_missing e = true
        · have hq1 : sched_queue_missing { e with state := PKTIO_STATE_STARTED } = true := hq
          rw [if_pos hq1, if_pos ⟨hm, hq⟩]
          exact ⟨_, _, rfl, get_put_pktio_entry t hdl e _ _ hslot, rfl⟩
        · have hq1 : ¬ sched_queue_missing { e with state := PKTIO_STATE_STARTED } = true := hq
          rw [if_neg hq1, if_neg (fun hc => hq hc.2)]
          exact ⟨_, _, rfl, get_put_pktio_entry t hdl e _ _ hslot, rfl⟩
      · rw [if_neg hm, if_neg (fun hc => hm hc.1)]
        exact ⟨_, _, rfl, get_put_pktio_entry t hdl e _ _ hslot, rfl⟩
    · rw [hf]
      simp only [hf0, if_true]
      by_cases hm : e.param.in_mode = ODP_PKTIN_MODE_SCHED
      · rw [if_pos hm]
        by_cases hq : sched_queue_missing e = true
        · have hq1 : sched_queue_missing
              { e with pkt_priv := (f e).2, state := PKTIO_STATE_STARTED } = true := hq
          rw [if_pos hq1, if_pos ⟨hm, hq⟩]
          exact ⟨_, _, rfl, get_put_pktio_entry t hdl e _ _ hslot, rfl⟩
        · have hq1 : ¬ sched_queue_missing
              { e with pkt_priv := (f e).2, state := PKTIO_STATE_STARTED } = true := hq
          rw [if_neg hq1, if_neg (fun hc => hq hc.2)]
          exact ⟨_, _, rfl, get_put_pktio_entry t hdl e _ _ hslot, rfl⟩
      · rw [if_neg hm, if_neg (fun hc => hm hc.1)]
        exact ⟨_, _, rfl, get_put_pktio_entry t hdl e _ _ hslot, rfl⟩

/-- Witness of C5 as amended: a STARTED slot is refused; a STOP_PENDING slot in
scheduled mode, whose driver's `start` returns 0, is started. -/
theorem odp_pktio_start_refused_when_started_witness :
    odp_pktio_start [draining_ops] (sample_table PKTIO_STATE_STARTED ODP_PKTIN_MODE_DIRECT) 1
      = some (-1, sample_table PKTIO_STATE_STARTED ODP_PKTIN_MODE_DIRECT) ∧
    ∃ t1 e1,
      odp_pktio_start [draining_ops]
          (sample_table PKTIO_STATE_STOP_PENDING ODP_PKTIN_MODE_SCHED) 1
        = some
          (if (sample_entry PKTIO_STATE_STOP_PENDING ODP_PKTIN_MODE_SCHED).param.in_mode
                = ODP_PKTIN_MODE_SCHED ∧
              sched_queue_missing (sample_entry PKTIO_STATE_STOP_PENDING ODP_PKTIN_MODE_SCHED)
                = true
            then -1 else 0, t1) ∧
      get_pktio_entry t1 1 = some e1 ∧ e1.state = PKTIO_STATE_STARTED :=
  ⟨(odp_pktio_start_refused_when_started [draining_ops]
      (sample_table PKTIO_STATE_STARTED ODP_PKTIN_MODE_DIRECT) 1
      (sample_entry PKTIO_STATE_STARTED ODP_PKTIN_MODE_DIRECT) rfl).1 rfl,
   (odp_pktio_start_refused_when_started [draining_ops]
      (sample_table PKTIO_STATE_STOP_PENDING ODP_PKTIN_MODE_SCHED) 1
      (sample_entry PKTIO_STATE_STOP_PENDING ODP_PKTIN_MODE_SCHED) rfl).2 (by decide)
      0 draining_ops rfl (Or.inr ⟨_, rfl, rfl⟩)⟩

/-- C6, the failing case. In scheduled input mode with `num_in_queue = 1` and
`in_queue[0].queue = ODP_QUEUE_INVALID`, `odp_pktio_start` on an OPENED slot
returns `-1` although it has already moved the slot to STARTED. -/
theorem odp_pktio_start_missing_queue_changes_state :
    missing_queue_table.entries.map slot_view = [(PKTIO_STATE_OPENED, ['e', '0'])] ∧
    (odp_pktio_start [loop_ops] missing_queue_table 1).map
        (fun r => (r.1, r.2.entries.map slot_view))
      = some (-1, [(PKTIO_STATE_STARTED, ['e', '0'])]) := by
  decide

/-- C7. On a STARTED slot whose driver has no `stop` or whose `stop` returns 0,
`odp_pktio_stop` returns 0 and the state becomes STOP_PENDING when the input
mode is SCHED and STOPPED for every other input mode. On a slot that is not
STARTED it returns `-1` and the table, log of driver calls included, is
unchanged: the driver's `stop` is not called. -/
theorem odp_pktio_stop_from_started (ops : List pktio_if_ops_t)
    (t : pktio_table_t) (hdl : odp_pktio_t) (e : pktio_entry_t)
    (hslot : get_pktio_entry t hdl = some e) :
    (e.state = PKTIO_STATE_STARTED → ∀ k d, entry_ops ops e = some (k, d) →
      (d.stop = none ∨ ∃ f, d.stop = some f ∧ (f e).1 = 0) →
      ∃ t1 e1, odp_pktio_stop ops t hdl = some (0, t1) ∧
        get_pktio_entry t1 hdl = some e1 ∧
        e1.state = (if e.param.in_mode = ODP_PKTIN_MODE_SCHED
          then PKTIO_STATE_STOP_PENDING else PKTIO_STATE_STOPPED)) ∧
    (e.state ≠ PKTIO_STATE_STARTED → odp_pktio_stop ops t hdl = some (-1, t)) := by
  constructor
  · intro hs k d hbound hstop
    unfold odp_pktio_stop _pktio_stop
    rw [hslot]
    simp only
    rw [if_neg (not_not.mpr hs), hbound]
    simp only
    rcases hstop with hn | ⟨f, hf, hf0⟩
    · rw [hn]
      simp only [ne_eq, not_true_eq_false, if_false]
      by_cases hm : e.param.in_mode = ODP_PKTIN_MODE_SCHED
      · simp only [hm, if_true]
        exact ⟨_, _, rfl, get_put_pktio_entry t hdl e _ _ hslot, rfl⟩
      · simp only [hm, if_false]
        exact ⟨_, _, rfl, get_put_pktio_entry t hdl e _ _ hslot, rfl⟩
    · rw [hf]
      simp only [hf0, ne_eq, not_true_eq_false, if_false]
      by_cases hm : e.param.in_mode = ODP_PKTIN_MODE_SCHED
      · simp only [hm, if_true]
        exact ⟨_, _, rfl, get_put_pktio_entry t hdl e _ _ hslot, rfl⟩
      · simp only [hm, if_false]
        exact ⟨_, _, rfl, get_put_pktio_entry t hdl e _ _ hslot, rfl⟩
  · intro hs
    unfold odp_pktio_stop _pktio_stop
    rw [hslot]
    simp only
    rw [if_pos hs]
    simp only
    rw [put_pktio_entry_same t hdl e hslot]

/-- Witness of C7: a STARTED slot in scheduled mode whose driver's `stop`
returns 0, and an OPENED slot. -/
theorem odp_pktio_stop_from_started_witness :
    (∃ t1 e1,
      odp_pktio_stop [draining_ops] (sample_table PKTIO_STATE_STARTED ODP_PKTIN_MODE_SCHED) 1
        = some (0, t1) ∧
      get_pktio_entry t1 1 = some e1 ∧
      e1.state = (if (sample_entry PKTIO_STATE_STARTED ODP_PKTIN_MODE_SCHED).param.in_mode
          = ODP_PKTIN_MODE_SCHED
        then PKTIO_STATE_STOP_PENDING else PKTIO_STATE_STOPPED)) ∧
    odp_pktio_stop [draining_ops] (sample_table PKTIO_STATE_OPENED ODP_PKTIN_MODE_DIRECT) 1
      = some (-1, sample_table PKTIO_STATE_OPENED ODP_PKTIN_MODE_DIRECT) :=
  ⟨(odp_pktio_stop_from_started [draining_ops]
      (sample_table PKTIO_STATE_STARTED ODP_PKTIN_MODE_SCHED) 1
      (sample_entry PKTIO_STATE_STARTED ODP_PKTIN_MODE_SCHED) rfl).1 rfl
      0 draining_ops rfl (Or.inr ⟨_, rfl, rfl⟩),
   (odp_pktio_stop_from_started [draining_ops]
      (sample_table PKTIO_STATE_OPENED ODP_PKTIN_MODE_DIRECT) 1
      (sample_entry PKTIO_STATE_OPENED ODP_PKTIN_MODE_DIRECT) rfl).2 (by decide)⟩

/-! ## The scheduler's finalize callback -/

/-- C9. `sched_cb_pktio_stop_finalize` on a slot of the table returns with the
slot's state mapped STOP_PENDING to STOPPED and CLOSE_PENDING to FREE, and left
as it is in any other state; no other field of the slot and no other slot is
modified. -/
theorem sched_cb_pktio_stop_finalize_spec (t : pktio_table_t) (pktio_index : Nat)
    (entry : pktio_entry_t) (h : t.entries[pktio_index]? = some entry) :
    ∃ t1 s1, sched_cb_pktio_stop_finalize t pktio_index = some t1 ∧
      t1.entries = t.entries.set pktio_index { entry with state := s1 } ∧
      (entry.state = PKTIO_STATE_STOP_PENDING → s1 = PKTIO_STATE_STOPPED) ∧
      (entry.state = PKTIO_STATE_CLOSE_PENDING → s1 = PKTIO_STATE_FREE) ∧
      (entry.state ≠ PKTIO_STATE_STOP_PENDING → entry.state ≠ PKTIO_STATE_CLOSE_PENDING →
        s1 = entry.state) := by
  unfold sched_cb_pktio_stop_finalize pktio_entry_by_index
  rw [h]
  by_cases h1 : entry.state = PKTIO_STATE_STOP_PENDING
  · simp only [h1]
    refine ⟨_, PKTIO_STATE_STOPPED, rfl, ?_, ?_, ?_, ?_⟩
    · simp [put_pktio_entry]
    · intro _; rfl
    · intro h2; cases h2
    · intro h2; exact absurd rfl h2
  · by_cases h2 : entry.state = PKTIO_STATE_CLOSE_PENDING
    · simp only [h2]
      refine ⟨_, PKTIO_STATE_FREE, rfl, ?_, ?_, ?_, ?_⟩
      · simp [put_pktio_entry]
      · intro h3; cases h3
      · intro _; rfl
      · intro _ h3; exact absurd rfl h3
    · refine ⟨t, entry.state, ?_, ?_, ?_, ?_, ?_⟩
      · simp [h1, h2]
      · exact (list_set_same _ _ _ h).symm
      · intro h3; exact absurd h3 h1
      · intro h3; exact absurd h3 h2
      · intro _ _; rfl

/-- Witness of C9: a CLOSE_PENDING slot. -/
theorem sched_cb_pktio_stop_finalize_spec_witness :
    ∃ t1 s1,
      sched_cb_pktio_stop_finalize
        (sample_table PKTIO_STATE_CLOSE_PENDING ODP_PKTIN_MODE_SCHED) 0 = some t1 ∧
      t1.entries = (sample_table PKTIO_STATE_CLOSE_PENDING ODP_PKTIN_MODE_SCHED).entries.set 0
        { sample_entry PKTIO_STATE_CLOSE_PENDING ODP_PKTIN_MODE_SCHED with state := s1 } ∧
      ((sample_entry PKTIO_STATE_CLOSE_PENDING ODP_PKTIN_MODE_SCHED).state
          = PKTIO_STATE_STOP_PENDING → s1 = PKTIO_STATE_STOPPED) ∧
      ((sample_entry PKTIO_STATE_CLOSE_PENDING ODP_PKTIN_MODE_SCHED).state
          = PKTIO_STATE_CLOSE_PENDING → s1 = PKTIO_STATE_FREE) ∧
      ((sample_entry PKTIO_STATE_CLOSE_PENDING ODP_PKTIN_MODE_SCHED).state
          ≠ PKTIO_STATE_STOP_PENDING →
        (sample_entry PKTIO_STATE_CLOSE_PENDING ODP_PKTIN_MODE_SCHED).state
          ≠ PKTIO_STATE_CLOSE_PENDING →
        s1 = (sample_entry PKTIO_STATE_CLOSE_PENDING ODP_PKTIN_MODE_SCHED).state) :=
  sched_cb_pktio_stop_finalize_spec
    (sample_table PKTIO_STATE_CLOSE_PENDING ODP_PKTIN_MODE_SCHED) 0
    (sample_entry PKTIO_STATE_CLOSE_PENDING ODP_PKTIN_MODE_SCHED) rfl

/-! ## Termination of the subsystem -/

/-- A bit of `a` that `b` lacks survives `a & ~b`. -/
theorem and_not64_ne_zero (a b i : Nat) (ha : a < 2 ^ 64) (h1 : a.testBit i = true)
    (h2 : b.testBit i = false) : a &&& bits_not64 b ≠ 0 := by
  have hi : i < 64 := by
    by_contra hc
    have hle : 2 ^ 64 ≤ 2 ^ i := Nat.pow_le_pow_right (by decide) (Nat.not_lt.mp hc)
    have := Nat.testBit_lt_two_pow (Nat.lt_of_lt_of_le ha hle)
    rw [this] at h1
    cases h1
  intro h0
  have hb : (a &&& bits_not64 b).testBit i = true := by
    rw [bits_not64, Nat.testBit_and, Nat.testBit_xor, Nat.testBit_two_pow_sub_one, h1, h2]
    simp [hi]
  rw [h0] at hb
  simp at hb

/-- When every bit of `a` is a bit of `b`, `a & ~b` is zero. -/
theorem and_not64_eq_zero (a b : Nat) (ha : a < 2 ^ 64)
    (h : ∀ i, a.testBit i = true → b.testBit i = true) : a &&& bits_not64 b = 0 := by
  apply Nat.eq_of_testBit_eq
  intro i
  simp only [bits_not64, Nat.testBit_and, Nat.testBit_xor, Nat.testBit_two_pow_sub_one,
    Nat.zero_testBit]
  cases hai : a.testBit i with
  | false => simp
  | true =>
    have hi : i < 64 := by
      by_contra hc
      have hle : 2 ^ 64 ≤ 2 ^ i := Nat.pow_le_pow_right (by decide) (Nat.not_lt.mp hc)
      have := Nat.testBit_lt_two_pow (Nat.lt_of_lt_of_le ha hle)
      rw [this] at hai
      cases hai
    simp [h i hai, hi]

/-- `odp_pktio_capability` on a slot with a driver returns; the table it leaves
is the old one with at most the driver-private storage of the slot changed, and
the only call logged is the driver's `capability`. -/
theorem odp_pktio_capability_spec (ops : List pktio_if_ops_t) (t : pktio_table_t)
    (pktio : odp_pktio_t) (e : pktio_entry_t) (k : Nat) (d : pktio_if_ops_t)
    (hslot : get_pktio_entry t pktio = some e) (hbound : entry_ops ops e = some (k, d)) :
    ∃ rc capa p evs, odp_pktio_capability ops t pktio
        = some (rc, capa, put_pktio_entry t pktio { e with pkt_priv := p } evs) ∧
      (∀ ev ∈ evs, ev = pktio_event.drv_capability k rc) ∧
      (d.capability = none → rc = 0 ∧ capa.max_input_queues = 1 ∧
        capa.max_output_queues = 1) := by
  unfold odp_pktio_capability
  rw [hslot]
  simp only
  rw [hbound]
  simp only
  cases hc : d.capability with
  | none =>
    simp only [single_capability, if_true]
    refine ⟨0, { single_capability.2 with
        config := { single_capability.2.config with parser_layer := ODP_PROTO_LAYER_ALL } },
      e.pkt_priv, [], ?_, by simp, fun _ => ⟨rfl, rfl, rfl⟩⟩
    rw [put_pktio_entry_same t pktio e hslot]
    rfl
  | some f =>
    simp only
    by_cases h0 : (f e).1 = 0
    · rw [if_pos h0]
      exact ⟨_, _, _, _, rfl, by simp, fun h => by cases h⟩
    · rw [if_neg h0]
      exact ⟨_, _, _, _, rfl, by simp, fun h => by cases h⟩

/-- The `NULL` configuration stands for the defaults. -/
theorem config_default_getD (config : Option odp_pktio_config_t) :
    (match config with
      | none => odp_pktio_config_init
      | some c => c) = config.getD odp_pktio_config_init := by
  cases config <;> rfl

/-- C11. Let `capa` be what `odp_pktio_capability` reports for the slot. If the
given configuration (`NULL`: the defaults) has a pktin or pktout feature bit
that `capa` lacks, or sets `enable_loop` while `capa` does not, then
`odp_pktio_config` returns `-1`, the table is the one the capability query left
(the driver's `config` is not invoked: no `drv_config` is logged), and the
stored configuration of the slot is unchanged. If every bit and the loopback
flag are supported and the slot is not STARTED, the stored configuration equals
the given one afterwards. -/
theorem odp_pktio_config_validates (ops : List pktio_if_ops_t) (t t1 : pktio_table_t)
    (hdl : odp_pktio_t) (config : Option odp_pktio_config_t) (e : pktio_entry_t) (k : Nat)
    (d : pktio_if_ops_t) (capa : odp_pktio_capability_t)
    (hslot : get_pktio_entry t hdl = some e)
    (hbound : entry_ops ops e = some (k, d))
    (hcap : odp_pktio_capability ops t hdl = some (0, capa, t1))
    (hin : (config.getD odp_pktio_config_init).pktin_all_bits < 2 ^ 64)
    (hout : (config.getD odp_pktio_config_init).pktout_all_bits < 2 ^ 64) :
    (((∃ i, (config.getD odp_pktio_config_init).pktin_all_bits.testBit i = true ∧
          capa.config.pktin_all_bits.testBit i = false) ∨
        (∃ i, (config.getD odp_pktio_config_init).pktout_all_bits.testBit i = true ∧
          capa.config.pktout_all_bits.testBit i = false) ∨
        ((config.getD odp_pktio_config_init).enable_loop = true ∧
          capa.config.enable_loop = false)) →
      ∃ e1 evs, odp_pktio_config ops t hdl config = some (-1, t1) ∧
        get_pktio_entry t1 hdl = some e1 ∧ e1.config = e.config ∧
        t1.trace = t.trace ++ evs ∧ ∀ j x, pktio_event.drv_config j x ∉ evs) ∧
    ((∀ i, (config.getD odp_pktio_config_init).pktin_all_bits.testBit i = true →
          capa.config.pktin_all_bits.testBit i = true) →
      (∀ i, (config.getD odp_pktio_config_init).pktout_all_bits.testBit i = true →
          capa.config.pktout_all_bits.testBit i = true) →
      ((config.getD odp_pktio_config_init).enable_loop = true →
          capa.config.enable_loop = true) →
      e.state ≠ PKTIO_STATE_STARTED →
      ∃ r t2 e2, odp_pktio_config ops t hdl config = some (r, t2) ∧
        get_pktio_entry t2 hdl = some e2 ∧
        e2.config = config.getD odp_pktio_config_init) := by
  have hcfg := config_default_getD config
  obtain ⟨rc, capa1, p, evs, hspec, hevs, _⟩ :=
    odp_pktio_capability_spec ops t hdl e k d hslot hbound
  rw [hcap] at hspec
  simp only [Option.some.injEq, Prod.mk.injEq] at hspec
  obtain ⟨hrc, _, ht1⟩ := hspec
  have hg1 : get_pktio_entry t1 hdl = some { e with pkt_priv := p } := by
    rw [ht1]; exact get_put_pktio_entry t hdl e _ evs hslot
  have htr : t1.trace = t.trace ++ evs := by rw [ht1]; rfl
  have hnoc : ∀ j x, pktio_event.drv_config j x ∉ evs := by
    intro j x hm
    have := hevs _ hm
    cases this
  constructor
  · intro hbad
    refine ⟨_, evs, ?_, hg1, rfl, htr, hnoc⟩
    unfold odp_pktio_config
    rw [hslot]
    simp only
    rw [hcap, hcfg]
    simp only [ne_eq, not_true_eq_false, if_false]
    by_cases h1 : (config.getD odp_pktio_config_init).pktin_all_bits &&&
        bits_not64 capa.config.pktin_all_bits = 0
    · rw [if_neg (not_not.mpr h1)]
      by_cases h2 : (config.getD odp_pktio_config_init).pktout_all_bits &&&
          bits_not64 capa.config.pktout_all_bits = 0
      · rw [if_neg (not_not.mpr h2)]
        rcases hbad with ⟨i, hb1, hb2⟩ | ⟨i, hb1, hb2⟩ | hb
        · exact absurd h1 (and_not64_ne_zero _ _ i hin hb1 hb2)
        · exact absurd h2 (and_not64_ne_zero _ _ i hout hb1 hb2)
        · rw [if_pos hb]
      · rw [if_pos h2]
    · rw [if_pos h1]
  · intro hsin hsout hloop hns
    unfold odp_pktio_config
    rw [hslot]
    simp only
    rw [hcap, hcfg]
    simp only [ne_eq, not_true_eq_false, if_false]
    rw [if_neg (not_not.mpr (and_not64_eq_zero _ _ hin hsin)),
      if_neg (not_not.mpr (and_not64_eq_zero _ _ hout hsout))]
    have hl : ¬ ((config.getD odp_pktio_config_init).enable_loop = true ∧
        capa.config.enable_loop = false) := by
      intro hc
      rw [hloop hc.1] at hc
      exact absurd hc.2 (by decide)
    rw [if_neg hl, hg1]
    simp only
    rw [if_neg hns]
    have hb1 : entry_ops ops
        { e with pkt_priv := p, config := config.getD odp_pktio_config_init }
        = some (k, d) := by
      rw [← hbound]; exact entry_ops_congr ops e _ rfl
    rw [hb1]
    simp only
    cases hdc : d.config with
    | none => exact ⟨_, _, _, rfl, get_put_pktio_entry t1 hdl _ _ _ hg1, rfl⟩
    | some f => exact ⟨_, _, _, rfl, get_put_pktio_entry t1 hdl _ _ _ hg1, rfl⟩

/-- Witness of C11: with the driver `feature_ops`, a configuration asking for the
unsupported pktin bit 2 is refused, one asking for supported bits is stored. -/
theorem odp_pktio_config_validates_witness :
    (∃ e1 evs,
      odp_pktio_config [feature_ops]
          (sample_table PKTIO_STATE_OPENED ODP_PKTIN_MODE_DIRECT) 1 (some config_bit2)
        = some (-1, queried_table PKTIO_STATE_OPENED ODP_PKTIN_MODE_DIRECT) ∧
      get_pktio_entry (queried_table PKTIO_STATE_OPENED ODP_PKTIN_MODE_DIRECT) 1 = some e1 ∧
      e1.config = (sample_entry PKTIO_STATE_OPENED ODP_PKTIN_MODE_DIRECT).config ∧
      (queried_table PKTIO_STATE_OPENED ODP_PKTIN_MODE_DIRECT).trace
        = (sample_table PKTIO_STATE_OPENED ODP_PKTIN_MODE_DIRECT).trace ++ evs ∧
      ∀ j x, pktio_event.drv_config j x ∉ evs) ∧
    (∃ r t2 e2,
      odp_pktio_config [feature_ops]
          (sample_table PKTIO_STATE_OPENED ODP_PKTIN_MODE_DIRECT) 1 (some config_bit0)
        = some (r, t2) ∧
      get_pktio_entry t2 1 = some e2 ∧
      e2.config = (some config_bit0).getD odp_pktio_config_init) :=
  ⟨(odp_pktio_config_validates [feature_ops]
      (sample_table PKTIO_STATE_OPENED ODP_PKTIN_MODE_DIRECT)
      (queried_table PKTIO_STATE_OPENED ODP_PKTIN_MODE_DIRECT) 1 (some config_bit2)
      (sample_entry PKTIO_STATE_OPENED ODP_PKTIN_MODE_DIRECT) 0 feature_ops feature_capa
      rfl rfl rfl (by decide) (by decide)).1 (Or.inl ⟨2, by decide, by decide⟩),
   (odp_pktio_config_validates [feature_ops]
      (sample_table PKTIO_STATE_OPENED ODP_PKTIN_MODE_DIRECT)
      (queried_table PKTIO_STATE_OPENED ODP_PKTIN_MODE_DIRECT) 1 (some config_bit0)
      (sample_entry PKTIO_STATE_OPENED ODP_PKTIN_MODE_DIRECT) 0 feature_ops feature_capa
      rfl rfl rfl (by decide) (by decide)).2
      (fun i hi => by
        have h0 : i = 0 := by
          by_contra hne
          have : (1 : Nat).testBit i = false :=
            Nat.testBit_lt_two_pow (Nat.lt_of_lt_of_le (by decide : 1 < 2 ^ 1)
              (Nat.pow_le_pow_right (by decide) (Nat.one_le_iff_ne_zero.mpr hne)))
          simp only [config_bit0, Option.getD_some] at hi
          rw [this] at hi
          cases hi
        subst h0
        decide)
      (fun i hi => by
        have h0 : i = 0 := by
          by_contra hne
          have : (1 : Nat).testBit i = false :=
            Nat.testBit_lt_two_pow (Nat.lt_of_lt_of_le (by decide : 1 < 2 ^ 1)
              (Nat.pow_le_pow_right (by decide) (Nat.one_le_iff_ne_zero.mpr hne)))
          simp only [config_bit0, Option.getD_some] at hi
          rw [this] at hi
          cases hi
        subst h0
        decide)
      (fun h => by cases h) (by decide)⟩

/-- C12. On a STARTED slot, `odp_pktio_config` returns `-1` and leaves the slot
as it was but for the driver-private storage (state, stored configuration,
classifier flag, queue counts and queue descriptors are unchanged), having
called the driver's `capability` at most, never its `config`;
`odp_pktin_queue_config` and `odp_pktout_queue_config` return `-1` with the
table, log of driver calls included, unchanged. -/
theorem pktio_config_refused_when_started (ops : List pktio_if_ops_t)
    (odp_queue_create : pktio_queue_name → Option Nat) (t : pktio_table_t)
    (hdl : odp_pktio_t) (e : pktio_entry_t) (k : Nat) (d : pktio_if_ops_t)
    (config : Option odp_pktio_config_t) (pin : Option odp_pktin_queue_param_t)
    (pout : Option odp_pktout_queue_param_t)
    (hslot : get_pktio_entry t hdl = some e)
    (hstate : e.state = PKTIO_STATE_STARTED)
    (hbound : entry_ops ops e = some (k, d)) :
    (∃ t1 e1 evs, odp_pktio_config ops t hdl config = some (-1, t1) ∧
      get_pktio_entry t1 hdl = some e1 ∧ priv_cleared e1 = priv_cleared e ∧
      t1.trace = t.trace ++ evs ∧ ∀ ev ∈ evs, ∃ x, ev = pktio_event.drv_capability k x) ∧
    odp_pktin_queue_config ops odp_queue_create t hdl pin = some (-1, t) ∧
    odp_pktout_queue_config ops odp_queue_create t hdl pout = some (-1, t) := by
  refine ⟨?_, ?_, ?_⟩
  · obtain ⟨rc, capa, p, evs, hcap, hevs, _⟩ :=
      odp_pktio_capability_spec ops t hdl e k d hslot hbound
    have hg1 : get_pktio_entry (put_pktio_entry t hdl { e with pkt_priv := p } evs) hdl
        = some { e with pkt_priv := p } := get_put_pktio_entry t hdl e _ evs hslot
    refine ⟨_, { e with pkt_priv := p }, evs, ?_, hg1, rfl, rfl,
      fun ev hev => ⟨rc, hevs ev hev⟩⟩
    unfold odp_pktio_config
    rw [hslot]
    simp only
    rw [hcap]
    simp only
    split
    · rfl
    · split
      · rfl
      · split
        · rfl
        · split
          · rfl
          · rw [hg1]
            simp only
            rw [if_pos hstate]
  · unfold odp_pktin_queue_config
    rw [hslot]
    simp only
    rw [if_pos hstate]
  · unfold odp_pktout_queue_config
    rw [hslot]
    simp only
    rw [if_pos hstate]

/-- Witness of C12: a STARTED slot bound to `feature_ops`. -/
theorem pktio_config_refused_when_started_witness :
    (∃ t1 e1 evs,
      odp_pktio_config [feature_ops]
          (sample_table PKTIO_STATE_STARTED ODP_PKTIN_MODE_DIRECT) 1 (some config_bit0)
        = some (-1, t1) ∧
      get_pktio_entry t1 1 = some e1 ∧
      priv_cleared e1 = priv_cleared (sample_entry PKTIO_STATE_STARTED ODP_PKTIN_MODE_DIRECT) ∧
      t1.trace = (sample_table PKTIO_STATE_STARTED ODP_PKTIN_MODE_DIRECT).trace ++ evs ∧
      ∀ ev ∈ evs, ∃ x, ev = pktio_event.drv_capability 0 x) ∧
    odp_pktin_queue_config [feature_ops] queue_create_ok
        (sample_table PKTIO_STATE_STARTED ODP_PKTIN_MODE_DIRECT) 1 (some plain_param5)
      = some (-1, sample_table PKTIO_STATE_STARTED ODP_PKTIN_MODE_DIRECT) ∧
    odp_pktout_queue_config [feature_ops] queue_create_ok
        (sample_table PKTIO_STATE_STARTED ODP_PKTIN_MODE_DIRECT) 1 none
      = some (-1, sample_table PKTIO_STATE_STARTED ODP_PKTIN_MODE_DIRECT) :=
  pktio_config_refused_when_started [feature_ops] queue_create_ok
    (sample_table PKTIO_STATE_STARTED ODP_PKTIN_MODE_DIRECT) 1
    (sample_entry PKTIO_STATE_STARTED ODP_PKTIN_MODE_DIRECT) 0 feature_ops
    (some config_bit0) (some plain_param5) none rfl rfl rfl

/-- The `NULL` input queue parameters stand for the defaults. -/
theorem pktin_param_default_getD (param : Option odp_pktin_queue_param_t) :
    (match param with
      | none => odp_pktin_queue_param_init
      | some p => p) = param.getD odp_pktin_queue_param_init := by
  cases param <;> rfl

/-- C13, as stated, fails: with `classifier_enable` set the requested
`num_queues` is replaced by one before the comparison, so five queues asked of
a device reporting `max_input_queues = 4` are accepted (return value `0`) and
one input queue is configured. -/
theorem odp_pktin_queue_config_classifier_counterexample :
    (sample_entry PKTIO_STATE_OPENED ODP_PKTIN_MODE_DIRECT).state ≠ PKTIO_STATE_STARTED ∧
    (sample_entry PKTIO_STATE_OPENED ODP_PKTIN_MODE_DIRECT).param.in_mode
      ≠ ODP_PKTIN_MODE_DISABLED ∧
    odp_pktio_capability [feature_ops]
        (sample_table PKTIO_STATE_OPENED ODP_PKTIN_MODE_DIRECT) 1
      = some (0, feature_capa, queried_table PKTIO_STATE_OPENED ODP_PKTIN_MODE_DIRECT) ∧
    cls_param5.num_queues > feature_capa.max_input_queues ∧
    ∃ t2 e2,
      odp_pktin_queue_config [feature_ops] queue_create_ok
          (sample_table PKTIO_STATE_OPENED ODP_PKTIN_MODE_DIRECT) 1 (some cls_param5)
        = some (0, t2) ∧
      get_pktio_entry t2 1 = some e2 ∧ e2.num_in_queue = 1 ∧ e2.cls_enabled = true :=
  ⟨by decide, by decide, rfl, by decide, _, _, rfl, rfl, rfl, rfl⟩

/-- C13, amended. On a non-STARTED slot with input enabled, input-queue
parameters (`NULL`: the defaults) with `classifier_enable` clear whose
`num_queues` exceeds the `max_input_queues` that `odp_pktio_capability`
reports are rejected: `odp_pktin_queue_config` returns `-1`, and the slot keeps
its state, its number of input queues and its input queue descriptors. -/
theorem odp_pktin_queue_config_too_many (ops : List pktio_if_ops_t)
    (odp_queue_create : pktio_queue_name → Option Nat) (t t1 : pktio_table_t)
    (hdl : odp_pktio_t) (e : pktio_entry_t) (k : Nat) (d : pktio_if_ops_t)
    (param : Option odp_pktin_queue_param_t) (rc : Int) (capa : odp_pktio_capability_t)
    (hslot : get_pktio_entry t hdl = some e)
    (hstate : e.state ≠ PKTIO_STATE_STARTED)
    (hmode : e.param.in_mode ≠ ODP_PKTIN_MODE_DISABLED)
    (hbound : entry_ops ops e = some (k, d))
    (hcls : (param.getD odp_pktin_queue_param_init).classifier_enable = false)
    (hcap : odp_pktio_capability ops t hdl = some (rc, capa, t1))
    (hmax : (param.getD odp_pktin_queue_param_init).num_queues > capa.max_input_queues) :
    ∃ t2 e2, odp_pktin_queue_config ops odp_queue_create t hdl param = some (-1, t2) ∧
      get_pktio_entry t2 hdl = some e2 ∧ e2.state = e.state ∧
      e2.num_in_queue = e.num_in_queue ∧ e2.in_queue = e.in_queue := by
  obtain ⟨rc0, capa0, p, evs, hcap0, _, _⟩ :=
    odp_pktio_capability_spec ops t hdl e k d hslot hbound
  rw [hcap0] at hcap
  injection hcap with hcap
  injection hcap with hrc hcap
  injection hcap with hcapa ht1
  subst hrc hcapa ht1
  have hg1 : get_pktio_entry (put_pktio_entry t hdl { e with pkt_priv := p } evs) hdl
      = some { e with pkt_priv := p } := get_put_pktio_entry t hdl e _ evs hslot
  have hnz : (param.getD odp_pktin_queue_param_init).num_queues ≠ 0 := by omega
  unfold odp_pktin_queue_config
  rw [pktin_param_default_getD, hslot]
  simp only
  rw [if_neg hstate, if_neg hmode, if_neg (fun h => hnz h.2), hcap0]
  simp only
  by_cases h0 : rc0 ≠ 0
  · rw [if_pos h0]
    exact ⟨_, _, rfl, hg1, rfl, rfl, rfl⟩
  · rw [if_neg h0, hg1]
    simp only
    rw [hcls]
    simp only [Bool.false_eq_true, if_false]
    rw [if_pos hmax]
    exact ⟨_, { e with pkt_priv := p, cls_enabled := false }, rfl,
      get_put_pktio_entry _ hdl _ _ [] hg1, rfl, rfl, rfl⟩

/-- Witness of the amended C13: five queues without the classifier, asked of a
device reporting four. -/
theorem odp_pktin_queue_config_too_many_witness :
    ∃ t2 e2,
      odp_pktin_queue_config [feature_ops] queue_create_ok
          (sample_table PKTIO_STATE_OPENED ODP_PKTIN_MODE_DIRECT) 1 (some plain_param5)
        = some (-1, t2) ∧
      get_pktio_entry t2 1 = some e2 ∧
      e2.state = (sample_entry PKTIO_STATE_OPENED ODP_PKTIN_MODE_DIRECT).state ∧
      e2.num_in_queue = (sample_entry PKTIO_STATE_OPENED ODP_PKTIN_MODE_DIRECT).num_in_queue ∧
      e2.in_queue = (sample_entry PKTIO_STATE_OPENED ODP_PKTIN_MODE_DIRECT).in_queue :=
  odp_pktin_queue_config_too_many [feature_ops] queue_create_ok
    (sample_table PKTIO_STATE_OPENED ODP_PKTIN_MODE_DIRECT)
    (queried_table PKTIO_STATE_OPENED ODP_PKTIN_MODE_DIRECT) 1
    (sample_entry PKTIO_STATE_OPENED ODP_PKTIN_MODE_DIRECT) 0 feature_ops
    (some plain_param5) 0 feature_capa rfl (by decide) (by decide) rfl rfl rfl (by decide)

/-! ## The receive path -/

/-- `pktin_recv_buf` changes driver-private storage only: in particular no
slot's `in_discards` counter. -/
theorem pktin_recv_buf_frame {Q : Type} (queue_fn : queue_fn_t Q) (ops : List pktio_if_ops_t)
    (t : pktio_table_t) (q : Q) (queue : odp_pktin_queue_t) (num : Nat)
    (r : Int × List odp_packet_hdr_t × pktio_table_t × Q)
    (h : pktin_recv_buf queue_fn ops t q queue num = some r) :
    r.2.2.1.entries.map priv_cleared = t.entries.map priv_cleared ∧ 0 ≤ r.1 := by
  unfold pktin_recv_buf at h
  cases hr : odp_pktin_recv ops t queue num with
  | none => rw [hr] at h; cases h
  | some r1 =>
    rw [hr] at h
    simp only [Option.some.injEq] at h
    rw [← h]
    exact ⟨odp_pktin_recv_frame ops t queue num r1 hr, Int.ofNat_nonneg _⟩

/-- C15, the divergence. `pktin_recv_buf` excludes the redirected packets from
the returned set, enqueues them and frees the one whose enqueue failed, but the
slot's `in_discards` counter stays 0, while `sched_cb_pktin_poll_one` on the
same input counts the dropped packet; and whatever the input, `pktin_recv_buf`
leaves every field of every slot but the driver-private storage unchanged. -/
theorem pktin_recv_buf_drop_not_counted :
    (∃ t1 t2,
      pktin_recv_buf full_queue_fn [redirect_ops] polled_table () { pktio := 1, index := 0 } 16
        = some (1, [plain_pkt 1], t1, ()) ∧
      t1.trace = [pktio_event.drv_recv 0 0 3, pktio_event.queue_enq 7 2 (-1),
        pktio_event.packet_free 2, pktio_event.queue_enq 8 3 0] ∧
      t1.entries.map (fun e => e.in_discards) = [0] ∧
      sched_cb_pktin_poll_one false 16 full_queue_fn [redirect_ops] polled_table () 0 0
        = some (1, [plain_pkt 1], t2, ()) ∧
      t2.trace = [pktio_event.drv_recv 0 0 3, pktio_event.queue_enq 7 2 (-1),
        pktio_event.packet_free 2, pktio_event.queue_enq 8 3 1] ∧
      t2.entries.map (fun e => e.in_discards) = [1]) ∧
    (∀ (Q : Type) (queue_fn : queue_fn_t Q) (ops : List pktio_if_ops_t) (t : pktio_table_t)
      (q : Q) (queue : odp_pktin_queue_t) (num : Nat)
      (r : Int × List odp_packet_hdr_t × pktio_table_t × Q),
      pktin_recv_buf queue_fn ops t q queue num = some r →
      r.2.2.1.entries.map priv_cleared = t.entries.map priv_cleared) :=
  ⟨⟨_, _, rfl, rfl, rfl, rfl, rfl, rfl⟩,
   fun _ queue_fn ops t q queue num r h =>
     (pktin_recv_buf_frame queue_fn ops t q queue num r h).1⟩

/-- In a STARTED slot the loop of `sched_cb_pktin_poll` returns 0 whenever it
returns. -/
theorem sched_cb_pktin_poll_loop_zero {Q : Type} (QUEUE_MULTI_MAX : Nat)
    (queue_fn : queue_fn_t Q) (ops : List pktio_if_ops_t) (pktio_index : Nat)
    (index : List Nat) :
    ∀ (t : pktio_table_t) (q : Q) (r : Int × pktio_table_t × Q),
      sched_cb_pktin_poll_loop QUEUE_MULTI_MAX queue_fn ops pktio_index index t q = some r →
      r.1 = 0 := by
  induction index with
  | nil =>
    intro t q r h
    simp only [sched_cb_pktin_poll_loop, Option.some.injEq] at h
    rw [← h]
  | cons i rest ih =>
    intro t q r h
    unfold sched_cb_pktin_poll_loop at h
    split at h
    · cases h
    · split at h
      · cases h
      · rename_i num hdr_tbl t1 q1 hrecv
        have hnn := (pktin_recv_buf_frame queue_fn ops t q _ QUEUE_MULTI_MAX _ hrecv).2
        simp only at hnn
        split at h
        · exact ih _ _ _ h
        · rw [if_neg (by omega)] at h
          split at h
          · cases h
          · split at h
            · cases h
            · exact ih _ _ _ h

/-- C16, the divergence. On a STARTED slot whose driver's `recv` reports an
error (`-1`, as the log shows) `sched_cb_pktin_poll` returns 0; and whatever
the drivers do, on a STARTED slot it returns 0 whenever it returns. -/
theorem sched_cb_pktin_poll_hides_recv_error :
    (∃ t1, sched_cb_pktin_poll 16 full_queue_fn [failing_recv_ops] polled_table () 0 [0]
        = some (0, t1, ()) ∧
      t1.trace = [pktio_event.drv_recv 0 0 (-1)]) ∧
    (∀ (Q : Type) (QUEUE_MULTI_MAX : Nat) (queue_fn : queue_fn_t Q)
      (ops : List pktio_if_ops_t) (t : pktio_table_t) (q : Q) (pktio_index : Nat)
      (index : List Nat) (e : pktio_entry_t) (r : Int × pktio_table_t × Q),
      pktio_entry_by_index t pktio_index = some e → e.state = PKTIO_STATE_STARTED →
      sched_cb_pktin_poll QUEUE_MULTI_MAX queue_fn ops t q pktio_index index = some r →
      r.1 = 0) :=
  ⟨⟨_, rfl, rfl⟩,
   fun _ QUEUE_MULTI_MAX queue_fn ops t q pktio_index index e r hslot hstate h => by
     unfold sched_cb_pktin_poll at h
     rw [hslot] at h
     simp only at h
     rw [if_neg (fun hne => hne hstate)] at h
     exact sched_cb_pktin_poll_loop_zero QUEUE_MULTI_MAX queue_fn ops pktio_index index t q r h⟩

/-! ## The dequeue functions of the queued input mode -/

/-- Without redirected packets the loop of `pktin_recv_buf` returns the batch
and touches no queue. -/
theorem pktin_recv_buf_loop_plain {Q : Type} (queue_fn : queue_fn_t Q)
    (l : List odp_packet_hdr_t) (q : Q) (h : ∀ p ∈ l, p.dst_queue_flag = false) :
    pktin_recv_buf_loop queue_fn l q = (l, q, []) := by
  induction l with
  | nil => rfl
  | cons p rest ih =>
    have hp : p.dst_queue_flag = false := h p (List.mem_cons_self _ _)
    unfold pktin_recv_buf_loop
    rw [if_neg (by rw [hp]; decide), ih (fun x hx => h x (List.mem_cons_of_mem _ hx))]

/-- What `pktin_recv_buf` does on a slot whose driver delivers `stream` in
order: it returns the batch of the driver, leaves the queues alone, and the
slot's read position has advanced past the batch. -/
theorem pktin_recv_buf_stream {Q : Type} (queue_fn : queue_fn_t Q)
    (ops : List pktio_if_ops_t) (t : pktio_table_t) (q : Q) (queue : odp_pktin_queue_t)
    (num : Nat) (e : pktio_entry_t) (k : Nat) (d : pktio_if_ops_t) (pos : Nat → Nat)
    (stream : List odp_packet_hdr_t)
    (hslot : get_pktio_entry t queue.pktio = some e)
    (hbound : entry_ops ops e = some (k, d))
    (hdrv : delivers_in_order d queue.index pos stream)
    (hplain : ∀ p ∈ stream, p.dst_queue_flag = false) :
    pktin_recv_buf queue_fn ops t q queue num
      = some (((d.recv e queue.index num).2.1.length : Int), (d.recv e queue.index num).2.1,
          put_pktio_entry t queue.pktio { e with pkt_priv := (d.recv e queue.index num).2.2 }
            [pktio_event.drv_recv k queue.index (d.recv e queue.index num).1], q) := by
  obtain ⟨hb, _, _, hret⟩ := hdrv e num
  have hmem : ∀ p ∈ (d.recv e queue.index num).2.1, p.dst_queue_flag = false := by
    intro p hp
    rw [hb] at hp
    exact hplain p (List.mem_of_mem_drop (List.mem_of_mem_take hp))
  have htake : (d.recv e queue.index num).2.1.take (d.recv e queue.index num).1.toNat
      = (d.recv e queue.index num).2.1 := by
    rcases hret with h | ⟨_, h⟩
    · rw [h, Int.toNat_ofNat, List.take_length]
    · rw [h, List.take_nil]
  unfold pktin_recv_buf odp_pktin_recv
  rw [hslot]
  simp only
  rw [hbound]
  simp only
  rw [htake, pktin_recv_buf_loop_plain queue_fn _ q hmem]
  simp only [List.append_nil]

/-- `pktin_dequeue` on a FIFO backing queue that holds a packet returns its head
and calls no driver: the table is unchanged. -/
theorem pktin_dequeue_backing (M : Nat) (ops : List pktio_if_ops_t)
    (pktin_of : Nat → odp_pktin_queue_t) (t : pktio_table_t)
    (q : Nat → List odp_packet_hdr_t) (q_int : Nat) (p : odp_packet_hdr_t)
    (rest : List odp_packet_hdr_t) (hq : q q_int = p :: rest) :
    pktin_dequeue M (fifo_queue_fn pktin_of) ops t q q_int
      = some (some p, t, Function.update q q_int rest) := by
  unfold pktin_dequeue
  simp only [fifo_queue_fn, hq, List.head?_cons, List.tail_cons]

/-- `pktin_dequeue` on an empty FIFO backing queue pulls one batch from the
driver, returns its head and leaves the remainder, in order, in the queue. -/
theorem pktin_dequeue_pull (M : Nat) (ops : List pktio_if_ops_t)
    (pktin_of : Nat → odp_pktin_queue_t) (t : pktio_table_t)
    (q : Nat → List odp_packet_hdr_t) (q_int : Nat) (e : pktio_entry_t) (k : Nat)
    (d : pktio_if_ops_t) (pos : Nat → Nat) (stream : List odp_packet_hdr_t)
    (hslot : get_pktio_entry t (pktin_of q_int).pktio = some e)
    (hbound : entry_ops ops e = some (k, d))
    (hdrv : delivers_in_order d (pktin_of q_int).index pos stream)
    (hplain : ∀ p ∈ stream, p.dst_queue_flag = false)
    (hq : q q_int = []) :
    ∃ q1, pktin_dequeue M (fifo_queue_fn pktin_of) ops t q q_int
        = some ((d.recv e (pktin_of q_int).index M).2.1.head?,
            put_pktio_entry t (pktin_of q_int).pktio
              { e with pkt_priv := (d.recv e (pktin_of q_int).index M).2.2 }
              [pktio_event.drv_recv k (pktin_of q_int).index
                (d.recv e (pktin_of q_int).index M).1], q1) ∧
      q1 q_int = (d.recv e (pktin_of q_int).index M).2.1.tail := by
  have hrecv := pktin_recv_buf_stream (fifo_queue_fn pktin_of) ops t
    (Function.update q q_int []) (pktin_of q_int) M e k d pos stream hslot hbound hdrv hplain
  unfold pktin_dequeue
  simp only [fifo_queue_fn, hq, List.head?_nil, List.tail_nil] at hrecv ⊢
  rw [hrecv]
  simp only
  generalize (d.recv e (pktin_of q_int).index M).2.1 = b
  cases b with
  | nil =>
    simp only [List.length_nil, Int.ofNat_zero, Nat.cast_zero, le_refl, if_true,
      List.head?_nil, List.tail_nil]
    exact ⟨_, rfl, Function.update_same _ _ _⟩
  | cons x xs =>
    have hpos : ¬ (((x :: xs).length : Nat) : Int) ≤ 0 := by
      simp only [List.length_cons]; omega
    rw [if_neg hpos]
    refine ⟨_, rfl, ?_⟩
    by_cases h1 : (((x :: xs).length : Nat) : Int) > 1
    · rw [if_pos h1]
      simp only [Function.update_same, List.nil_append, List.drop_succ_cons, List.drop_zero,
        List.tail_cons, List.length_cons]
      have : ((((xs.length + 1 : Nat) : Int)) - 1).toNat = xs.length := by omega
      rw [this, List.take_length]
    · rw [if_neg h1]
      simp only [List.length_cons] at h1
      have hxs : xs = [] := List.eq_nil_of_length_eq_zero (by omega)
      subst hxs
      simp only [Function.update_same, List.tail_cons]

/-- `pktin_deq_multi` on a FIFO backing queue that holds `num` packets returns
its first `num` packets and calls no driver: the table is unchanged. -/
theorem pktin_deq_multi_backing (M : Nat) (ops : List pktio_if_ops_t)
    (pktin_of : Nat → odp_pktin_queue_t) (t : pktio_table_t)
    (q : Nat → List odp_packet_hdr_t) (q_int : Nat) (num : Nat)
    (hnum : num ≤ (q q_int).length) :
    pktin_deq_multi M (fifo_queue_fn pktin_of) ops t q q_int num
      = some ((q q_int).take num, t, Function.update q q_int ((q q_int).drop num)) := by
  unfold pktin_deq_multi
  simp only [fifo_queue_fn, List.length_take]
  rw [if_neg (by omega), if_pos (by omega)]

/-- `pktin_deq_multi` on a FIFO backing queue that holds fewer than `num`
packets returns them, pulls one batch from the driver, returns of it what is
still asked for and leaves the remainder, in order, in the queue. -/
theorem pktin_deq_multi_pull (M : Nat) (ops : List pktio_if_ops_t)
    (pktin_of : Nat → odp_pktin_queue_t) (t : pktio_table_t)
    (q : Nat → List odp_packet_hdr_t) (q_int : Nat) (num : Nat) (e : pktio_entry_t) (k : Nat)
    (d : pktio_if_ops_t) (pos : Nat → Nat) (stream : List odp_packet_hdr_t)
    (hslot : get_pktio_entry t (pktin_of q_int).pktio = some e)
    (hbound : entry_ops ops e = some (k, d))
    (hdrv : delivers_in_order d (pktin_of q_int).index pos stream)
    (hplain : ∀ p ∈ stream, p.dst_queue_flag = false)
    (hnum : (q q_int).length < num) :
    ∃ q1, pktin_deq_multi M (fifo_queue_fn pktin_of) ops t q q_int num
        = some (q q_int ++
              (d.recv e (pktin_of q_int).index M).2.1.take (num - (q q_int).length),
            put_pktio_entry t (pktin_of q_int).pktio
              { e with pkt_priv := (d.recv e (pktin_of q_int).index M).2.2 }
              [pktio_event.drv_recv k (pktin_of q_int).index
                (d.recv e (pktin_of q_int).index M).1], q1) ∧
      q1 q_int = (d.recv e (pktin_of q_int).index M).2.1.drop (num - (q q_int).length) := by
  have hrecv := pktin_recv_buf_stream (fifo_queue_fn pktin_of) ops t
    (Function.update q q_int ((q q_int).drop num)) (pktin_of q_int) M e k d pos stream
    hslot hbound hdrv hplain
  have htake : (q q_int).take num = q q_int := List.take_of_length_le (by omega)
  have hdrop : (q q_int).drop num = [] := List.drop_of_length_le (by omega)
  unfold pktin_deq_multi
  simp only [fifo_queue_fn, List.length_take] at hrecv ⊢
  rw [if_neg (by omega), if_neg (by omega), hrecv]
  simp only
  rw [htake, hdrop, Nat.min_eq_right (Nat.le_of_lt hnum)]
  generalize (d.recv e (pktin_of q_int).index M).2.1 = b
  by_cases hb : ((b.length : Nat) : Int) ≤ 0
  · rw [if_pos hb]
    have hnil : b = [] := List.eq_nil_of_length_eq_zero (by omega)
    subst hnil
    simp only [List.take_nil, List.append_nil, List.drop_nil]
    exact ⟨_, rfl, Function.update_same _ _ _⟩
  · rw [if_neg hb]
    simp only [Int.toNat_ofNat, List.take_length]
    have ht : b.take (min b.length (num - (q q_int).length))
        = b.take (num - (q q_int).length) := by
      rcases Nat.le_total b.length (num - (q q_int).length) with h | h
      · rw [Nat.min_eq_left h, List.take_length, List.take_of_length_le h]
      · rw [Nat.min_eq_right h]
    have hd : b.drop (min b.length (num - (q q_int).length))
        = b.drop (num - (q q_int).length) := by
      rcases Nat.le_total b.length (num - (q q_int).length) with h | h
      · rw [Nat.min_eq_left h, List.drop_length, List.drop_of_length_le h]
      · rw [Nat.min_eq_right h]
    rw [ht, hd]
    refine ⟨_, rfl, ?_⟩
    by_cases hr : (b.drop (num - (q q_int).length)).length ≠ 0
    · rw [if_pos hr]
      simp only [Function.update_same, List.nil_append]
    · rw [if_neg hr]
      rw [Function.update_same]
      exact (List.eq_nil_of_length_eq_zero (not_not.mp hr)).symm

/-- A batch of a driver that delivers `stream` in order, followed by what is
left after it, is what was left before it. -/
theorem delivers_in_order_batch (d : pktio_if_ops_t) (index : Nat) (pos : Nat → Nat)
    (stream : List odp_packet_hdr_t) (hdrv : delivers_in_order d index pos stream)
    (e : pktio_entry_t) (num : Nat) :
    (d.recv e index num).2.1 ++ stream.drop (pos (d.recv e index num).2.2)
      = stream.drop (pos e.pkt_priv) := by
  obtain ⟨hb, _, hp, _⟩ := hdrv e num
  rw [hp, ← List.drop_drop]
  nth_rewrite 1 [hb]
  exact List.take_append_drop _ _

/-- One call of `pktin_dequeue` or `pktin_deq_multi` on a FIFO backing queue
returns, keeps the state of the input queue and respects its bound. -/
theorem pktin_deq_step_inv (M : Nat) (ops : List pktio_if_ops_t)
    (pktin_of : Nat → odp_pktin_queue_t) (q_int : Nat) (k : Nat) (d : pktio_if_ops_t)
    (pos : Nat → Nat) (stream : List odp_packet_hdr_t)
    (hdrv : delivers_in_order d (pktin_of q_int).index pos stream)
    (hplain : ∀ p ∈ stream, p.dst_queue_flag = false)
    (returned : List odp_packet_hdr_t) (t : pktio_table_t) (q : Nat → List odp_packet_hdr_t)
    (hinv : fifo_inv ops pktin_of q_int k d pos stream returned t q) (c : pktin_deq_call) :
    ∃ r t1 q1, pktin_deq_step M (fifo_queue_fn pktin_of) ops q_int t q c = some (r, t1, q1) ∧
      fifo_inv ops pktin_of q_int k d pos stream (returned ++ r) t1 q1 ∧
      pktin_deq_bound c r := by
  obtain ⟨e, hslot, hbound, hsum⟩ := hinv
  have hbatch := delivers_in_order_batch d (pktin_of q_int).index pos stream hdrv e M
  have hslot1 : ∀ p evs, get_pktio_entry
      (put_pktio_entry t (pktin_of q_int).pktio { e with pkt_priv := p } evs)
      (pktin_of q_int).pktio = some { e with pkt_priv := p } :=
    fun p evs => get_put_pktio_entry t _ e _ evs hslot
  cases c with
  | dequeue =>
    cases hq : q q_int with
    | nil =>
      obtain ⟨q1, hrun, hq1⟩ := pktin_dequeue_pull M ops pktin_of t q q_int e k d pos stream
        hslot hbound hdrv hplain hq
      have hstep : pktin_deq_step M (fifo_queue_fn pktin_of) ops q_int t q
          pktin_deq_call.dequeue
          = some ((d.recv e (pktin_of q_int).index M).2.1.head?.toList,
              put_pktio_entry t (pktin_of q_int).pktio
                { e with pkt_priv := (d.recv e (pktin_of q_int).index M).2.2 }
                [pktio_event.drv_recv k (pktin_of q_int).index
                  (d.recv e (pktin_of q_int).index M).1], q1) := by
        simp only [pktin_deq_step, hrun]
      refine ⟨_, _, _, hstep, ⟨_, hslot1 _ _, hbound, ?_⟩, ?_⟩
      · rw [hq1]
        simp only
        rw [hq, List.append_nil] at hsum
        rw [List.append_assoc, List.append_assoc, ← List.append_assoc _ _ (List.drop _ _)]
        have hht : (d.recv e (pktin_of q_int).index M).2.1.head?.toList
            ++ (d.recv e (pktin_of q_int).index M).2.1.tail
            = (d.recv e (pktin_of q_int).index M).2.1 := by
          cases (d.recv e (pktin_of q_int).index M).2.1 <;> rfl
        rw [hht, hbatch]
        exact hsum
      · simp only [pktin_deq_bound]
        cases (d.recv e (pktin_of q_int).index M).2.1.head? <;> simp
    | cons p rest =>
      have hstep : pktin_deq_step M (fifo_queue_fn pktin_of) ops q_int t q
          pktin_deq_call.dequeue = some ([p], t, Function.update q q_int rest) := by
        simp only [pktin_deq_step, pktin_dequeue_backing M ops pktin_of t q q_int p rest hq,
          Option.toList]
      refine ⟨_, _, _, hstep, ⟨e, hslot, hbound, ?_⟩, ?_⟩
      · rw [Function.update_same]
        rw [hq] at hsum
        simpa using hsum
      · simp [pktin_deq_bound]
  | deq_multi num =>
    by_cases hnum : num ≤ (q q_int).length
    · have hstep : pktin_deq_step M (fifo_queue_fn pktin_of) ops q_int t q
          (pktin_deq_call.deq_multi num)
          = some ((q q_int).take num, t, Function.update q q_int ((q q_int).drop num)) :=
        pktin_deq_multi_backing M ops pktin_of t q q_int num hnum
      refine ⟨_, _, _, hstep, ⟨e, hslot, hbound, ?_⟩, ?_⟩
      · rw [Function.update_same, List.append_assoc returned, List.take_append_drop]
        exact hsum
      · simp only [pktin_deq_bound, List.length_take]
        omega
    · obtain ⟨q1, hrun, hq1⟩ := pktin_deq_multi_pull M ops pktin_of t q q_int num e k d pos
        stream hslot hbound hdrv hplain (by omega)
      have hstep : pktin_deq_step M (fifo_queue_fn pktin_of) ops q_int t q
          (pktin_deq_call.deq_multi num)
          = some (q q_int ++
                (d.recv e (pktin_of q_int).index M).2.1.take (num - (q q_int).length),
              put_pktio_entry t (pktin_of q_int).pktio
                { e with pkt_priv := (d.recv e (pktin_of q_int).index M).2.2 }
                [pktio_event.drv_recv k (pktin_of q_int).index
                  (d.recv e (pktin_of q_int).index M).1], q1) := hrun
      refine ⟨_, _, _, hstep, ⟨_, hslot1 _ _, hbound, ?_⟩, ?_⟩
      · rw [hq1]
        simp only
        rw [List.append_assoc returned, List.append_assoc (q q_int),
          List.append_assoc returned, List.append_assoc (q q_int), List.append_assoc,
          ← List.append_assoc (List.take _ _), List.take_append_drop, hbatch,
          ← List.append_assoc]
        exact hsum
      · simp only [pktin_deq_bound, List.length_append, List.length_take]
        omega

/-- Any sequence of calls on a FIFO backing queue returns, and what the calls
returned, in order, with the contents of the queue and the packets not yet
delivered, makes up the stream of the driver. -/
theorem pktin_deq_run_inv (M : Nat) (ops : List pktio_if_ops_t)
    (pktin_of : Nat → odp_pktin_queue_t) (q_int : Nat) (k : Nat) (d : pktio_if_ops_t)
    (pos : Nat → Nat) (stream : List odp_packet_hdr_t)
    (hdrv : delivers_in_order d (pktin_of q_int).index pos stream)
    (hplain : ∀ p ∈ stream, p.dst_queue_flag = false) (calls : List pktin_deq_call) :
    ∀ (returned : List odp_packet_hdr_t) (t : pktio_table_t)
      (q : Nat → List odp_packet_hdr_t),
      fifo_inv ops pktin_of q_int k d pos stream returned t q →
      ∃ results t1 q1,
        pktin_deq_run M (fifo_queue_fn pktin_of) ops q_int calls t q = some (results, t1, q1) ∧
        fifo_inv ops pktin_of q_int k d pos stream (returned ++ results.flatten) t1 q1 ∧
        List.Forall₂ pktin_deq_bound calls results := by
  induction calls with
  | nil =>
    intro returned t q hinv
    refine ⟨[], t, q, rfl, ?_, List.Forall₂.nil⟩
    simpa using hinv
  | cons c rest ih =>
    intro returned t q hinv
    obtain ⟨r, t1, q1, hstep, hinv1, hb⟩ := pktin_deq_step_inv M ops pktin_of q_int k d pos
      stream hdrv hplain returned t q hinv c
    obtain ⟨rs, t2, q2, hrun, hinv2, hbs⟩ := ih (returned ++ r) t1 q1 hinv1
    refine ⟨r :: rs, t2, q2, ?_, ?_, List.Forall₂.cons hb hbs⟩
    · simp only [pktin_deq_run, hstep, hrun]
    · rw [List.flatten_cons, ← List.append_assoc]
      exact hinv2

/-- C17. Take an input queue with a FIFO backing queue whose enqueues succeed,
on a slot whose driver delivers the packets of `stream`, none redirected, in
that order, and let `returned` be what earlier calls returned. Then any
sequence of `pktin_dequeue` and `pktin_deq_multi` calls returns, and what has
been returned, concatenated in call order, is a prefix of `stream`;
`pktin_dequeue` returns one packet at most and `pktin_deq_multi` never more
than `num`. A call that the backing queue can satisfy returns the head of the
backing queue and leaves the table, its log of driver calls included, as it
was; otherwise the backing queue's contents come first, one batch is pulled
from the driver (one `recv`), its head is returned and its remainder is left in
the backing queue in order. -/
theorem pktin_deq_fifo_order (M : Nat) (ops : List pktio_if_ops_t)
    (pktin_of : Nat → odp_pktin_queue_t) (t : pktio_table_t)
    (q : Nat → List odp_packet_hdr_t) (q_int : Nat) (e : pktio_entry_t) (k : Nat)
    (d : pktio_if_ops_t) (pos : Nat → Nat) (stream returned : List odp_packet_hdr_t)
    (hslot : get_pktio_entry t (pktin_of q_int).pktio = some e)
    (hbound : entry_ops ops e = some (k, d))
    (hdrv : delivers_in_order d (pktin_of q_int).index pos stream)
    (hplain : ∀ p ∈ stream, p.dst_queue_flag = false)
    (hinv : returned ++ q q_int ++ stream.drop (pos e.pkt_priv) = stream) :
    (∀ calls : List pktin_deq_call, ∃ results t1 q1,
      pktin_deq_run M (fifo_queue_fn pktin_of) ops q_int calls t q = some (results, t1, q1) ∧
      (returned ++ results.flatten) <+: stream ∧
      List.Forall₂ pktin_deq_bound calls results) ∧
    (∀ p rest, q q_int = p :: rest →
      pktin_dequeue M (fifo_queue_fn pktin_of) ops t q q_int
        = some (some p, t, Function.update q q_int rest)) ∧
    (q q_int = [] → ∃ t1 q1,
      pktin_dequeue M (fifo_queue_fn pktin_of) ops t q q_int
        = some ((d.recv e (pktin_of q_int).index M).2.1.head?, t1, q1) ∧
      q1 q_int = (d.recv e (pktin_of q_int).index M).2.1.tail ∧
      t1.trace = t.trace ++ [pktio_event.drv_recv k (pktin_of q_int).index
        (d.recv e (pktin_of q_int).index M).1]) ∧
    (∀ num, num ≤ (q q_int).length →
      pktin_deq_multi M (fifo_queue_fn pktin_of) ops t q q_int num
        = some ((q q_int).take num, t, Function.update q q_int ((q q_int).drop num))) ∧
    (∀ num, (q q_int).length < num → ∃ t1 q1,
      pktin_deq_multi M (fifo_queue_fn pktin_of) ops t q q_int num
        = some (q q_int ++
            (d.recv e (pktin_of q_int).index M).2.1.take (num - (q q_int).length), t1, q1) ∧
      q1 q_int = (d.recv e (pktin_of q_int).index M).2.1.drop (num - (q q_int).length) ∧
      t1.trace = t.trace ++ [pktio_event.drv_recv k (pktin_of q_int).index
        (d.recv e (pktin_of q_int).index M).1]) := by
  refine ⟨?_, ?_, ?_, ?_, ?_⟩
  · intro calls
    obtain ⟨results, t1, q1, hrun, ⟨e1, _, _, hsum⟩, hb⟩ :=
      pktin_deq_run_inv M ops pktin_of q_int k d pos stream hdrv hplain calls returned t q
        ⟨e, hslot, hbound, hinv⟩
    refine ⟨results, t1, q1, hrun, ⟨q1 q_int ++ stream.drop (pos e1.pkt_priv), ?_⟩, hb⟩
    rw [← List.append_assoc]
    exact hsum
  · intro p rest hq
    exact pktin_dequeue_backing M ops pktin_of t q q_int p rest hq
  · intro hq
    obtain ⟨q1, hrun, hq1⟩ := pktin_dequeue_pull M ops pktin_of t q q_int e k d pos stream
      hslot hbound hdrv hplain hq
    exact ⟨_, q1, hrun, hq1, rfl⟩
  · intro num hnum
    exact pktin_deq_multi_backing M ops pktin_of t q q_int num hnum
  · intro num hnum
    obtain ⟨q1, hrun, hq1⟩ := pktin_deq_multi_pull M ops pktin_of t q q_int num e k d pos
      stream hslot hbound hdrv hplain hnum
    exact ⟨_, q1, hrun, hq1, rfl⟩

/-- The driver `stream_ops` delivers its stream in order. -/
theorem stream_ops_delivers (stream : List odp_packet_hdr_t) (index : Nat) :
    delivers_in_order (stream_ops stream) index (fun n => n) stream := by
  intro entry num
  show (stream.drop entry.pkt_priv).take (min 3 num)
      = (stream.drop entry.pkt_priv).take
          ((stream.drop entry.pkt_priv).take (min 3 num)).length ∧
    ((stream.drop entry.pkt_priv).take (min 3 num)).length ≤ num ∧
    entry.pkt_priv + ((stream.drop entry.pkt_priv).take (min 3 num)).length
      = entry.pkt_priv + ((stream.drop entry.pkt_priv).take (min 3 num)).length ∧
    ((((stream.drop entry.pkt_priv).take (min 3 num)).length : Int)
        = (((stream.drop entry.pkt_priv).take (min 3 num)).length : Int) ∨
      ((((stream.drop entry.pkt_priv).take (min 3 num)).length : Int) < 0 ∧
        (stream.drop entry.pkt_priv).take (min 3 num) = []))
  refine ⟨?_, ?_, rfl, Or.inl rfl⟩
  · rw [List.length_take]
    rcases Nat.le_total (min 3 num) (stream.drop entry.pkt_priv).length with h | h
    · rw [Nat.min_eq_left h]
    · rw [Nat.min_eq_right h, List.take_length, List.take_of_length_le h]
  · rw [List.length_take]
    omega

/-- Witness of C17: four calls on an empty backing queue of a device whose
driver delivers seven packets, three at a time. -/
theorem pktin_deq_fifo_order_witness :
    ∃ results t1 q1,
      pktin_deq_run 16 (fifo_queue_fn sample_pktin_of) [stream_ops sample_stream] 100
          [pktin_deq_call.dequeue, pktin_deq_call.deq_multi 4, pktin_deq_call.dequeue,
            pktin_deq_call.deq_multi 2]
          queued_table fifo_empty
        = some (results, t1, q1) ∧
      ([] ++ results.flatten) <+: sample_stream ∧
      List.Forall₂ pktin_deq_bound
        [pktin_deq_call.dequeue, pktin_deq_call.deq_multi 4, pktin_deq_call.dequeue,
          pktin_deq_call.deq_multi 2] results :=
  (pktin_deq_fifo_order 16 [stream_ops sample_stream] sample_pktin_of queued_table fifo_empty
    100 queued_entry 0 (stream_ops sample_stream) (fun n => n) sample_stream [] rfl rfl
    (stream_ops_delivers sample_stream 0) (by decide) rfl).1
    [pktin_deq_call.dequeue, pktin_deq_call.deq_multi 4, pktin_deq_call.dequeue,
      pktin_deq_call.deq_multi 2]

/-! ## Timed receive -/

/-- C18. On a valid input queue of a slot bound to a driver, with or without a
`recv_tmo` operation, `odp_pktin_recv_tmo` with `wait = 0` returns the result
of one call of the driver's `recv`, and that call is all it logs: one
`drv_recv`, no sleep, no clock reading and no `recv_tmo`. In particular it
returns 0 when `recv` has no packets. One round of the loop suffices. -/
theorem odp_pktin_recv_tmo_no_wait (clock : Nat → Nat) (fuel : Nat)
    (ops : List pktio_if_ops_t) (t : pktio_table_t) (queue : odp_pktin_queue_t) (num : Nat)
    (e : pktio_entry_t) (k : Nat) (d : pktio_if_ops_t)
    (hslot : get_pktio_entry t queue.pktio = some e)
    (hbound : entry_ops ops e = some (k, d)) :
    odp_pktin_recv_tmo clock (fuel + 1) ops t queue num 0
      = some ((d.recv e queue.index num).1, (d.recv e queue.index num).2.1,
          put_pktio_entry t queue.pktio { e with pkt_priv := (d.recv e queue.index num).2.2 }
            [pktio_event.drv_recv k queue.index (d.recv e queue.index num).1]) := by
  have hloop : odp_pktin_recv_tmo_loop clock ops queue num (fuel + 1)
      { wait := 0, started := false, t1 := 0, sleep_round := 0, reads := 0 } t
      = some ((d.recv e queue.index num).1, (d.recv e queue.index num).2.1,
          put_pktio_entry t queue.pktio { e with pkt_priv := (d.recv e queue.index num).2.2 }
            [pktio_event.drv_recv k queue.index (d.recv e queue.index num).1]) := by
    unfold odp_pktin_recv_tmo_loop
    rw [hslot]
    simp only
    rw [hbound]
    simp only
    by_cases h0 : (d.recv e queue.index num).1 ≠ 0
    · rw [if_pos h0]
    · rw [if_neg h0, if_pos trivial, ← not_not.mp h0]
  unfold odp_pktin_recv_tmo
  rw [hslot]
  simp only
  rw [hbound]
  simp only
  cases d.recv_tmo with
  | none => exact hloop
  | some f =>
    simp only
    rw [if_neg (fun h => h rfl)]
    exact hloop

/-- Witness of C18: a driver with a `recv_tmo`, whose `recv` has no packets. -/
theorem odp_pktin_recv_tmo_no_wait_witness :
    odp_pktin_recv_tmo (fun n => n) (0 + 1) [tmo_ops] polled_table { pktio := 1, index := 0 }
        16 0
      = some ((tmo_ops.recv polled_entry 0 16).1, (tmo_ops.recv polled_entry 0 16).2.1,
          put_pktio_entry polled_table 1
            { polled_entry with pkt_priv := (tmo_ops.recv polled_entry 0 16).2.2 }
            [pktio_event.drv_recv 0 0 (tmo_ops.recv polled_entry 0 16).1]) :=
  odp_pktin_recv_tmo_no_wait (fun n => n) 0 [tmo_ops] polled_table { pktio := 1, index := 0 }
    16 polled_entry 0 tmo_ops rfl rfl

/-- C19, as stated, fails at `nsec = 0`: the function returns 0, not
`0 / 1000 + 1 = 1`. -/
theorem odp_pktin_wait_time_zero_counterexample :
    odp_pktin_wait_time 0 = 0 ∧ 0 / 1000 + 1 = 1 := by
  decide

/-- C19, amended. For every nonzero `nsec`, `odp_pktin_wait_time nsec` is
`nsec / 1000 + 1` (integer division); for `nsec = 0` it is 0. -/
theorem odp_pktin_wait_time_spec (nsec : Nat) (h : nsec ≠ 0) :
    odp_pktin_wait_time nsec = nsec / 1000 + 1 ∧ odp_pktin_wait_time 0 = 0 := by
  unfold odp_pktin_wait_time
  rw [if_neg h]
  exact ⟨rfl, rfl⟩

/-- Witness of the amended C19: 1500 ns are two microseconds. -/
theorem odp_pktin_wait_time_spec_witness :
    odp_pktin_wait_time 1500 = 1500 / 1000 + 1 ∧ odp_pktin_wait_time 0 = 0 :=
  odp_pktin_wait_time_spec 1500 (by decide)

/-- The deadline part of a round calls no driver, and when the deadline has not
passed it has decremented `wait` by `SLEEP_USEC`, stopping at zero. -/
theorem recv_tmo_deadline_spec (clock : Nat → Nat) (s : recv_tmo_state) :
    recv_calls (recv_tmo_deadline clock s).2.2 = 0 ∧
    ((recv_tmo_deadline clock s).1 = false →
      (recv_tmo_deadline clock s).2.1.wait = s.wait - 1) := by
  unfold recv_tmo_deadline
  simp only [SLEEP_USEC]
  split_ifs <;> simp at * <;> simp [recv_calls] <;> omega

/-- With a driver whose `recv` keeps returning 0 and a finite `wait`, the loop of
`odp_pktin_recv_tmo` returns 0 within `wait + 1` rounds, whatever the clock
reads. -/
theorem odp_pktin_recv_tmo_loop_finite (clock : Nat → Nat) (ops : List pktio_if_ops_t)
    (queue : odp_pktin_queue_t) (num : Nat) (k : Nat) (d : pktio_if_ops_t)
    (hzero : ∀ entry index n, (d.recv entry index n).1 = 0) (fuel : Nat) :
    ∀ (s : recv_tmo_state) (t : pktio_table_t) (e : pktio_entry_t),
      get_pktio_entry t queue.pktio = some e → entry_ops ops e = some (k, d) →
      s.wait < ODP_PKTIN_WAIT → s.wait + 1 ≤ fuel →
      ∃ pkts t1 evs, odp_pktin_recv_tmo_loop clock ops queue num fuel s t = some (0, pkts, t1) ∧
        t1.trace = t.trace ++ evs ∧ recv_calls evs ≤ s.wait + 1 := by
  induction fuel with
  | zero => intro s t e _ _ _ hf; omega
  | succ fuel ih =>
    intro s t e hslot hbound hw hf
    unfold odp_pktin_recv_tmo_loop
    rw [hslot]
    simp only
    rw [hbound]
    simp only
    rw [if_neg (fun h => h (hzero e queue.index num))]
    by_cases h0 : s.wait = 0
    · rw [if_pos h0]
      refine ⟨_, _, [pktio_event.drv_recv k queue.index (d.recv e queue.index num).1],
        rfl, rfl, ?_⟩
      simp [recv_calls]
    · rw [if_neg h0, if_pos (Nat.ne_of_lt hw)]
      obtain ⟨hdl0, hdlw⟩ := recv_tmo_deadline_spec clock s
      by_cases hd : (recv_tmo_deadline clock s).1 = true
      · rw [if_pos hd]
        refine ⟨_, _, pktio_event.drv_recv k queue.index (d.recv e queue.index num).1
          :: (recv_tmo_deadline clock s).2.2, rfl, rfl, ?_⟩
        have : recv_calls (pktio_event.drv_recv k queue.index (d.recv e queue.index num).1
            :: (recv_tmo_deadline clock s).2.2)
            = recv_calls (recv_tmo_deadline clock s).2.2 + 1 := by
          simp [recv_calls]
        omega
      · rw [if_neg hd]
        have hdf : (recv_tmo_deadline clock s).1 = false := by
          cases h : (recv_tmo_deadline clock s).1
          · rfl
          · exact absurd h hd
        have hw1 := hdlw hdf
        obtain ⟨pkts, t1, evs, hrun, htr, hcnt⟩ := ih (recv_tmo_deadline clock s).2.1
          (put_pktio_entry t queue.pktio { e with pkt_priv := (d.recv e queue.index num).2.2 }
            (pktio_event.drv_recv k queue.index (d.recv e queue.index num).1
              :: (recv_tmo_deadline clock s).2.2
              ++ [pktio_event.nanosleep (1000 * SLEEP_USEC)]))
          { e with pkt_priv := (d.recv e queue.index num).2.2 }
          (get_put_pktio_entry t _ e _ _ hslot) hbound (by omega) (by omega)
        refine ⟨pkts, t1, (pktio_event.drv_recv k queue.index (d.recv e queue.index num).1
              :: (recv_tmo_deadline clock s).2.2
              ++ [pktio_event.nanosleep (1000 * SLEEP_USEC)]) ++ evs, hrun, ?_, ?_⟩
        · rw [htr]
          simp only [put_pktio_entry, List.append_assoc]
        · have : recv_calls ((pktio_event.drv_recv k queue.index (d.recv e queue.index num).1
              :: (recv_tmo_deadline clock s).2.2
              ++ [pktio_event.nanosleep (1000 * SLEEP_USEC)]) ++ evs)
              = recv_calls (recv_tmo_deadline clock s).2.2 + 1 + recv_calls evs := by
            simp only [recv_calls, List.countP_append, List.countP_cons, List.countP_nil]
            simp
          omega

/-- With `wait = ODP_PKTIN_WAIT` the loop of `odp_pktin_recv_tmo` returns only a
nonzero result of the driver's `recv`, which is the last call it logs. -/
theorem odp_pktin_recv_tmo_loop_wait (clock : Nat → Nat) (ops : List pktio_if_ops_t)
    (queue : odp_pktin_queue_t) (num : Nat) (fuel : Nat) :
    ∀ (s : recv_tmo_state) (t : pktio_table_t)
      (r : Int × List odp_packet_hdr_t × pktio_table_t),
      s.wait = ODP_PKTIN_WAIT →
      odp_pktin_recv_tmo_loop clock ops queue num fuel s t = some r →
      r.1 ≠ 0 ∧ ∃ k evs, r.2.2.trace
        = t.trace ++ evs ++ [pktio_event.drv_recv k queue.index r.1] := by
  induction fuel with
  | zero =>
    intro s t r _ h
    simp only [odp_pktin_recv_tmo_loop] at h
    cases h
  | succ fuel ih =>
    intro s t r hw h
    unfold odp_pktin_recv_tmo_loop at h
    cases hg : get_pktio_entry t queue.pktio with
    | none => rw [hg] at h; cases h
    | some e =>
      rw [hg] at h
      simp only at h
      cases ho : entry_ops ops e with
      | none => rw [ho] at h; cases h
      | some kd =>
        obtain ⟨k, d⟩ := kd
        rw [ho] at h
        simp only at h
        by_cases h0 : (d.recv e queue.index num).1 ≠ 0
        · rw [if_pos h0] at h
          simp only [Option.some.injEq] at h
          rw [← h]
          exact ⟨h0, k, [], by simp [put_pktio_entry]⟩
        · rw [if_neg h0] at h
          have hne : s.wait ≠ 0 := by rw [hw]; decide
          rw [if_neg hne, if_neg (fun hh => hh hw)] at h
          obtain ⟨hr, k1, evs, htr⟩ := ih s _ r hw h
          refine ⟨hr, k1, [pktio_event.drv_recv k queue.index (d.recv e queue.index num).1,
            pktio_event.nanosleep (1000 * SLEEP_USEC)] ++ evs, ?_⟩
          rw [htr]
          simp only [put_pktio_entry, List.append_assoc]

/-- C29. On a slot bound to a driver without `recv_tmo`: if the driver's `recv`
keeps returning 0 then for every finite `wait = w` (below `ODP_PKTIN_WAIT`) and
every clock, `odp_pktin_recv_tmo` returns 0 having called `recv` at most
`w + 1` times (`w + 1` rounds of the loop suffice); and with
`wait = ODP_PKTIN_WAIT`, whatever the driver's `recv` does, every value it
returns is the nonzero result of the last `recv` call. -/
theorem odp_pktin_recv_tmo_terminates (clock : Nat → Nat) (fuel : Nat)
    (ops : List pktio_if_ops_t) (t : pktio_table_t) (queue : odp_pktin_queue_t) (num : Nat)
    (e : pktio_entry_t) (k : Nat) (d : pktio_if_ops_t)
    (hslot : get_pktio_entry t queue.pktio = some e)
    (hbound : entry_ops ops e = some (k, d))
    (hno : d.recv_tmo = none) :
    (∀ w, w < ODP_PKTIN_WAIT → (∀ entry index n, (d.recv entry index n).1 = 0) →
      w + 1 ≤ fuel →
      ∃ pkts t1 evs, odp_pktin_recv_tmo clock fuel ops t queue num w = some (0, pkts, t1) ∧
        t1.trace = t.trace ++ evs ∧ recv_calls evs ≤ w + 1) ∧
    (∀ r, odp_pktin_recv_tmo clock fuel ops t queue num ODP_PKTIN_WAIT = some r →
      r.1 ≠ 0 ∧ ∃ k1 evs, r.2.2.trace
        = t.trace ++ evs ++ [pktio_event.drv_recv k1 queue.index r.1]) := by
  have hrun : ∀ w, odp_pktin_recv_tmo clock fuel ops t queue num w
      = odp_pktin_recv_tmo_loop clock ops queue num fuel
          { wait := w, started := false, t1 := 0, sleep_round := 0, reads := 0 } t := by
    intro w
    unfold odp_pktin_recv_tmo
    rw [hslot]
    simp only
    rw [hbound]
    simp only
    rw [hno]
  constructor
  · intro w hw hzero hf
    rw [hrun]
    exact odp_pktin_recv_tmo_loop_finite clock ops queue num k d hzero fuel _ t e hslot hbound
      hw hf
  · intro r h
    rw [hrun] at h
    exact odp_pktin_recv_tmo_loop_wait clock ops queue num fuel _ t r rfl h

/-- Witness of C29: `wait = 3` on a device without packets returns 0 after at
most four `recv` calls. -/
theorem odp_pktin_recv_tmo_terminates_witness :
    ∃ pkts t1 evs,
      odp_pktin_recv_tmo (fun n => n) 4 [loop_ops] polled_table { pktio := 1, index := 0 } 16 3
        = some (0, pkts, t1) ∧
      t1.trace = polled_table.trace ++ evs ∧ recv_calls evs ≤ 3 + 1 :=
  (odp_pktin_recv_tmo_terminates (fun n => n) 4 [loop_ops] polled_table
    { pktio := 1, index := 0 } 16 polled_entry 0 loop_ops rfl rfl rfl).1 3 (by decide)
    (fun _ _ _ => rfl) (by decide)

/-! ## The netmap ring mapping -/

/-- The loop of `map_netmap_rings`, started at queue `i` with the next ring to
map at `ring_first i`, gives every queue from `i` on its range and leaves the
queues before `i` as they were. -/
theorem map_netmap_rings_loop_spec (num_queues num_rings : Nat) (hq : 0 < num_queues)
    (hr : num_rings < 2 ^ 32) (hqr : num_queues ≤ num_rings) (n : Nat) :
    ∀ (i : Nat) (rings : List netmap_ring_t), i + n = num_queues →
      num_queues ≤ rings.length →
      (∀ j, i ≤ j → j < num_queues →
        (map_netmap_rings_loop (num_rings / num_queues) (num_rings % num_queues) n i
            (ring_first num_queues num_rings i) rings)[j]?
          = some { first := ring_first num_queues num_rings j,
                   cur := ring_first num_queues num_rings j,
                   last := ring_first num_queues num_rings (j + 1) - 1,
                   num := num_rings / num_queues
                     + (if j < num_rings % num_queues then 1 else 0) }) ∧
      (∀ j, j < i →
        (map_netmap_rings_loop (num_rings / num_queues) (num_rings % num_queues) n i
            (ring_first num_queues num_rings i) rings)[j]? = rings[j]?) ∧
      (map_netmap_rings_loop (num_rings / num_queues) (num_rings % num_queues) n i
            (ring_first num_queues num_rings i) rings).length = rings.length := by
  have hdiv : 1 ≤ num_rings / num_queues := (Nat.one_le_div_iff hq).mpr hqr
  have hsum : num_queues * (num_rings / num_queues) + num_rings % num_queues = num_rings :=
    Nat.div_add_mod num_rings num_queues
  have hmod : num_rings % num_queues < num_queues := Nat.mod_lt _ hq
  induction n with
  | zero =>
    intro i rings hi _
    refine ⟨fun j h1 h2 => by omega, fun j _ => rfl, rfl⟩
  | succ n ih =>
    intro i rings hi hlen
    have hiq : i < num_queues := by omega
    -- the bound on the ranges
    have hmono : ∀ j, j ≤ num_queues →
        ring_first num_queues num_rings j ≤ num_rings := by
      intro j hj
      unfold ring_first
      have h1 : j * (num_rings / num_queues) ≤ num_queues * (num_rings / num_queues) :=
        Nat.mul_le_mul_right _ hj
      have h2 : min j (num_rings % num_queues) ≤ num_rings % num_queues := Nat.min_le_right _ _
      omega
    have hnext : ring_first num_queues num_rings (i + 1)
        = ring_first num_queues num_rings i + (num_rings / num_queues
            + (if i < num_rings % num_queues then 1 else 0)) := by
      unfold ring_first
      rw [Nat.add_mul, Nat.one_mul]
      by_cases hc : i < num_rings % num_queues
      · rw [if_pos hc, Nat.min_eq_left (by omega), Nat.min_eq_left (by omega)]
        omega
      · rw [if_neg hc, Nat.min_eq_right (by omega), Nat.min_eq_right (by omega)]
        omega
    have hle := hmono (i + 1) (by omega)
    have hmapped : (if i < num_rings % num_queues then u32 (num_rings / num_queues + 1)
        else num_rings / num_queues)
        = num_rings / num_queues + (if i < num_rings % num_queues then 1 else 0) := by
      by_cases hc : i < num_rings % num_queues
      · rw [if_pos hc, if_pos hc]
        rw [if_pos hc] at hnext
        exact Nat.mod_eq_of_lt (by omega)
      · rw [if_neg hc, if_neg hc]
        rfl
    have hlast : u32 (u32 (ring_first num_queues num_rings i
          + (num_rings / num_queues + (if i < num_rings % num_queues then 1 else 0)))
          + (2 ^ 32 - 1))
        = ring_first num_queues num_rings (i + 1) - 1 := by
      rw [← hnext]
      have hpos : 1 ≤ ring_first num_queues num_rings (i + 1) := by
        rw [hnext]
        omega
      unfold u32
      rw [Nat.mod_eq_of_lt (by omega : ring_first num_queues num_rings (i + 1) < 2 ^ 32)]
      omega
    have hdesc : u32 (ring_first num_queues num_rings (i + 1) - 1 + 1)
        = ring_first num_queues num_rings (i + 1) := by
      unfold u32
      have hpos : 1 ≤ ring_first num_queues num_rings (i + 1) := by
        rw [hnext]
        omega
      rw [Nat.sub_add_cancel hpos]
      exact Nat.mod_eq_of_lt (by omega)
    unfold map_netmap_rings_loop
    simp only
    rw [hmapped, hlast, hdesc]
    obtain ⟨h1, h2, h3⟩ := ih (i + 1)
      (rings.set i { first := ring_first num_queues num_rings i,
                     cur := ring_first num_queues num_rings i,
                     last := ring_first num_queues num_rings (i + 1) - 1,
                     num := num_rings / num_queues
                       + (if i < num_rings % num_queues then 1 else 0) })
      (by omega) (by rw [List.length_set]; exact hlen)
    refine ⟨?_, ?_, ?_⟩
    · intro j hj1 hj2
      by_cases hji : j = i
      · subst hji
        rw [h2 j (by omega)]
        exact List.getElem?_set_self (by omega)
      · exact h1 j (by omega) hj2
    · intro j hj
      rw [h2 j (by omega)]
      exact List.getElem?_set_ne (by omega)
    · rw [h3, List.length_set]

/-- C30. For `num_queues >= 1` and `num_rings >= num_queues` (an `unsigned`
number), on an array of at least `num_queues` descriptor rings
`map_netmap_rings` gives every queue `i` a ring range with `cur = first`,
`num = last - first + 1` rings, where `num` is `num_rings / num_queues`, plus
one for the first `num_rings % num_queues` queues; the first range starts at
ring 0, each next range starts right after the one before, and the last range
ends at ring `num_rings - 1`. -/
theorem map_netmap_rings_spec (rings : List netmap_ring_t) (num_queues num_rings : Nat)
    (hq : 1 ≤ num_queues) (hqr : num_queues ≤ num_rings) (hr : num_rings < 2 ^ 32)
    (hlen : num_queues ≤ rings.length) :
    ∃ f : Nat → Nat, f 0 = 0 ∧ f num_queues = num_rings ∧
      ∀ i, i < num_queues → ∃ ring,
        (map_netmap_rings rings num_queues num_rings)[i]? = some ring ∧
        ring.first = f i ∧ ring.cur = ring.first ∧ ring.last + 1 = f (i + 1) ∧
        ring.first ≤ ring.last ∧ ring.num = ring.last - ring.first + 1 ∧
        ring.num = num_rings / num_queues
          + (if i < num_rings % num_queues then 1 else 0) := by
  have hdiv : 1 ≤ num_rings / num_queues := (Nat.one_le_div_iff hq).mpr hqr
  have hmod : num_rings % num_queues < num_queues := Nat.mod_lt _ hq
  have hfirst0 : ring_first num_queues num_rings 0 = 0 := by simp [ring_first]
  refine ⟨ring_first num_queues num_rings, hfirst0, ?_, ?_⟩
  · unfold ring_first
    rw [Nat.min_eq_right (Nat.le_of_lt hmod)]
    exact Nat.div_add_mod num_rings num_queues
  · intro i hi
    obtain ⟨h1, _, _⟩ := map_netmap_rings_loop_spec num_queues num_rings hq hr hqr num_queues
      0 rings (by omega) hlen
    have hget := h1 i (Nat.zero_le _) hi
    rw [hfirst0] at hget
    have hnext : ring_first num_queues num_rings (i + 1)
        = ring_first num_queues num_rings i + (num_rings / num_queues
            + (if i < num_rings % num_queues then 1 else 0)) := by
      unfold ring_first
      rw [Nat.add_mul, Nat.one_mul]
      by_cases hc : i < num_rings % num_queues
      · rw [if_pos hc, Nat.min_eq_left (by omega), Nat.min_eq_left (by omega)]
        omega
      · rw [if_neg hc, Nat.min_eq_right (by omega), Nat.min_eq_right (by omega)]
        omega
    refine ⟨_, hget, rfl, rfl, ?_, ?_, ?_, rfl⟩
    · simp only
      omega
    · simp only
      omega
    · simp only
      omega

/-- Witness of C30: seven rings on three queues are dealt 3, 2, 2. -/
theorem map_netmap_rings_spec_witness :
    ∃ f : Nat → Nat, f 0 = 0 ∧ f 3 = 7 ∧
      ∀ i, i < 3 → ∃ ring,
        (map_netmap_rings (blank_rings 4) 3 7)[i]? = some ring ∧
        ring.first = f i ∧ ring.cur = ring.first ∧ ring.last + 1 = f (i + 1) ∧
        ring.first ≤ ring.last ∧ ring.num = ring.last - ring.first + 1 ∧
        ring.num = 7 / 3 + (if i < 7 % 3 then 1 else 0) :=
  map_netmap_rings_spec (blank_rings 4) 3 7 (by decide) (by decide) (by decide) (by decide)

/-! ## Pool creation: validation and sizes -/

/-- Subtracting one from a nonzero 32-bit value does not wrap. -/
theorem u32_pred (a : Nat) (h0 : 0 < a) (h32 : a < 2 ^ 32) :
    u32 (a + (2 ^ 32 - 1)) = a - 1 := by
  unfold u32
  omega

/-- A nonzero 32-bit value that `ROUNDDOWN_POWER2(x, x)` leaves unchanged is a
power of two. -/
theorem rounddown_power2_fixed (a : Nat) (h0 : 0 < a) (h32 : a < 2 ^ 32)
    (h : a = ROUNDDOWN_POWER2 a a) : ∃ k, a = 2 ^ k := by
  obtain ⟨k, m, hodd, ha⟩ := Nat.exists_eq_two_pow_mul_odd (Nat.pos_iff_ne_zero.mp h0)
  obtain ⟨j, hj⟩ := hodd
  by_cases hj0 : j = 0
  · refine ⟨k, ?_⟩
    rw [ha, hj, hj0]
    simp
  · exfalso
    obtain ⟨i, hi⟩ := Nat.ne_zero_implies_bit_true hj0
    have hpk : 0 < 2 ^ k := Nat.two_pow_pos k
    have ha1 : a = 2 ^ (k + 1) * j + 2 ^ k := by
      rw [ha, hj, Nat.pow_succ]
      ring
    have ha2 : a - 1 = 2 ^ (k + 1) * j + (2 ^ k - 1) := by
      rw [ha1]
      omega
    have hlt1 : 2 ^ k < 2 ^ (k + 1) := Nat.pow_lt_pow_right (by decide) (Nat.lt_succ_self k)
    have hbit : a.testBit (k + 1 + i) = true := by
      rw [ha1, Nat.testBit_mul_pow_two_add j hlt1, if_neg (by omega)]
      rw [show k + 1 + i - (k + 1) = i by omega]
      exact hi
    have hbit1 : (a - 1).testBit (k + 1 + i) = true := by
      rw [ha2, Nat.testBit_mul_pow_two_add j (by omega : 2 ^ k - 1 < 2 ^ (k + 1)),
        if_neg (by omega)]
      rw [show k + 1 + i - (k + 1) = i by omega]
      exact hi
    have hp : k + 1 + i < 32 := by
      by_contra hge
      have h1 : 2 ^ 32 ≤ 2 ^ (k + 1 + i) := Nat.pow_le_pow_right (by decide) (by omega)
      have h2 := Nat.testBit_implies_ge hbit
      omega
    have hrhs : (ROUNDDOWN_POWER2 a a).testBit (k + 1 + i) = false := by
      unfold ROUNDDOWN_POWER2
      rw [u32_pred a h0 h32, Nat.testBit_and, Nat.testBit_xor, Nat.testBit_two_pow_sub_one,
        hbit, hbit1]
      simp [hp]
    rw [← h, hbit] at hrhs
    cases hrhs

/-- C20, as stated, fails: a buffer pool with `buf.align = 0` or
`buf.align = 3`, neither a power of two, is created (handle 1, slot 0
reserved), with the alignment raised to `ODP_CONFIG_BUFFER_ALIGN_MIN`. -/
theorem pool_create_small_align_counterexample :
    (∀ k : Nat, 0 ≠ 2 ^ k) ∧ (∀ k : Nat, 3 ≠ 2 ^ k) ∧
    (∃ tbl1, generic_pool_create sample_pool_config (sample_shm_reserve 4096) 8
        (generic_pool_init_global 2 1) (some ['p']) (some (buffer_params 2 0))
        = some (1, tbl1) ∧
      (pool_entry tbl1 0).map (fun p => (p.reserved, p.align)) = some (true, 16)) ∧
    (∃ tbl1, generic_pool_create sample_pool_config (sample_shm_reserve 4096) 8
        (generic_pool_init_global 2 1) (some ['p']) (some (buffer_params 2 3))
        = some (1, tbl1) ∧
      (pool_entry tbl1 0).map (fun p => (p.reserved, p.align)) = some (true, 16)) := by
  refine ⟨?_, ?_, ⟨_, rfl, rfl⟩, ⟨_, rfl, rfl⟩⟩
  · intro k h
    have := Nat.two_pow_pos k
    omega
  · intro k h
    cases k with
    | zero => simp at h
    | succ k =>
      rw [Nat.pow_succ] at h
      omega

/-- C20, amended. A buffer pool whose `buf.align` exceeds
`ODP_CONFIG_BUFFER_ALIGN_MAX`, or is at least `ODP_CONFIG_BUFFER_ALIGN_MIN`,
not zero and not a power of two, is rejected by `pool_create` and by
`generic_pool_create`: they return `ODP_POOL_INVALID` and leave the pool table
as it was, so no slot is reserved. -/
theorem pool_create_rejects_bad_align (cfg : pool_config_t)
    (odp_shm_reserve : shm_name_t → Nat → Nat → Nat → Option shm_block_t) (fuel : Nat)
    (tbl : pool_table_t) (name : Option (List Char)) (params : odp_pool_param_t)
    (shmflags : Nat)
    (htype : params.type = ODP_POOL_BUFFER) (h32 : params.buf_align < 2 ^ 32)
    (hbad : params.buf_align > cfg.ODP_CONFIG_BUFFER_ALIGN_MAX ∨
      (cfg.ODP_CONFIG_BUFFER_ALIGN_MIN ≤ params.buf_align ∧ 0 < params.buf_align ∧
        ¬ ∃ k, params.buf_align = 2 ^ k)) :
    pool_create cfg odp_shm_reserve fuel tbl name (some params) shmflags
      = some (ODP_POOL_INVALID, tbl) ∧
    generic_pool_create cfg odp_shm_reserve fuel tbl name (some params)
      = some (ODP_POOL_INVALID, tbl) := by
  have halign : pool_create_align cfg params = none := by
    unfold pool_create_align
    rw [if_pos htype]
    rcases hbad with h | ⟨h1, h2, h3⟩
    · by_cases hmin : params.buf_align < cfg.ODP_CONFIG_BUFFER_ALIGN_MIN
      · simp only [if_pos hmin]
        rw [if_pos (Or.inl (by omega))]
      · simp only [if_neg hmin]
        rw [if_pos (Or.inl h)]
    · simp only [if_neg (Nat.not_lt.mpr h1)]
      rw [if_pos (Or.inr (fun heq => h3 (rounddown_power2_fixed _ h2 h32 heq)))]
  have hcreate : ∀ flags, pool_create cfg odp_shm_reserve fuel tbl name (some params) flags
      = some (ODP_POOL_INVALID, tbl) := by
    intro flags
    simp only [pool_create, pool_create_sizes, halign]
  refine ⟨hcreate shmflags, ?_⟩
  unfold generic_pool_create
  cases hc : check_params cfg (some params) with
  | none => simp [check_params, htype] at hc; split at hc <;> (try split at hc) <;> cases hc
  | some rc =>
    simp only
    by_cases hrc : rc ≠ 0
    · rw [if_pos hrc]
    · rw [if_neg hrc]
      exact hcreate _

/-- Witness of the amended C20: alignment 48 (not a power of two) and alignment
8192 (above the maximum of 4096). -/
theorem pool_create_rejects_bad_align_witness :
    (pool_create sample_pool_config (sample_shm_reserve 4096) 8 (generic_pool_init_global 2 1)
        (some ['p']) (some (buffer_params 2 48)) 0
      = some (ODP_POOL_INVALID, generic_pool_init_global 2 1) ∧
     generic_pool_create sample_pool_config (sample_shm_reserve 4096) 8
        (generic_pool_init_global 2 1) (some ['p']) (some (buffer_params 2 48))
      = some (ODP_POOL_INVALID, generic_pool_init_global 2 1)) ∧
    (pool_create sample_pool_config (sample_shm_reserve 4096) 8 (generic_pool_init_global 2 1)
        (some ['p']) (some (buffer_params 2 8192)) 0
      = some (ODP_POOL_INVALID, generic_pool_init_global 2 1) ∧
     generic_pool_create sample_pool_config (sample_shm_reserve 4096) 8
        (generic_pool_init_global 2 1) (some ['p']) (some (buffer_params 2 8192))
      = some (ODP_POOL_INVALID, generic_pool_init_global 2 1)) :=
  ⟨pool_create_rejects_bad_align sample_pool_config (sample_shm_reserve 4096) 8
      (generic_pool_init_global 2 1) (some ['p']) (buffer_params 2 48) 0 rfl (by decide)
      (Or.inr ⟨by decide, by decide, fun ⟨k, hk⟩ => by
        have h5 : k < 6 := by
          by_contra hge
          have := Nat.pow_le_pow_right (by decide : 0 < 2) (Nat.not_lt.mp hge)
          simp only [buffer_params] at hk
          omega
        simp only [buffer_params] at hk
        interval_cases k <;> omega⟩),
   pool_create_rejects_bad_align sample_pool_config (sample_shm_reserve 4096) 8
      (generic_pool_init_global 2 1) (some ['p']) (buffer_params 2 8192) 0 rfl (by decide)
      (Or.inl (by decide))⟩

/-! ## Buffer initialisation -/

/-- The alignment loop, started `g` bytes before the first aligned address,
returns after `g` increments. -/
theorem align_offset_loop_run (data align : Nat) (fuel : Nat) :
    ∀ (offset g : Nat), (data + (offset + g)) % align = 0 → g < fuel →
      offset + g < 2 ^ 32 →
      (∀ o, offset ≤ o → o < offset + g → (data + o) % align ≠ 0) →
      align_offset_loop data align fuel offset = some (offset + g) := by
  induction fuel with
  | zero => intro offset g _ hg; omega
  | succ fuel ih =>
    intro offset g hal hg h32 hmin
    unfold align_offset_loop
    cases g with
    | zero =>
      rw [if_neg (fun h => h hal)]
      rfl
    | succ g =>
      rw [if_pos (hmin offset (Nat.le_refl _) (by omega))]
      have hu : u32 (offset + 1) = offset + 1 := Nat.mod_eq_of_lt (by omega)
      rw [hu, ih (offset + 1) g (by rw [← hal]; congr 2; omega) (by omega) (by omega)
        (fun o h1 h2 => hmin o (by omega) (by omega))]
      congr 1
      omega

/-- Within `align` bytes of any address there is a first aligned address. -/
theorem first_aligned (x align : Nat) (halign : 0 < align) :
    ∃ g, g < align ∧ (x + g) % align = 0 ∧ ∀ g1, g1 < g → (x + g1) % align ≠ 0 := by
  have hex : ∃ g, g < align ∧ (x + g) % align = 0 := by
    by_cases hr : x % align = 0
    · exact ⟨0, halign, hr⟩
    · refine ⟨align - x % align, by omega, ?_⟩
      have hlt : x % align < align := Nat.mod_lt _ halign
      have hdm := Nat.div_add_mod x align
      have hx : x + (align - x % align) = align * (x / align + 1) := by
        rw [Nat.mul_add, Nat.mul_one]
        omega
      rw [hx]
      exact Nat.mul_mod_right _ _
  classical
  refine ⟨Nat.find hex, (Nat.find_spec hex).1, (Nat.find_spec hex).2, ?_⟩
  intro g1 hg1 hal
  exact Nat.find_min hex hg1 ⟨Nat.lt_trans hg1 (Nat.find_spec hex).1, hal⟩

/-- The alignment loop of `init_buffers` returns, and the offset it returns is
the first one at or after `headroom` at which `data + offset` is a multiple of
`align`; it lies below `headroom + align`. -/
theorem align_offset_loop_spec (data align headroom : Nat) (halign : 0 < align)
    (h32 : headroom + align ≤ 2 ^ 32) :
    ∃ offset, align_offset_loop data align (align + 1) headroom = some offset ∧
      headroom ≤ offset ∧ offset < headroom + align ∧ (data + offset) % align = 0 ∧
      ∀ o, headroom ≤ o → (data + o) % align = 0 → offset ≤ o := by
  obtain ⟨g, hg, hal, hmin⟩ := first_aligned (data + headroom) align halign
  have hrun := align_offset_loop_run data align (align + 1) headroom g
    (by rw [← Nat.add_assoc]; exact hal) (by omega) (by omega)
    (fun o h1 h2 => by
      have := hmin (o - headroom) (by omega)
      rwa [show data + headroom + (o - headroom) = data + o by omega] at this)
  refine ⟨headroom + g, hrun, by omega, by omega, by rw [← Nat.add_assoc]; exact hal, ?_⟩
  intro o h1 h2
  by_contra hlt
  have := hmin (o - headroom) (by omega)
  rw [show data + headroom + (o - headroom) = data + o by omega] at this
  exact this h2

/-- Every header that the loop of `init_buffers` initialises is laid out from the
address of its block as `init_buffers` sets it, and in a packet pool on pages
of at least `FIRST_HP_SIZE` its block does not cross a page boundary. -/
theorem init_buffers_loop_hdrs (cfg : pool_config_t) (pool : pool_t) (page_size : Nat)
    (fuel : Nat) :
    ∀ (i skipped_blocks : Nat) (ring : ring_t)
      (r : List odp_buffer_hdr_t × ring_t × Nat),
      init_buffers_loop cfg pool page_size fuel i skipped_blocks ring = some r →
      ∀ hdr ∈ r.1,
        hdr.addr = pool.base_addr + u32 (hdr.index * pool.block_size) ∧
        hdr.data = hdr.addr + (if pool_type pool = ODP_POOL_PACKET then cfg.pkt_data_offset
          else cfg.buf_data_offset) ∧
        (∃ offset, align_offset_loop hdr.data pool.align (pool.align + 1) pool.headroom
            = some offset ∧
          hdr.seg_data = hdr.data + offset ∧
          hdr.buf_end = hdr.data + u32 (offset + pool.seg_len + pool.tailroom)) ∧
        hdr.base_data = hdr.seg_data ∧ hdr.seg_len = pool.seg_len ∧
        hdr.size = u32 (pool.headroom + pool.seg_len + pool.tailroom) ∧
        hdr.type = pool_type pool ∧
        (pool_type pool = ODP_POOL_PACKET → page_size ≥ FIRST_HP_SIZE →
          page_of (hdr.addr + pool.block_size - 1) page_size = page_of hdr.addr page_size) := by
  induction fuel with
  | zero =>
    intro i s ring r h
    simp only [init_buffers_loop] at h
    cases h
  | succ fuel ih =>
    intro i s ring r h
    unfold init_buffers_loop at h
    split at h
    · simp only [Option.some.injEq] at h
      subst h
      intro hdr hm
      cases hm
    · simp only at h
      split at h
      · exact ih _ _ _ r h
      · rename_i hskip
        split at h
        · cases h
        · rename_i offset hoff
          split at h
          · cases h
          · rename_i r1 hrec
            simp only [Option.some.injEq] at h
            subst h
            intro hdr hm
            simp only [List.mem_cons] at hm
            rcases hm with hm | hm
            · subst hm
              refine ⟨rfl, ?_, ⟨offset, ?_, rfl, rfl⟩, rfl, rfl, rfl, rfl, ?_⟩
              · simp only
                split <;> rfl
              · simp only
                exact hoff
              · intro ht hp
                by_contra hne
                exact hskip ⟨ht, hp, hne⟩
            · exact ih _ _ _ r1 hrec hdr hm

/-- The loop of `init_buffers` visits the blocks in increasing order: the
indices of the headers it initialises are strictly increasing 32-bit values not
below the start index, the number of blocks skipped does not decrease, and when
the ring has room for them the indices are appended to the ring in that
order. -/
theorem init_buffers_loop_order (cfg : pool_config_t) (pool : pool_t) (page_size : Nat)
    (fuel : Nat) :
    ∀ (i skipped_blocks : Nat) (ring : ring_t)
      (r : List odp_buffer_hdr_t × ring_t × Nat),
      init_buffers_loop cfg pool page_size fuel i skipped_blocks ring = some r →
      List.Pairwise (fun a b => a < b) (r.1.map (fun h => h.index)) ∧
      (∀ hdr ∈ r.1, i ≤ hdr.index ∧ hdr.index < 2 ^ 32) ∧
      skipped_blocks ≤ r.2.2 ∧
      (ring.data.length + r.1.length ≤ pool.ring_mask + 1 →
        r.2.1.data = ring.data ++ r.1.map (fun h => h.index)) := by
  induction fuel with
  | zero =>
    intro i s ring r h
    simp only [init_buffers_loop] at h
    cases h
  | succ fuel ih =>
    intro i s ring r h
    unfold init_buffers_loop at h
    split at h
    · simp only [Option.some.injEq] at h
      subst h
      refine ⟨List.Pairwise.nil, fun hdr hm => (by cases hm), Nat.le_refl _,
        fun _ => (by simp)⟩
    · rename_i hlt
      have hi : i < 2 ^ 32 := by
        have h1 : i < u32 (pool.num + s) := not_not.mp hlt
        have h2 : u32 (pool.num + s) < 2 ^ 32 := Nat.mod_lt _ (by decide)
        omega
      have hmono : i + 1 ≤ u32 (i + 1) := by
        have h1 : i < u32 (pool.num + s) := not_not.mp hlt
        have h2 : u32 (pool.num + s) < 2 ^ 32 := Nat.mod_lt _ (by decide)
        have h3 : u32 (i + 1) = i + 1 := Nat.mod_eq_of_lt (by omega)
        omega
      simp only at h
      split at h
      · obtain ⟨h1, h2, h3, h4⟩ := ih _ _ _ r h
        exact ⟨h1, fun hdr hm => ⟨(by have := (h2 hdr hm).1; omega), (h2 hdr hm).2⟩,
          (by omega), h4⟩
      · split at h
        · cases h
        · split at h
          · cases h
          · rename_i r1 hrec
            simp only [Option.some.injEq] at h
            subst h
            obtain ⟨h1, h2, h3, h4⟩ := ih _ _ _ r1 hrec
            refine ⟨?_, ?_, h3, ?_⟩
            · simp only [List.map_cons, List.pairwise_cons]
              refine ⟨?_, h1⟩
              intro x hx
              obtain ⟨hdr, hm, rfl⟩ := List.mem_map.mp hx
              have := (h2 hdr hm).1
              omega
            · intro hdr hm
              simp only [List.mem_cons] at hm
              rcases hm with hm | hm
              · subst hm
                exact ⟨Nat.le_refl _, hi⟩
              · exact ⟨(by have := (h2 hdr hm).1; omega), (h2 hdr hm).2⟩
            · intro hroom
              simp only [List.length_cons] at hroom
              have henq : (ring_enq ring pool.ring_mask i).data = ring.data ++ [i] := by
                unfold ring_enq
                rw [if_pos (by omega)]
              rw [h4 (by rw [henq, List.length_append, List.length_singleton]; omega), henq]
              simp

/-- When the loop bound `num + skipped_blocks` of `init_buffers` does not wrap,
the loop initialises `num` buffers in all, and the `k`-th buffer it initialises
gets the `k`-th slot of the user area (the slot offset is a 32-bit product). -/
theorem init_buffers_loop_count (cfg : pool_config_t) (pool : pool_t) (page_size : Nat)
    (fuel : Nat) :
    ∀ (i skipped_blocks : Nat) (ring : ring_t)
      (r : List odp_buffer_hdr_t × ring_t × Nat),
      init_buffers_loop cfg pool page_size fuel i skipped_blocks ring = some r →
      skipped_blocks ≤ i → i ≤ pool.num + skipped_blocks → pool.num + r.2.2 < 2 ^ 32 →
      r.1.length = pool.num + skipped_blocks - i ∧
      ∀ k hdr, r.1[k]? = some hdr →
        hdr.uarea_addr
          = if pool.uarea_size ≠ 0 then
              some (pool.uarea_base_addr + u32 ((i - skipped_blocks + k) * pool.uarea_size))
            else none := by
  induction fuel with
  | zero =>
    intro i s ring r h
    simp only [init_buffers_loop] at h
    cases h
  | succ fuel ih =>
    intro i s ring r h hsi hin hfin
    have hs := (init_buffers_loop_order cfg pool page_size (fuel + 1) i s ring r h).2.2.1
    have hu : u32 (pool.num + s) = pool.num + s := Nat.mod_eq_of_lt (by omega)
    unfold init_buffers_loop at h
    rw [hu] at h
    split at h
    · simp only [Option.some.injEq] at h
      subst h
      refine ⟨(by simp only [List.length_nil]; omega), fun k hdr hk => (by simp at hk)⟩
    · rename_i hlt
      have hlt1 : i < pool.num + s := not_not.mp hlt
      have hi1 : u32 (i + 1) = i + 1 := Nat.mod_eq_of_lt (by omega)
      simp only at h
      rw [hi1] at h
      split at h
      · obtain ⟨h1, h2⟩ := ih _ _ _ r h (by omega) (by omega) hfin
        refine ⟨(by omega), ?_⟩
        intro k hdr hk
        rw [h2 k hdr hk, show i + 1 - (s + 1) = i - s by omega]
      · split at h
        · cases h
        · split at h
          · cases h
          · rename_i r1 hrec
            simp only [Option.some.injEq] at h
            subst h
            obtain ⟨h1, h2⟩ := ih _ _ _ r1 hrec (by omega) (by omega) hfin
            refine ⟨(by simp only [List.length_cons]; omega), ?_⟩
            intro k hdr hk
            cases k with
            | zero =>
              simp only [List.getElem?_cons_zero, Option.some.injEq] at hk
              subst hk
              simp only
              have hsu : u32 s = s := Nat.mod_eq_of_lt (by omega)
              have hsub : u32 (i + (2 ^ 32 - u32 s)) = i - s := by
                rw [hsu]
                unfold u32
                omega
              rw [hsub, Nat.add_zero]
            | succ k =>
              simp only [List.getElem?_cons_succ] at hk
              rw [h2 k hdr hk, show i + 1 - s + k = i - s + (k + 1) by omega]

/-- Without page-crossing test (not a packet pool, or pages below
`FIRST_HP_SIZE`) the loop of `init_buffers` returns within `num + 1` rounds and
skips no block. -/
theorem init_buffers_loop_total (cfg : pool_config_t) (pool : pool_t) (page_size : Nat)
    (hnoskip : pool_type pool ≠ ODP_POOL_PACKET ∨ page_size < FIRST_HP_SIZE)
    (halign : 0 < pool.align) (h32 : pool.headroom + pool.align ≤ 2 ^ 32)
    (hnum : pool.num < 2 ^ 32) (fuel : Nat) :
    ∀ (i : Nat) (ring : ring_t), i ≤ pool.num → pool.num - i + 1 ≤ fuel →
      ∃ r, init_buffers_loop cfg pool page_size fuel i 0 ring = some r ∧ r.2.2 = 0 := by
  induction fuel with
  | zero => intro i ring _ hf; omega
  | succ fuel ih =>
    intro i ring hi hf
    have hu : u32 (pool.num + 0) = pool.num := Nat.mod_eq_of_lt hnum
    unfold init_buffers_loop
    rw [hu]
    by_cases hlt : i < pool.num
    · rw [if_neg (fun h => h hlt)]
      simp only
      have hns : ¬ (pool_type pool = ODP_POOL_PACKET ∧ page_size ≥ FIRST_HP_SIZE ∧
          page_of (pool.base_addr + u32 (i * pool.block_size) + pool.block_size - 1) page_size
            ≠ page_of (pool.base_addr + u32 (i * pool.block_size)) page_size) := by
        rintro ⟨h1, h2, _⟩
        rcases hnoskip with h | h
        · exact h h1
        · omega
      rw [if_neg hns]
      obtain ⟨offset, hoff, _⟩ := align_offset_loop_spec
        (if pool_type pool = ODP_POOL_PACKET
          then pool.base_addr + u32 (i * pool.block_size) + cfg.pkt_data_offset
          else pool.base_addr + u32 (i * pool.block_size) + cfg.buf_data_offset)
        pool.align pool.headroom halign h32
      rw [hoff]
      simp only
      have hi1 : u32 (i + 1) = i + 1 := Nat.mod_eq_of_lt (by omega)
      rw [hi1]
      obtain ⟨r, hr, hr0⟩ := ih (i + 1) (ring_enq ring pool.ring_mask i) (by omega) (by omega)
      rw [hr]
      exact ⟨_, rfl, hr0⟩
    · rw [if_pos hlt]
      exact ⟨_, rfl, rfl⟩

/-- The scan of `reserve_pool` reserves the first slot that is not reserved and
changes no other slot. -/
theorem reserve_pool_scan_some (cfg : pool_config_t)
    (odp_shm_reserve : shm_name_t → Nat → Nat → Nat → Option shm_block_t) (ring_size : Nat)
    (l : List pool_t) :
    ∀ (k i : Nat) (l1 : List pool_t),
      reserve_pool_scan cfg odp_shm_reserve ring_size l k = (some i, l1) →
      ∃ j pb shm, i = k + j ∧ l[j]? = some pb ∧ pb.reserved = false ∧
        (∀ j1, j1 < j → ∀ q, l[j1]? = some q → q.reserved = true) ∧
        l1 = l.set j { pb with reserved := true, ring_shm := some shm,
                               ring := some ring_init } := by
  induction l with
  | nil =>
    intro k i l1 h
    simp only [reserve_pool_scan, Prod.mk.injEq] at h
    cases h.1
  | cons p rest ih =>
    intro k i l1 h
    unfold reserve_pool_scan at h
    by_cases hr : p.reserved = false
    · rw [if_pos hr] at h
      simp only at h
      split at h
      · simp only [Prod.mk.injEq] at h
        cases h.1
      · rename_i shm _
        simp only [Prod.mk.injEq, Option.some.injEq] at h
        refine ⟨0, p, shm, (by omega), List.getElem?_cons_zero, hr,
          fun j1 hj1 => (by omega), ?_⟩
        rw [← h.2]
        rfl
    · rw [if_neg hr] at h
      simp only [Prod.mk.injEq] at h
      obtain ⟨h1, h2⟩ := h
      obtain ⟨j, pb, shm, hj, hget, hres, hprev, hl⟩ := ih (k + 1) i
        (reserve_pool_scan cfg odp_shm_reserve ring_size rest (k + 1)).2
        (by rw [← h1])
      refine ⟨j + 1, pb, shm, (by omega), (by simpa using hget), hres, ?_, ?_⟩
      · intro j1 hj1 q hq
        cases j1 with
        | zero =>
          simp only [List.getElem?_cons_zero, Option.some.injEq] at hq
          subst hq
          cases hp : p.reserved
          · exact absurd hp hr
          · rfl
        | succ j1 =>
          simp only [List.getElem?_cons_succ] at hq
          exact hprev j1 (by omega) q hq
      · rw [← h2, hl]
        rfl

/-- What a successful `pool_create` has done: it computed the sizes, reserved
the first slot that was not reserved, filled it in, got the pool memory, and
ran the loop of `init_buffers` on the slot, whose headers and ring are the
result of that loop; no other slot has changed. -/
theorem pool_create_success (cfg : pool_config_t)
    (odp_shm_reserve : shm_name_t → Nat → Nat → Nat → Option shm_block_t) (fuel : Nat)
    (tbl tbl1 : pool_table_t) (name : Option (List Char)) (params : odp_pool_param_t)
    (shmflags : Nat) (hdl : odp_pool_t) (hwf : pool_handles_ok tbl)
    (h : pool_create cfg odp_shm_reserve fuel tbl name (some params) shmflags
      = some (hdl, tbl1))
    (hv : hdl ≠ ODP_POOL_INVALID) :
    ∃ sz i pb p0 shm page_size r,
      pool_create_sizes cfg params = some sz ∧
      tbl.pool[i]? = some pb ∧ pb.reserved = false ∧
      (∀ j, j < i → ∀ q, tbl.pool[j]? = some q → q.reserved = true) ∧
      hdl = pool_index_to_handle i ∧
      pool_filled cfg name params sz p0 ∧
      p0.local_cache = pb.local_cache ∧ p0.pool_hdl = hdl ∧
      p0.shm = some shm ∧ shm.page_size = some page_size ∧ p0.base_addr = shm.addr ∧
      init_buffers_loop cfg p0 page_size fuel 0 0 ring_init = some r ∧
      tbl1.pool = tbl.pool.set i { p0 with hdrs := r.1, ring := some r.2.1 } := by
  unfold pool_create at h
  simp only at h
  cases hsz : pool_create_sizes cfg params with
  | none =>
    rw [hsz] at h
    simp only [Option.some.injEq, Prod.mk.injEq] at h
    exact absurd h.1.symm hv
  | some sz =>
    rw [hsz] at h
    simp only at h
    cases hres : reserve_pool_scan cfg odp_shm_reserve sz.ring_size tbl.pool 0 with
    | mk oi l1 =>
      have hres2 : reserve_pool cfg odp_shm_reserve tbl sz.ring_size = (oi, { pool := l1 }) := by
        simp only [reserve_pool, hres]
      rw [hres2] at h
      cases oi with
      | none =>
        simp only [Option.some.injEq, Prod.mk.injEq] at h
        exact absurd h.1.symm hv
      | some i =>
        obtain ⟨j, pb, rshm, hij, hget, hfree, hprev, hl1⟩ :=
          reserve_pool_scan_some cfg odp_shm_reserve sz.ring_size tbl.pool 0 i l1 hres
        have hi : i = j := by omega
        subst hi
        have hlt : i < tbl.pool.length := list_get_lt _ _ _ hget
        have hentry : pool_entry { pool := l1 } i
            = some { pb with reserved := true, ring_shm := some rshm,
                             ring := some ring_init } := by
          simp only [pool_entry, hl1]
          exact List.getElem?_set_self hlt
        simp only at h
        rw [hentry] at h
        simp only at h
        split at h
        · simp only [Option.some.injEq, Prod.mk.injEq] at h
          exact absurd h.1.symm hv
        · rename_i shm hshm
          split at h
          · simp only [Option.some.injEq, Prod.mk.injEq] at h
            exact absurd h.1.symm hv
          · rename_i pool3 hp3
            split at h
            · cases h
            · rename_i pool4 hinit
              simp only [Option.some.injEq, Prod.mk.injEq] at h
              obtain ⟨hh, ht⟩ := h
              unfold init_buffers at hinit
              split at hinit
              · cases hinit
              · rename_i page_size hpage
                simp only at hinit
                split at hinit
                · cases hinit
                · rename_i r hloop
                  simp only [Option.some.injEq] at hinit
                  subst hinit
                  have hp3f : pool_filled cfg name params sz pool3 ∧
                      pool3.local_cache = pb.local_cache ∧ pool3.pool_hdl = pb.pool_hdl ∧
                      pool3.shm = some shm ∧ pool3.base_addr = shm.addr := by
                    split at hp3
                    · split at hp3
                      · cases hp3
                      · simp only [Option.some.injEq] at hp3
                        subst hp3
                        exact ⟨⟨rfl, rfl, rfl, rfl, rfl, rfl, rfl, rfl, rfl, rfl, rfl⟩,
                          rfl, rfl, rfl, rfl⟩
                    · simp only [Option.some.injEq] at hp3
                      subst hp3
                      exact ⟨⟨rfl, rfl, rfl, rfl, rfl, rfl, rfl, rfl, rfl, rfl, rfl⟩,
                        rfl, rfl, rfl, rfl⟩
                  obtain ⟨hfill, hcache, hhdl, hshm3, hbase⟩ := hp3f
                  have hhdl2 : pb.pool_hdl = pool_index_to_handle i := hwf i pb hget
                  change pool3.pool_hdl = hdl at hh
                  change (pool3.shm.bind fun shm => shm.page_size) = some page_size at hpage
                  rw [hshm3] at hpage
                  change shm.page_size = some page_size at hpage
                  refine ⟨sz, i, pb, { pool3 with ring := some ring_init }, shm, page_size, r,
                    rfl, hget, hfree, hprev, ?_, hfill, hcache, hh, hshm3, hpage, hbase,
                    hloop, ?_⟩
                  · rw [← hh, hhdl, hhdl2]
                  · rw [← ht, hl1]
                    simp only [put_pool, List.set_set]

/-- Doubling from a power of two reaches the least power of two that is at least
`x`: the result is a power of two, at least `x` and at least the start, and it
is the start itself or less than twice `x`. -/
theorem pow2_ceil_loop_spec (x : Nat) (fuel : Nat) :
    ∀ (p : Nat), (∃ j, p = 2 ^ j) → x ≤ p * 2 ^ fuel →
      (∃ k, pow2_ceil_loop x fuel p = 2 ^ k) ∧ x ≤ pow2_ceil_loop x fuel p ∧
      p ≤ pow2_ceil_loop x fuel p ∧
      (pow2_ceil_loop x fuel p = p ∨ pow2_ceil_loop x fuel p < 2 * x) := by
  induction fuel with
  | zero =>
    intro p hp hx
    show (∃ k, p = 2 ^ k) ∧ x ≤ p ∧ p ≤ p ∧ (p = p ∨ p < 2 * x)
    exact ⟨hp, (by simpa using hx), Nat.le_refl _, Or.inl rfl⟩
  | succ fuel ih =>
    intro p hp hx
    unfold pow2_ceil_loop
    by_cases hle : x ≤ p
    · rw [if_pos hle]
      exact ⟨hp, hle, Nat.le_refl _, Or.inl rfl⟩
    · rw [if_neg hle]
      obtain ⟨j, hj⟩ := hp
      obtain ⟨h1, h2, h3, h4⟩ := ih (2 * p) ⟨j + 1, by rw [hj, Nat.pow_succ]; ring⟩
        (by rw [Nat.pow_succ] at hx; calc x ≤ p * (2 ^ fuel * 2) := hx
              _ = 2 * p * 2 ^ fuel := by ring)
      refine ⟨h1, h2, by omega, Or.inr ?_⟩
      rcases h4 with h4 | h4
      · rw [h4]
        omega
      · exact h4

/-- The value `pow2_ceil x` is a power of two, at least `x`, and 1 or less than
twice `x`, for `x` up to `2 ^ 33`. -/
theorem pow2_ceil_spec (x : Nat) (hx : x ≤ 2 ^ 33) :
    (∃ k, pow2_ceil x = 2 ^ k) ∧ x ≤ pow2_ceil x ∧ (pow2_ceil x = 1 ∨ pow2_ceil x < 2 * x) := by
  obtain ⟨h1, h2, _, h4⟩ := pow2_ceil_loop_spec x 33 1 ⟨0, rfl⟩ (by omega)
  exact ⟨h1, h2, h4⟩

/-- No power of two lies strictly between a power of two and its double. -/
theorem pow2_gap (a b : Nat) (h1 : 2 ^ a < 2 * 2 ^ b) : 2 ^ a ≤ 2 ^ b := by
  have h2 : 2 ^ a < 2 ^ (b + 1) := by rw [Nat.pow_succ]; omega
  have h3 : a < b + 1 := (Nat.pow_lt_pow_iff_right (by decide)).mp h2
  exact Nat.pow_le_pow_right (by decide) (by omega)

/-- The values that `pool_create` computes, read back from its result. -/
theorem pool_create_sizes_spec (cfg : pool_config_t) (params : odp_pool_param_t)
    (sz : pool_sizes_t) (h : pool_create_sizes cfg params = some sz) :
    pool_create_align cfg params = some sz.align ∧
    sz.ring_size = (if sz.num ≤ RING_SIZE_MIN cfg then RING_SIZE_MIN cfg
      else ROUNDUP_POWER2_U32 sz.num) ∧
    sz.hdr_size = ROUNDUP_CACHE_LINE cfg.sizeof_packet_hdr ∧
    sz.block_size = ROUNDUP_CACHE_LINE
      (u32 (sz.hdr_size + sz.align + sz.headroom + sz.seg_len + sz.tailroom)) ∧
    (params.type = ODP_POOL_BUFFER → sz.num = params.buf_num ∧ sz.seg_len = params.buf_size ∧
      sz.headroom = 0 ∧ sz.tailroom = 0 ∧ sz.uarea_size = 0 ∧ sz.num_extra = 0) ∧
    (params.type = ODP_POOL_TIMEOUT → sz.num = params.tmo_num ∧ sz.seg_len = 0 ∧
      sz.headroom = 0 ∧ sz.tailroom = 0 ∧ sz.uarea_size = 0 ∧ sz.num_extra = 0) ∧
    (params.type = ODP_POOL_PACKET → sz.num = params.pkt_num ∧
      sz.seg_len = (pool_create_seg_len cfg params).1 ∧
      sz.seg_len ≤ cfg.CONFIG_PACKET_MAX_SEG_LEN ∧
      sz.headroom = cfg.CONFIG_PACKET_HEADROOM ∧ sz.tailroom = cfg.CONFIG_PACKET_TAILROOM ∧
      sz.uarea_size = (if params.pkt_uarea_size ≠ 0 then ROUNDUP_CACHE_LINE params.pkt_uarea_size
        else params.pkt_uarea_size) ∧
      sz.num_extra
        = u32 (u32 ((u32 (sz.num * sz.block_size) + FIRST_HP_SIZE - 1) / FIRST_HP_SIZE)
          + (u32 (u32 ((u32 (sz.num * sz.block_size) + FIRST_HP_SIZE - 1) / FIRST_HP_SIZE)
              * sz.block_size) + FIRST_HP_SIZE - 1) / FIRST_HP_SIZE)) ∧
    params.type ≠ unknown := by
  unfold pool_create_sizes at h
  cases ha : pool_create_align cfg params with
  | none => rw [ha] at h; cases h
  | some align =>
    rw [ha] at h
    simp only at h
    cases ht : params.type with
    | ODP_POOL_BUFFER =>
      rw [ht] at h
      simp only [Option.some.injEq] at h
      subst h
      simp
    | ODP_POOL_TIMEOUT =>
      rw [ht] at h
      simp only [Option.some.injEq] at h
      subst h
      simp
    | unknown =>
      rw [ht] at h
      cases h
    | ODP_POOL_PACKET =>
      rw [ht] at h
      simp only at h
      by_cases hh : params.pkt_headroom > cfg.CONFIG_PACKET_HEADROOM
      · rw [if_pos hh] at h
        cases h
      · rw [if_neg hh] at h
        by_cases hs : (pool_create_seg_len cfg params).1 > cfg.CONFIG_PACKET_MAX_SEG_LEN
        · rw [if_pos hs] at h
          cases h
        · rw [if_neg hs] at h
          simp only [Option.some.injEq] at h
          subst h
          simp
          omega

/-- When the sizes are accepted, slot `i` is the first free slot, the ring and
the pool memory can be reserved, the pool has no user area and the loop of
`init_buffers` returns, `pool_create` returns the handle of slot `i`, which
holds the headers and the ring that the loop produced. -/
theorem pool_create_runs (cfg : pool_config_t)
    (odp_shm_reserve : shm_name_t → Nat → Nat → Nat → Option shm_block_t) (fuel : Nat)
    (tbl : pool_table_t) (name : Option (List Char)) (params : odp_pool_param_t)
    (shmflags : Nat) (sz : pool_sizes_t) (i : Nat) (pb : pool_t) (rshm shm : shm_block_t)
    (page_size : Nat) (r : List odp_buffer_hdr_t × ring_t × Nat)
    (hsz : pool_create_sizes cfg params = some sz)
    (hget : tbl.pool[i]? = some pb)
    (hscan : reserve_pool_scan cfg odp_shm_reserve sz.ring_size tbl.pool 0
      = (some i, tbl.pool.set i { pb with reserved := true, ring_shm := some rshm,
                                          ring := some ring_init }))
    (hshm : odp_shm_reserve (shm_name_t.pool (match name with
        | none => []
        | some n => n.take (cfg.ODP_POOL_NAME_LEN - 1)))
      (u32 (u32 (sz.num + sz.num_extra) * sz.block_size)) ODP_PAGE_SIZE shmflags = some shm)
    (hua : sz.uarea_size = 0) (hpage : shm.page_size = some page_size)
    (hloop : init_buffers_loop cfg (filled_slot cfg pb name params sz rshm shm) page_size fuel
      0 0 ring_init = some r) :
    pool_create cfg odp_shm_reserve fuel tbl name (some params) shmflags
      = some (pb.pool_hdl,
          { pool := tbl.pool.set i
              { filled_slot cfg pb name params sz rshm shm with
                hdrs := r.1, ring := some r.2.1 } }) := by
  have hlt : i < tbl.pool.length := list_get_lt _ _ _ hget
  unfold pool_create
  simp only [hsz, reserve_pool, hscan, pool_entry, List.getElem?_set_self hlt, hshm, hua,
    ne_eq, not_true_eq_false, if_false]
  have hinit : init_buffers cfg fuel (filled_slot cfg pb name params sz rshm shm)
      = some { filled_slot cfg pb name params sz rshm shm with
               hdrs := r.1, ring := some r.2.1 } := by
    unfold init_buffers
    have h1 : ((filled_slot cfg pb name params sz rshm shm).shm.bind
        fun shm => shm.page_size) = some page_size := hpage
    have h2 : (filled_slot cfg pb name params sz rshm shm).ring = some ring_init := rfl
    rw [h1]
    simp only
    rw [h2]
    simp only
    rw [hloop]
  have hua2 : (filled_slot cfg pb name params sz rshm shm).uarea_size = 0 := hua
  simp only [filled_slot, hua] at hinit
  rw [hinit]
  simp only [put_pool, List.set_set, hua, filled_slot]

/-- After `generic_pool_init_global` every slot has the handle of its index, is
not reserved and has the empty name. -/
theorem generic_pool_init_global_ok (n threads : Nat) :
    pool_handles_ok (generic_pool_init_global n threads) := by
  intro i pool h
  simp only [generic_pool_init_global, List.getElem?_map, Option.map_eq_some'] at h
  obtain ⟨a, ha, hp⟩ := h
  rw [List.getElem?_range (by
    by_contra hge
    rw [List.getElem?_eq_none (by simpa using Nat.not_lt.mp hge)] at ha
    cases ha)] at ha
  simp only [Option.some.injEq] at ha
  subst ha
  rw [← hp]
  rfl

/-- The slot of the handle that a successful `pool_create` returns is the slot
it filled in. -/
theorem pool_create_slot (cfg : pool_config_t)
    (odp_shm_reserve : shm_name_t → Nat → Nat → Nat → Option shm_block_t) (fuel : Nat)
    (tbl tbl1 : pool_table_t) (name : Option (List Char)) (params : odp_pool_param_t)
    (shmflags : Nat) (hdl : odp_pool_t) (hwf : pool_handles_ok tbl)
    (h : pool_create cfg odp_shm_reserve fuel tbl name (some params) shmflags
      = some (hdl, tbl1))
    (hv : hdl ≠ ODP_POOL_INVALID) :
    ∃ sz pb p0 shm page_size r,
      pool_create_sizes cfg params = some sz ∧
      tbl.pool[hdl - 1]? = some pb ∧ pb.reserved = false ∧
      pool_filled cfg name params sz p0 ∧
      p0.local_cache = pb.local_cache ∧ p0.pool_hdl = hdl ∧
      p0.shm = some shm ∧ shm.page_size = some page_size ∧ p0.base_addr = shm.addr ∧
      init_buffers_loop cfg p0 page_size fuel 0 0 ring_init = some r ∧
      pool_entry_from_hdl tbl1 hdl = some { p0 with hdrs := r.1, ring := some r.2.1 } ∧
      tbl1.pool = tbl.pool.set (hdl - 1) { p0 with hdrs := r.1, ring := some r.2.1 } := by
  obtain ⟨sz, i, pb, p0, shm, page_size, r, h1, h2, h3, _, h5, h6, h7, h8, h9, h10, h11, h12,
    h13⟩ := pool_create_success cfg odp_shm_reserve fuel tbl tbl1 name params shmflags hdl hwf h hv
  have hi : hdl - 1 = i := by rw [h5]; rfl
  have hlt : i < tbl.pool.length := list_get_lt _ _ _ h2
  refine ⟨sz, pb, p0, shm, page_size, r, h1, by rw [hi]; exact h2, h3, h6, h7, h8, h9, h10,
    h11, h12, ?_, by rw [hi]; exact h13⟩
  unfold pool_entry_from_hdl
  rw [if_neg hv, hi, h13]
  exact List.getElem?_set_self hlt

/-- A buffer pool of `2 ^ 31 + 1` buffers is created on a fresh table, given
enough rounds for the loop of `init_buffers`: the slot holds `ring_mask =
2 ^ 32 - 1`. -/
theorem pool_create_huge_num_run (fuel : Nat) (hf : 2 ^ 31 + 2 ≤ fuel) :
    ∃ tbl1 pool,
      pool_create sample_pool_config (sample_shm_reserve 4096) fuel
          (generic_pool_init_global 1 1) (some ['p']) (some (buffer_params (2 ^ 31 + 1) 16)) 0
        = some (1, tbl1) ∧
      pool_entry_from_hdl tbl1 1 = some pool ∧ pool.num = 2 ^ 31 + 1 ∧
      pool.ring_mask = 2 ^ 32 - 1 := by
  have hsz : pool_create_sizes sample_pool_config (buffer_params (2 ^ 31 + 1) 16)
      = some { align := 16, headroom := 0, tailroom := 0, seg_len := 100, max_len := 0,
               uarea_size := 0, num := 2 ^ 31 + 1, ring_size := 0, hdr_size := 256,
               block_size := 384, num_extra := 0 } := by
    decide
  obtain ⟨r, hr, _⟩ := init_buffers_loop_total sample_pool_config
    (filled_slot sample_pool_config (blank_pool 1 0) (some ['p'])
      (buffer_params (2 ^ 31 + 1) 16)
      { align := 16, headroom := 0, tailroom := 0, seg_len := 100, max_len := 0,
        uarea_size := 0, num := 2 ^ 31 + 1, ring_size := 0, hdr_size := 256,
        block_size := 384, num_extra := 0 }
      { addr := 4096, page_size := some 4096 } { addr := 2 ^ 30, page_size := some 4096 })
    4096 (Or.inr (by decide)) (by decide) (by decide) (by decide) fuel 0 ring_init
    (Nat.zero_le _) (by
      show 2 ^ 31 + 1 - 0 + 1 ≤ fuel
      omega)
  have hrun := pool_create_runs sample_pool_config (sample_shm_reserve 4096) fuel
    (generic_pool_init_global 1 1) (some ['p']) (buffer_params (2 ^ 31 + 1) 16) 0 _ 0
    (blank_pool 1 0) { addr := 4096, page_size := some 4096 }
    { addr := 2 ^ 30, page_size := some 4096 } 4096 r hsz rfl (by decide) rfl rfl rfl hr
  exact ⟨_, _, hrun, rfl, rfl, rfl⟩

/-- C24, as stated, fails for a pool of more than `2 ^ 31` buffers: with
`num = 2 ^ 31 + 1` the 32-bit `ring_size` is 0, neither a power of two nor at
least `num`, and `ring_mask = ring_size - 1` wraps to `2 ^ 32 - 1`; the pool is
created all the same. -/
theorem pool_create_ring_size_counterexample :
    (∃ tbl1 pool,
      pool_create sample_pool_config (sample_shm_reserve 4096) (2 ^ 31 + 2)
          (generic_pool_init_global 1 1) (some ['p']) (some (buffer_params (2 ^ 31 + 1) 16)) 0
        = some (1, tbl1) ∧
      pool_entry_from_hdl tbl1 1 = some pool ∧ pool.num = 2 ^ 31 + 1 ∧
      pool.ring_mask = 2 ^ 32 - 1) ∧
    (pool_create_sizes sample_pool_config (buffer_params (2 ^ 31 + 1) 16)).map
        (fun sz => sz.ring_size) = some 0 :=
  ⟨pool_create_huge_num_run (2 ^ 31 + 2) (Nat.le_refl _), by decide⟩

/-- C24, amended. When `pool_create` succeeds with `num` at most `2 ^ 31` (and
`CACHE_BURST` a power of two, `2 * CACHE_BURST` a 32-bit value), the ring
capacity `ring_size` it chose is a power of two, at least `2 * CACHE_BURST` and
at least `num`, it is the least such power of two, that is
`max(2 * CACHE_BURST, pow2_ceil(num))`, and the slot's `ring_mask` is
`ring_size - 1`. -/
theorem pool_create_ring_size (cfg : pool_config_t)
    (odp_shm_reserve : shm_name_t → Nat → Nat → Nat → Option shm_block_t) (fuel : Nat)
    (tbl tbl1 : pool_table_t) (name : Option (List Char)) (params : odp_pool_param_t)
    (shmflags : Nat) (hdl : odp_pool_t) (hwf : pool_handles_ok tbl)
    (h : pool_create cfg odp_shm_reserve fuel tbl name (some params) shmflags
      = some (hdl, tbl1))
    (hv : hdl ≠ ODP_POOL_INVALID)
    (hcb : ∃ j, cfg.CACHE_BURST = 2 ^ j) (hcb32 : 2 * cfg.CACHE_BURST < 2 ^ 32) :
    ∃ pool sz, pool_entry_from_hdl tbl1 hdl = some pool ∧
      pool_create_sizes cfg params = some sz ∧ pool.num = sz.num ∧
      (sz.num ≤ 2 ^ 31 →
        (∃ k, sz.ring_size = 2 ^ k) ∧ 2 * cfg.CACHE_BURST ≤ sz.ring_size ∧
        sz.num ≤ sz.ring_size ∧
        (∀ p, (∃ k, p = 2 ^ k) → sz.num ≤ p → 2 * cfg.CACHE_BURST ≤ p → sz.ring_size ≤ p) ∧
        pool.ring_mask + 1 = sz.ring_size) := by
  obtain ⟨sz, pb, p0, shm, page_size, r, h1, _, _, h4, _, _, _, _, _, _, h11, _⟩ :=
    pool_create_slot cfg odp_shm_reserve fuel tbl tbl1 name params shmflags hdl hwf h hv
  obtain ⟨_, _, _, hmask, hnum, _⟩ := h4
  refine ⟨_, sz, h11, h1, hnum, ?_⟩
  intro hn
  obtain ⟨_, hring, _⟩ := pool_create_sizes_spec cfg params sz h1
  obtain ⟨j, hj⟩ := hcb
  have hcbpos : 0 < cfg.CACHE_BURST := by rw [hj]; exact Nat.two_pow_pos j
  show _ ∧ _ ∧ _ ∧ _ ∧ p0.ring_mask + 1 = sz.ring_size
  rw [hmask]
  by_cases hle : sz.num ≤ RING_SIZE_MIN cfg
  · rw [if_pos hle] at hring
    unfold RING_SIZE_MIN at hring hle
    refine ⟨⟨j + 1, by rw [hring, hj, Nat.pow_succ]; ring⟩, by omega, by omega,
      fun p _ _ hp => by omega, ?_⟩
    rw [u32_pred sz.ring_size (by omega) (by omega)]
    omega
  · rw [if_neg hle] at hring
    unfold RING_SIZE_MIN at hle
    obtain ⟨⟨k, hk⟩, hge, hlt⟩ := pow2_ceil_spec sz.num (by omega)
    have h32 : pow2_ceil sz.num < 2 ^ 32 := by omega
    have hrs : sz.ring_size = pow2_ceil sz.num := by
      rw [hring]
      exact Nat.mod_eq_of_lt h32
    refine ⟨⟨k, by rw [hrs, hk]⟩, by omega, by omega, ?_, ?_⟩
    · rintro p ⟨k1, hk1⟩ hp1 _
      rw [hrs, hk, hk1]
      apply pow2_gap
      rw [← hk, ← hk1]
      omega
    · rw [u32_pred sz.ring_size (by omega) (by omega)]
      omega

/-- Witness of the amended C24: three buffers with `CACHE_BURST = 32` get a ring
of 64 entries. -/
theorem pool_create_ring_size_witness :
    ∃ pool sz,
      pool_entry_from_hdl
        ((pool_create sample_pool_config (sample_shm_reserve 4096) 8
          (generic_pool_init_global 1 1) (some ['p']) (some (buffer_params 3 16)) 0).getD
            (0, generic_pool_init_global 1 1)).2 1 = some pool ∧
      pool_create_sizes sample_pool_config (buffer_params 3 16) = some sz ∧
      pool.num = sz.num ∧
      (sz.num ≤ 2 ^ 31 →
        (∃ k, sz.ring_size = 2 ^ k) ∧ 2 * sample_pool_config.CACHE_BURST ≤ sz.ring_size ∧
        sz.num ≤ sz.ring_size ∧
        (∀ p, (∃ k, p = 2 ^ k) → sz.num ≤ p → 2 * sample_pool_config.CACHE_BURST ≤ p →
          sz.ring_size ≤ p) ∧
        pool.ring_mask + 1 = sz.ring_size) :=
  pool_create_ring_size sample_pool_config (sample_shm_reserve 4096) 8
    (generic_pool_init_global 1 1) _ (some ['p']) (buffer_params 3 16) 0 1
    (generic_pool_init_global_ok 1 1) rfl (by decide) ⟨5, rfl⟩ (by decide)

/-- C23, the divergence. For a packet pool of 1720741 packets the block size is
2496 bytes and the product `num * block_size`, computed in 32 bits, wraps to
2240: `pool_create` computes `num_extra = 2`, although
`ceil(num * block_size / 2 MiB)` is 2049. -/
theorem pool_create_num_extra_overflow :
    (pool_create_sizes sample_pool_config (packet_params 1720741 0)).map
        (fun sz => (sz.num, sz.block_size, sz.num_extra)) = some (1720741, 2496, 2) ∧
    u32 (1720741 * 2496) = 2240 ∧
    (1720741 * 2496 + FIRST_HP_SIZE - 1) / FIRST_HP_SIZE = 2049 := by
  decide

/-! ## The thread caches -/

/-- The loop of `flush_cache` appends the cached indices to a ring that has room
for them, in order. -/
theorem flush_cache_loop_spec (buf_index : List Nat) (mask : Nat) (n : Nat) :
    ∀ (i : Nat) (ring : ring_t), i + n ≤ buf_index.length →
      ring.data.length + n ≤ mask + 1 →
      flush_cache_loop buf_index mask n i ring
        = some { data := ring.data ++ (buf_index.drop i).take n } := by
  induction n with
  | zero =>
    intro i ring _ _
    simp [flush_cache_loop]
  | succ n ih =>
    intro i ring hi hroom
    have hlt : i < buf_index.length := by omega
    unfold flush_cache_loop
    rw [List.getElem?_eq_getElem hlt]
    simp only
    have henq : ring_enq ring mask buf_index[i] = { data := ring.data ++ [buf_index[i]] } := by
      unfold ring_enq
      rw [if_pos (by omega)]
    rw [henq, ih (i + 1) _ (by omega) (by simp only [List.length_append, List.length_singleton]; omega)]
    rw [List.drop_eq_getElem_cons hlt, List.take_succ_cons, List.append_assoc]
    rfl

/-- The loop of `generic_pool_term_local` empties the calling thread's cache in
every pool. -/
theorem term_local_loop_spec (thr_id : Nat) (pools : List pool_t)
    (h : ∀ pool ∈ pools, flushable pool thr_id) :
    ∃ pools1, term_local_loop thr_id pools = some pools1 ∧
      pools1.length = pools.length ∧
      ∀ pool1 ∈ pools1, ∃ c, pool1.local_cache[thr_id]? = some c ∧ c.num = 0 := by
  induction pools with
  | nil => exact ⟨[], rfl, rfl, fun _ hm => by cases hm⟩
  | cons p rest ih =>
    obtain ⟨rest1, hr1, hlen, hall⟩ := ih (fun q hq => h q (List.mem_cons_of_mem _ hq))
    obtain ⟨cache, hc, hcase⟩ := h p (List.mem_cons_self _ _)
    have hthr : thr_id < p.local_cache.length := list_get_lt _ _ _ hc
    have hflush : ∃ p1, flush_cache p thr_id = some p1 ∧
        p1.local_cache = p.local_cache.set thr_id { cache with num := 0 } := by
      unfold flush_cache
      rw [hc]
      simp only
      rcases hcase with ⟨ring, hring, hv, hroom⟩ | ⟨hring, hz⟩
      · rw [hring]
        simp only
        rw [flush_cache_loop_spec cache.buf_index p.ring_mask cache.num 0 ring (by omega) hroom]
        exact ⟨_, rfl, rfl⟩
      · rw [hring]
        simp only
        rw [if_pos hz]
        exact ⟨_, rfl, rfl⟩
    obtain ⟨p1, hp1, hcache⟩ := hflush
    refine ⟨p1 :: rest1, ?_, by simp [hlen], ?_⟩
    · simp only [term_local_loop, hp1, hr1]
    · intro q hq
      simp only [List.mem_cons] at hq
      rcases hq with hq | hq
      · subst hq
        exact ⟨{ cache with num := 0 }, by rw [hcache]; exact List.getElem?_set_self hthr, rfl⟩
      · exact hall q hq

/-- C26. For a pool and a thread cache holding `num` indices (within its
`buf_index` array) whose free ring has room for `num` more entries,
`flush_cache` returns with the ring extended by `buf_index[0..num-1]` in order
and the cache's `num` set to 0, nothing else changed: the ring has grown by what
the cache held. And `generic_pool_term_local` on a table in which the calling
thread's cache can be flushed in every pool returns 0 and leaves that thread's
cache empty in every pool. -/
theorem flush_cache_spec (pool : pool_t) (thr : Nat) (cache : pool_cache_t) (ring : ring_t)
    (hcache : pool.local_cache[thr]? = some cache) (hring : pool.ring = some ring)
    (hnum : cache.num ≤ cache.buf_index.length)
    (hroom : ring.data.length + cache.num ≤ pool.ring_mask + 1) :
    (flush_cache pool thr
        = some { pool with
          ring := some { data := ring.data ++ cache.buf_index.take cache.num },
          local_cache := pool.local_cache.set thr { cache with num := 0 } } ∧
      (ring.data ++ cache.buf_index.take cache.num).length + 0
        = ring.data.length + cache.num) ∧
    (∀ (tbl : pool_table_t) (thr_id : Nat), (∀ p ∈ tbl.pool, flushable p thr_id) →
      ∃ tbl1, generic_pool_term_local tbl thr_id = some (0, tbl1) ∧
        tbl1.pool.length = tbl.pool.length ∧
        ∀ p1 ∈ tbl1.pool, ∃ c, p1.local_cache[thr_id]? = some c ∧ c.num = 0) := by
  refine ⟨⟨?_, ?_⟩, ?_⟩
  · unfold flush_cache
    rw [hcache]
    simp only
    rw [hring]
    simp only
    rw [flush_cache_loop_spec cache.buf_index pool.ring_mask cache.num 0 ring (by omega) hroom]
    simp
  · simp only [List.length_append, List.length_take, Nat.add_zero]
    omega
  · intro tbl thr_id h
    obtain ⟨pools1, h1, h2, h3⟩ := term_local_loop_spec thr_id tbl.pool h
    refine ⟨{ pool := pools1 }, ?_, h2, h3⟩
    simp only [generic_pool_term_local, h1]

/-- Witness of C26: a cache of two indices flushed into a ring of eight entries
that holds two. -/
theorem flush_cache_spec_witness :
    (flush_cache cached_pool 0
        = some { cached_pool with
          ring := some { data := [0, 1] ++ [5, 6, 0, 0].take 2 },
          local_cache := cached_pool.local_cache.set 0 { num := 0, buf_index := [5, 6, 0, 0] } } ∧
      ([0, 1] ++ [5, 6, 0, 0].take 2).length + 0 = [0, 1].length + 2) ∧
    (∀ (tbl : pool_table_t) (thr_id : Nat), (∀ p ∈ tbl.pool, flushable p thr_id) →
      ∃ tbl1, generic_pool_term_local tbl thr_id = some (0, tbl1) ∧
        tbl1.pool.length = tbl.pool.length ∧
        ∀ p1 ∈ tbl1.pool, ∃ c, p1.local_cache[thr_id]? = some c ∧ c.num = 0) :=
  flush_cache_spec cached_pool 0 { num := 2, buf_index := [5, 6, 0, 0] } { data := [0, 1] }
    rfl rfl (by decide) (by decide)

/-! ## Pool lookup -/

/-- C28, the divergence. `generic_pool_lookup` does not test `reserved`: on a
table without reserved pools the empty name is found in slot 0 (handle 1), and
after a pool named "p" has been created and destroyed, looking up "p" returns
the handle of the destroyed pool, whose slot is not reserved (a second
`generic_pool_destroy` of that handle fails). -/
theorem generic_pool_lookup_unreserved :
    generic_pool_lookup (generic_pool_init_global 2 1) [] = 1 ∧
    (pool_entry_from_hdl (generic_pool_init_global 2 1) 1).map (fun p => p.reserved)
      = some false ∧
    ∃ tbl1 tbl2,
      generic_pool_create sample_pool_config (sample_shm_reserve 4096) 8
          (generic_pool_init_global 2 1) (some ['p']) (some (buffer_params 2 16))
        = some (1, tbl1) ∧
      generic_pool_destroy tbl1 1 = some (0, tbl2) ∧
      generic_pool_lookup tbl2 ['p'] = 1 ∧
      (pool_entry_from_hdl tbl2 1).map (fun p => p.reserved) = some false ∧
      generic_pool_destroy tbl2 1 = some (-1, tbl2) :=
  ⟨rfl, rfl, _, _, rfl, rfl, rfl, rfl, rfl⟩

/-! ## Alignment of the data start -/

/-- When `init_buffers` returns, it ran its loop from block 0 on the ring of the
pool with the page size of the pool memory. -/
theorem init_buffers_some (cfg : pool_config_t) (fuel : Nat) (pool pool1 : pool_t)
    (h : init_buffers cfg fuel pool = some pool1) :
    ∃ shm page_size ring r,
      pool.shm = some shm ∧ shm.page_size = some page_size ∧ pool.ring = some ring ∧
      init_buffers_loop cfg pool page_size fuel 0 0 ring = some r ∧
      pool1 = { pool with hdrs := r.1, ring := some r.2.1 } := by
  unfold init_buffers at h
  cases hs : pool.shm with
  | none => rw [hs] at h; cases h
  | some shm =>
    rw [hs] at h
    cases hp : shm.page_size with
    | none => simp only [Option.bind, hp] at h; cases h
    | some page_size =>
      simp only [Option.bind, hp] at h
      cases hr : pool.ring with
      | none => rw [hr] at h; cases h
      | some ring =>
        rw [hr] at h
        simp only at h
        cases hl : init_buffers_loop cfg pool page_size fuel 0 0 ring with
        | none => rw [hl] at h; cases h
        | some r =>
          rw [hl] at h
          simp only [Option.some.injEq] at h
          exact ⟨shm, page_size, ring, r, rfl, hp, rfl, hl, h.symm⟩

/-- C21. In a pool with alignment `align` (not zero) and headroom `headroom`
(their sum within 32 bits), every buffer that `init_buffers` initialises has its
data start `seg_data` (also stored as `base_data`) at a multiple of `align`; it
is the lowest such address at or after `data + headroom`, so the offset from
`data` lies in `[headroom, headroom + align)`. The alignment loop returns for
every data address. -/
theorem init_buffers_data_start_aligned (cfg : pool_config_t) (fuel : Nat)
    (pool pool1 : pool_t) (halign : 0 < pool.align)
    (h32 : pool.headroom + pool.align ≤ 2 ^ 32)
    (h : init_buffers cfg fuel pool = some pool1) :
    (∀ data, ∃ offset,
      align_offset_loop data pool.align (pool.align + 1) pool.headroom = some offset) ∧
    ∀ hdr ∈ pool1.hdrs,
      hdr.base_data = hdr.seg_data ∧
      hdr.seg_data % pool.align = 0 ∧
      hdr.data + pool.headroom ≤ hdr.seg_data ∧
      hdr.seg_data < hdr.data + pool.headroom + pool.align ∧
      (∀ a, hdr.data + pool.headroom ≤ a → a % pool.align = 0 → hdr.seg_data ≤ a) := by
  refine ⟨fun data => ?_, ?_⟩
  · obtain ⟨offset, ho, _⟩ := align_offset_loop_spec data pool.align pool.headroom halign h32
    exact ⟨offset, ho⟩
  · obtain ⟨shm, page_size, ring, r, _, _, _, hl, hp⟩ := init_buffers_some cfg fuel pool pool1 h
    intro hdr hmem
    have hmem1 : hdr ∈ r.1 := by rw [hp] at hmem; exact hmem
    obtain ⟨_, _, ⟨offset, hoff, hseg, _⟩, hbase, _⟩ :=
      init_buffers_loop_hdrs cfg pool page_size fuel 0 0 ring r hl hdr hmem1
    obtain ⟨offset1, ho1, hlo, hhi, hmod, hmin⟩ :=
      align_offset_loop_spec hdr.data pool.align pool.headroom halign h32
    have heq : offset = offset1 := by
      rw [hoff] at ho1
      exact Option.some.inj ho1
    subst heq
    refine ⟨hbase, by rw [hseg]; exact hmod, by omega, by omega, ?_⟩
    intro a ha hma
    have := hmin (a - hdr.data) (by omega) (by
      rw [show hdr.data + (a - hdr.data) = a by omega]; exact hma)
    omega

/-- C21 at a packet pool whose memory starts 8 bytes past a multiple of 16: the
two data starts lie 136 bytes after `data`, the first multiple of 16 at or after
`data + 128`. -/
theorem init_buffers_data_start_aligned_witness :
    ∃ pool1, init_buffers sample_pool_config 3 sample_unaligned_pool = some pool1 ∧
      pool1.hdrs.map (fun hdr => (hdr.data, hdr.seg_data))
        = [(2 ^ 30 + 8 + 256, 2 ^ 30 + 8 + 256 + 136),
           (2 ^ 30 + 8 + 2496 + 256, 2 ^ 30 + 8 + 2496 + 256 + 136)] ∧
      ((∀ data, ∃ offset, align_offset_loop data sample_unaligned_pool.align
          (sample_unaligned_pool.align + 1) sample_unaligned_pool.headroom = some offset) ∧
        ∀ hdr ∈ pool1.hdrs,
          hdr.base_data = hdr.seg_data ∧
          hdr.seg_data % sample_unaligned_pool.align = 0 ∧
          hdr.data + sample_unaligned_pool.headroom ≤ hdr.seg_data ∧
          hdr.seg_data < hdr.data + sample_unaligned_pool.headroom
            + sample_unaligned_pool.align ∧
          (∀ a, hdr.data + sample_unaligned_pool.headroom ≤ a →
            a % sample_unaligned_pool.align = 0 → hdr.seg_data ≤ a)) :=
  ⟨_, rfl, rfl,
    init_buffers_data_start_aligned sample_pool_config 3 sample_unaligned_pool _
      (by decide) (by decide) rfl⟩

/-! ## Buffers within their blocks -/

/-- Rounding up to the cache line does not decrease a value that stays within
32 bits, and adds less than a cache line. -/
theorem roundup_cache_line_bounds (x : Nat) (h : x + 63 < 2 ^ 32) :
    x ≤ ROUNDUP_CACHE_LINE x ∧ ROUNDUP_CACHE_LINE x < x + 64 ∧
    ROUNDUP_CACHE_LINE x % 64 = 0 := by
  unfold ROUNDUP_CACHE_LINE u32 ODP_CACHE_LINE_SIZE
  omega

/-- An alignment that `pool_create` accepts lies between the configured
minimum and maximum. -/
theorem pool_create_align_bounds (cfg : pool_config_t) (params : odp_pool_param_t)
    (align : Nat) (h : pool_create_align cfg params = some align) :
    cfg.ODP_CONFIG_BUFFER_ALIGN_MIN ≤ align ∧ align ≤ cfg.ODP_CONFIG_BUFFER_ALIGN_MAX := by
  unfold pool_create_align at h
  generalize (if params.type = ODP_POOL_BUFFER then params.buf_align else 0) = align0 at h
  simp only at h
  by_cases hc : (if align0 < cfg.ODP_CONFIG_BUFFER_ALIGN_MIN then cfg.ODP_CONFIG_BUFFER_ALIGN_MIN
        else align0) > cfg.ODP_CONFIG_BUFFER_ALIGN_MAX ∨
      (if align0 < cfg.ODP_CONFIG_BUFFER_ALIGN_MIN then cfg.ODP_CONFIG_BUFFER_ALIGN_MIN
        else align0) ≠ ROUNDDOWN_POWER2
          (if align0 < cfg.ODP_CONFIG_BUFFER_ALIGN_MIN then cfg.ODP_CONFIG_BUFFER_ALIGN_MIN
            else align0)
          (if align0 < cfg.ODP_CONFIG_BUFFER_ALIGN_MIN then cfg.ODP_CONFIG_BUFFER_ALIGN_MIN
            else align0)
  · rw [if_pos hc] at h
    cases h
  · rw [if_neg hc] at h
    simp only [Option.some.injEq] at h
    push_neg at hc
    rw [h] at hc
    refine ⟨?_, by omega⟩
    rw [← h]
    split
    · exact Nat.le_refl _
    · omega

/-- A `generic_pool_create` that returns a pool passed `check_params` and
returned what `pool_create` returned. -/
theorem generic_pool_create_some (cfg : pool_config_t)
    (odp_shm_reserve : shm_name_t → Nat → Nat → Nat → Option shm_block_t) (fuel : Nat)
    (tbl tbl1 : pool_table_t) (name : Option (List Char)) (params : odp_pool_param_t)
    (hdl : odp_pool_t)
    (h : generic_pool_create cfg odp_shm_reserve fuel tbl name (some params) = some (hdl, tbl1))
    (hv : hdl ≠ ODP_POOL_INVALID) :
    check_params cfg (some params) = some 0 ∧
    ∃ shmflags, pool_create cfg odp_shm_reserve fuel tbl name (some params) shmflags
      = some (hdl, tbl1) := by
  unfold generic_pool_create at h
  cases hc : check_params cfg (some params) with
  | none => rw [hc] at h; cases h
  | some rc =>
    rw [hc] at h
    simp only at h
    by_cases hrc : rc ≠ 0
    · rw [if_pos hrc] at h
      simp only [Option.some.injEq, Prod.mk.injEq] at h
      exact absurd h.1.symm hv
    · rw [if_neg hrc] at h
      push_neg at hrc
      subst hrc
      exact ⟨rfl, _, h⟩

/-- The buffer size that `check_params` accepts is at most `MAX_SIZE`. -/
theorem check_params_buf_size (cfg : pool_config_t) (params : odp_pool_param_t)
    (hc : check_params cfg (some params) = some 0) (ht : params.type = ODP_POOL_BUFFER) :
    params.buf_size ≤ MAX_SIZE := by
  unfold check_params at hc
  simp only [ht] at hc
  by_contra hgt
  rw [if_pos (by omega)] at hc
  exact absurd hc (by decide)

/-- The layout of a pool that `generic_pool_create` returns, under the
assumptions on the configuration constants: the block size is the rounded sum
without 32-bit loss, and every header initialised has its data region between
the start and the end of its block. -/
theorem generic_pool_create_layout (cfg : pool_config_t)
    (odp_shm_reserve : shm_name_t → Nat → Nat → Nat → Option shm_block_t) (fuel : Nat)
    (tbl tbl1 : pool_table_t) (name : Option (List Char)) (params : odp_pool_param_t)
    (hdl : odp_pool_t) (hcfg : pool_config_ok cfg) (hwf : pool_handles_ok tbl)
    (h : generic_pool_create cfg odp_shm_reserve fuel tbl name (some params) = some (hdl, tbl1))
    (hv : hdl ≠ ODP_POOL_INVALID) :
    ∃ pool shm page_size,
      pool_entry_from_hdl tbl1 hdl = some pool ∧
      pool.params = some params ∧
      pool.shm = some shm ∧ shm.page_size = some page_size ∧ pool.base_addr = shm.addr ∧
      0 < pool.align ∧ pool.block_size ≤ 2 ^ 31 ∧
      pool.block_size = ROUNDUP_CACHE_LINE (ROUNDUP_CACHE_LINE cfg.sizeof_packet_hdr
        + pool.align + pool.headroom + pool.seg_len + pool.tailroom) ∧
      ROUNDUP_CACHE_LINE cfg.sizeof_packet_hdr + pool.align + pool.headroom + pool.seg_len
        + pool.tailroom ≤ pool.block_size ∧
      List.Pairwise (fun a b => a < b) (pool.hdrs.map (fun hdr => hdr.index)) ∧
      ∀ hdr ∈ pool.hdrs,
        hdr.index < 2 ^ 32 ∧
        hdr.addr = pool.base_addr + u32 (hdr.index * pool.block_size) ∧
        hdr.addr ≤ hdr.data ∧
        hdr.data ≤ hdr.addr + ROUNDUP_CACHE_LINE cfg.sizeof_packet_hdr ∧
        (params.type = ODP_POOL_PACKET → hdr.addr < hdr.data) ∧
        (∃ offset, hdr.seg_data = hdr.data + offset ∧ pool.headroom ≤ offset ∧
          offset < pool.headroom + pool.align ∧
          hdr.buf_end = hdr.data + offset + pool.seg_len + pool.tailroom) ∧
        hdr.buf_end ≤ hdr.addr + pool.block_size ∧
        (params.type = ODP_POOL_PACKET → page_size ≥ FIRST_HP_SIZE →
          page_of (hdr.addr + pool.block_size - 1) page_size = page_of hdr.addr page_size) := by
  obtain ⟨hc, shmflags, hp⟩ :=
    generic_pool_create_some cfg odp_shm_reserve fuel tbl tbl1 name params hdl h hv
  obtain ⟨sz, pb, p0, shm, page_size, r, hsz, _, _, hfill, _, _, hshm, hpage, hbase, hloop,
    hentry, _⟩ := pool_create_slot cfg odp_shm_reserve fuel tbl tbl1 name params shmflags hdl
      hwf hp hv
  obtain ⟨_, _, hparams, _, _, halign, hhead, hseg, htail, hbs, _⟩ := hfill
  obtain ⟨hal, _, hhdr, hbsz, hbuf, htmo, hpkt, hunk⟩ := pool_create_sizes_spec cfg params sz hsz
  obtain ⟨hamin, hamax⟩ := pool_create_align_bounds cfg params sz.align hal
  obtain ⟨hmin0, hbufoff, hpkt0, hpktoff, hsum⟩ := hcfg
  obtain ⟨hr1, hr2, _⟩ := roundup_cache_line_bounds cfg.sizeof_packet_hdr (by omega)
  have hbounds : sz.headroom ≤ cfg.CONFIG_PACKET_HEADROOM ∧
      sz.tailroom ≤ cfg.CONFIG_PACKET_TAILROOM ∧
      sz.seg_len ≤ cfg.CONFIG_PACKET_MAX_SEG_LEN + MAX_SIZE := by
    cases ht : params.type with
    | ODP_POOL_BUFFER =>
      obtain ⟨_, h2, h3, h4, _⟩ := hbuf ht
      have := check_params_buf_size cfg params hc ht
      omega
    | ODP_POOL_TIMEOUT =>
      obtain ⟨_, h2, h3, h4, _⟩ := htmo ht
      omega
    | ODP_POOL_PACKET =>
      obtain ⟨_, _, h2, h3, h4, _⟩ := hpkt ht
      omega
    | unknown => exact absurd ht hunk
  obtain ⟨hb1, hb2, hb3⟩ := hbounds
  have hS : u32 (sz.hdr_size + sz.align + sz.headroom + sz.seg_len + sz.tailroom)
      = sz.hdr_size + sz.align + sz.headroom + sz.seg_len + sz.tailroom :=
    Nat.mod_eq_of_lt (by omega)
  rw [hS] at hbsz
  obtain ⟨hs1, hs2, _⟩ := roundup_cache_line_bounds
    (sz.hdr_size + sz.align + sz.headroom + sz.seg_len + sz.tailroom) (by omega)
  rw [← hbsz] at hs1 hs2
  have ha0 : 0 < p0.align := by omega
  have htype : pool_type p0 = params.type := by
    unfold pool_type
    rw [hparams]
  obtain ⟨hord, hidx, _, _⟩ := init_buffers_loop_order cfg p0 page_size fuel 0 0 ring_init r hloop
  refine ⟨{ p0 with hdrs := r.1, ring := some r.2.1 }, shm, page_size, hentry, hparams, hshm,
    hpage, hbase, ha0, ?_, ?_, ?_, hord, ?_⟩
  · show p0.block_size ≤ 2 ^ 31
    omega
  · show p0.block_size = ROUNDUP_CACHE_LINE (ROUNDUP_CACHE_LINE cfg.sizeof_packet_hdr
        + p0.align + p0.headroom + p0.seg_len + p0.tailroom)
    rw [hbs, hbsz, hhdr, halign, hhead, hseg, htail]
  · show ROUNDUP_CACHE_LINE cfg.sizeof_packet_hdr + p0.align + p0.headroom + p0.seg_len
        + p0.tailroom ≤ p0.block_size
    omega
  · dsimp only
    intro hdr hmem
    have hmem1 : hdr ∈ r.1 := hmem
    obtain ⟨haddr, hdata, ⟨offset, hoff, hsd, hend⟩, _, _, _, _, hpg⟩ :=
      init_buffers_loop_hdrs cfg p0 page_size fuel 0 0 ring_init r hloop hdr hmem1
    obtain ⟨offset1, ho1, hlo, hhi, _, _⟩ :=
      align_offset_loop_spec hdr.data p0.align p0.headroom ha0 (by omega)
    have heq : offset = offset1 := by
      rw [hoff] at ho1
      exact Option.some.inj ho1
    subst heq
    have hu : u32 (offset + p0.seg_len + p0.tailroom) = offset + p0.seg_len + p0.tailroom :=
      Nat.mod_eq_of_lt (by omega)
    rw [hu] at hend
    rw [htype] at hdata hpg
    refine ⟨(hidx hdr hmem1).2, haddr, ?_, ?_, ?_, ⟨offset, hsd, hlo, hhi, by rw [hend]; omega⟩, ?_, hpg⟩
    · rw [hdata]; exact Nat.le_add_right _ _
    · rw [hdata]
      split <;> omega
    · intro ht
      rw [hdata, if_pos ht]
      omega
    · have : hdr.data ≤ hdr.addr + sz.hdr_size := by
        rw [hdata]
        split <;> omega
      omega

/-- C27. For every pool that `generic_pool_create` (the caller of `pool_create`,
after `check_params`) returns, under the assumptions on the configuration
constants, at any address of the pool memory: the block size is
`ROUNDUP_CACHE_LINE (hdr_size + align + headroom + seg_len + tailroom)` with
`hdr_size` the rounded header size, and for every buffer initialised, with
`offset` the aligned offset in `[headroom, headroom + align)`,
`buf_end = data + offset + seg_len + tailroom` lies at or before the end of the
block, `addr + block_size`, and `data` at or after its start. The buffers of two
consecutive blocks do not overlap, and a buffer ends before the block of every
later buffer whose 32-bit block offset did not wrap. -/
theorem generic_pool_create_buffers_within_block (cfg : pool_config_t)
    (odp_shm_reserve : shm_name_t → Nat → Nat → Nat → Option shm_block_t) (fuel : Nat)
    (tbl tbl1 : pool_table_t) (name : Option (List Char)) (params : odp_pool_param_t)
    (hdl : odp_pool_t) (hcfg : pool_config_ok cfg) (hwf : pool_handles_ok tbl)
    (h : generic_pool_create cfg odp_shm_reserve fuel tbl name (some params) = some (hdl, tbl1))
    (hv : hdl ≠ ODP_POOL_INVALID) :
    ∃ pool, pool_entry_from_hdl tbl1 hdl = some pool ∧
      pool.block_size = ROUNDUP_CACHE_LINE (ROUNDUP_CACHE_LINE cfg.sizeof_packet_hdr
        + pool.align + pool.headroom + pool.seg_len + pool.tailroom) ∧
      (∀ hdr ∈ pool.hdrs,
        (∃ offset, hdr.seg_data = hdr.data + offset ∧ pool.headroom ≤ offset ∧
          offset < pool.headroom + pool.align ∧
          hdr.buf_end = hdr.data + offset + pool.seg_len + pool.tailroom) ∧
        hdr.addr ≤ hdr.data ∧
        hdr.buf_end ≤ hdr.addr + pool.block_size) ∧
      (∀ hdr ∈ pool.hdrs, ∀ hdr1 ∈ pool.hdrs, hdr1.index = hdr.index + 1 →
        hdr.buf_end ≤ hdr1.addr ∨ hdr1.buf_end ≤ hdr.addr) ∧
      (∀ hdr ∈ pool.hdrs, ∀ hdr1 ∈ pool.hdrs, hdr.index < hdr1.index →
        hdr1.index * pool.block_size < 2 ^ 32 → hdr.buf_end ≤ hdr1.addr) := by
  obtain ⟨pool, shm, page_size, hentry, _, _, _, _, _, hbs31, hbs, _, _, hall⟩ :=
    generic_pool_create_layout cfg odp_shm_reserve fuel tbl tbl1 name params hdl hcfg hwf h hv
  refine ⟨pool, hentry, hbs, ?_, ?_, ?_⟩
  · intro hdr hmem
    obtain ⟨_, _, h3, _, _, h6, h7, _⟩ := hall hdr hmem
    exact ⟨h6, h3, h7⟩
  · intro hdr hmem hdr1 hmem1 hidx
    obtain ⟨_, ha, h3, _, _, _, h7, _⟩ := hall hdr hmem
    obtain ⟨_, ha1, h31, _, _, _, h71, _⟩ := hall hdr1 hmem1
    rw [hidx, Nat.succ_mul] at ha1
    generalize hdr.index * pool.block_size = m at ha ha1
    unfold u32 at ha ha1
    omega
  · intro hdr hmem hdr1 hmem1 hidx hnw
    obtain ⟨_, ha, h3, _, _, _, h7, _⟩ := hall hdr hmem
    obtain ⟨_, ha1, h31, _, _, _, h71, _⟩ := hall hdr1 hmem1
    have hmul : (hdr.index + 1) * pool.block_size ≤ hdr1.index * pool.block_size :=
      Nat.mul_le_mul_right _ hidx
    rw [Nat.succ_mul] at hmul
    generalize hdr.index * pool.block_size = m at ha hmul
    generalize hdr1.index * pool.block_size = m1 at ha1 hmul hnw
    unfold u32 at ha ha1
    omega

/-- C27 at a packet pool of two packets on a fresh table: blocks of 2496 bytes,
the buffers end 2432 bytes after the start of their blocks. -/
theorem generic_pool_create_buffers_within_block_witness :
    ∃ tbl1,
      generic_pool_create sample_pool_config (sample_shm_reserve 4096) 8
          (generic_pool_init_global 1 1) (some ['p']) (some (packet_params 2 0))
        = some (1, tbl1) ∧
      (pool_entry_from_hdl tbl1 1).map
          (fun pool => (pool.block_size, pool.hdrs.map (fun hdr => (hdr.addr, hdr.buf_end))))
        = some (2496, [(2 ^ 30, 2 ^ 30 + 2432), (2 ^ 30 + 2496, 2 ^ 30 + 2496 + 2432)]) ∧
      ∃ pool, pool_entry_from_hdl tbl1 1 = some pool ∧
        pool.block_size = ROUNDUP_CACHE_LINE
          (ROUNDUP_CACHE_LINE sample_pool_config.sizeof_packet_hdr
            + pool.align + pool.headroom + pool.seg_len + pool.tailroom) ∧
        (∀ hdr ∈ pool.hdrs,
          (∃ offset, hdr.seg_data = hdr.data + offset ∧ pool.headroom ≤ offset ∧
            offset < pool.headroom + pool.align ∧
            hdr.buf_end = hdr.data + offset + pool.seg_len + pool.tailroom) ∧
          hdr.addr ≤ hdr.data ∧
          hdr.buf_end ≤ hdr.addr + pool.block_size) ∧
        (∀ hdr ∈ pool.hdrs, ∀ hdr1 ∈ pool.hdrs, hdr1.index = hdr.index + 1 →
          hdr.buf_end ≤ hdr1.addr ∨ hdr1.buf_end ≤ hdr.addr) ∧
        (∀ hdr ∈ pool.hdrs, ∀ hdr1 ∈ pool.hdrs, hdr.index < hdr1.index →
          hdr1.index * pool.block_size < 2 ^ 32 → hdr.buf_end ≤ hdr1.addr) :=
  ⟨_, rfl, rfl,
    generic_pool_create_buffers_within_block sample_pool_config (sample_shm_reserve 4096) 8
      (generic_pool_init_global 1 1) _ (some ['p']) (packet_params 2 0) 1
      ⟨by decide, by decide, by decide, by decide, by decide⟩
      (generic_pool_init_global_ok 1 1) rfl (by decide)⟩

/-! ## Buffers within one page -/

/-- The loop of `init_buffers` puts on the ring only indices of headers it
initialised. -/
theorem init_buffers_loop_ring (cfg : pool_config_t) (pool : pool_t) (page_size : Nat)
    (fuel : Nat) :
    ∀ (i skipped_blocks : Nat) (ring : ring_t)
      (r : List odp_buffer_hdr_t × ring_t × Nat),
      init_buffers_loop cfg pool page_size fuel i skipped_blocks ring = some r →
      ∀ x ∈ r.2.1.data, x ∈ ring.data ∨ ∃ hdr ∈ r.1, hdr.index = x := by
  induction fuel with
  | zero =>
    intro i s ring r h
    simp only [init_buffers_loop] at h
    cases h
  | succ fuel ih =>
    intro i s ring r h
    unfold init_buffers_loop at h
    split at h
    · simp only [Option.some.injEq] at h
      subst h
      intro x hx
      exact Or.inl hx
    · simp only at h
      split at h
      · exact ih _ _ _ r h
      · split at h
        · cases h
        · split at h
          · cases h
          · rename_i r1 hrec
            simp only [Option.some.injEq] at h
            subst h
            intro x hx
            rcases ih _ _ _ r1 hrec x hx with hin | ⟨hdr, hm, he⟩
            · unfold ring_enq at hin
              split at hin
              · simp only [List.mem_append, List.mem_singleton] at hin
                rcases hin with hin | hin
                · exact Or.inl hin
                · exact Or.inr ⟨_, List.mem_cons_self _ _, hin.symm⟩
              · exact Or.inl hin
            · exact Or.inr ⟨hdr, List.mem_cons_of_mem _ hm, he⟩

/-- The page of a 64-bit address on pages of `2 ^ k` bytes is the address
rounded down to a multiple of `2 ^ k`. -/
theorem page_of_two_pow (x k : Nat) (hx : x < 2 ^ 64) (hk : k ≤ 64) :
    page_of x (2 ^ k) = 2 ^ k * (x / 2 ^ k) := by
  unfold page_of bits_not64
  apply Nat.eq_of_testBit_eq
  intro i
  rw [Nat.testBit_and, Nat.testBit_xor, Nat.testBit_two_pow_sub_one,
    Nat.testBit_two_pow_sub_one, Nat.testBit_mul_pow_two, ← Nat.shiftRight_eq_div_pow,
    Nat.testBit_shiftRight]
  by_cases h1 : i < k
  · have h2 : i < 64 := by omega
    simp [h1, h2]
  · by_cases h2 : i < 64
    · have h3 : k + (i - k) = i := by omega
      simp [h1, h2, h3, Nat.not_lt.mp h1]
    · have h3 : k + (i - k) = i := by omega
      have h4 : x.testBit i = false :=
        Nat.testBit_lt_two_pow (Nat.lt_of_lt_of_le hx
          (Nat.pow_le_pow_right (by decide) (Nat.not_lt.mp h2)))
      simp [h1, h2, h3, h4]

/-- Addresses between two addresses of one page lie on that page. -/
theorem page_of_between (k a b y z : Nat) (hk : k ≤ 64) (hb : b < 2 ^ 64)
    (hay : a ≤ y) (hyb : y ≤ b) (haz : a ≤ z) (hzb : z ≤ b)
    (hab : page_of b (2 ^ k) = page_of a (2 ^ k)) :
    page_of y (2 ^ k) = page_of z (2 ^ k) := by
  rw [page_of_two_pow b k hb hk, page_of_two_pow a k (by omega) hk] at hab
  rw [page_of_two_pow y k (by omega) hk, page_of_two_pow z k (by omega) hk]
  have hpos : 0 < 2 ^ k := Nat.two_pow_pos k
  have hdiv : b / 2 ^ k = a / 2 ^ k := Nat.eq_of_mul_eq_mul_left hpos hab
  have h1 : a / 2 ^ k ≤ y / 2 ^ k := Nat.div_le_div_right hay
  have h2 : y / 2 ^ k ≤ b / 2 ^ k := Nat.div_le_div_right hyb
  have h3 : a / 2 ^ k ≤ z / 2 ^ k := Nat.div_le_div_right haz
  have h4 : z / 2 ^ k ≤ b / 2 ^ k := Nat.div_le_div_right hzb
  have h5 : y / 2 ^ k = z / 2 ^ k := by omega
  rw [h5]

/-- C22. In a packet pool that `generic_pool_create` returns, whose memory is
backed by pages of `2 ^ k` bytes, at least `FIRST_HP_SIZE` (2 MiB), within the
64-bit address space: for every buffer that `init_buffers` initialised, the
block `[addr, addr + block_size)` lies on one page and so does the data region,
`page_of seg_data = page_of (seg_data + seg_len + tailroom - 1)`; and every index
on the free ring is that of a block that does not straddle a page boundary, so
that straddling blocks were skipped and not enqueued. -/
theorem generic_pool_create_data_on_one_page (cfg : pool_config_t)
    (odp_shm_reserve : shm_name_t → Nat → Nat → Nat → Option shm_block_t) (fuel : Nat)
    (tbl tbl1 : pool_table_t) (name : Option (List Char)) (params : odp_pool_param_t)
    (hdl : odp_pool_t) (pool : pool_t) (shm : shm_block_t) (k : Nat)
    (hcfg : pool_config_ok cfg) (hwf : pool_handles_ok tbl)
    (h : generic_pool_create cfg odp_shm_reserve fuel tbl name (some params) = some (hdl, tbl1))
    (hv : hdl ≠ ODP_POOL_INVALID) (htype : params.type = ODP_POOL_PACKET)
    (hentry : pool_entry_from_hdl tbl1 hdl = some pool)
    (hshm : pool.shm = some shm) (hps : shm.page_size = some (2 ^ k)) (hk : k < 64)
    (hhp : FIRST_HP_SIZE ≤ 2 ^ k)
    (hmem : shm.addr + 2 ^ 32 + pool.block_size ≤ 2 ^ 64) :
    (∀ hdr ∈ pool.hdrs,
      page_of (hdr.addr + pool.block_size - 1) (2 ^ k) = page_of hdr.addr (2 ^ k) ∧
      page_of hdr.seg_data (2 ^ k)
        = page_of (hdr.seg_data + pool.seg_len + pool.tailroom - 1) (2 ^ k)) ∧
    ∃ ring, pool.ring = some ring ∧
      ∀ x ∈ ring.data,
        page_of (pool.base_addr + u32 (x * pool.block_size) + pool.block_size - 1) (2 ^ k)
          = page_of (pool.base_addr + u32 (x * pool.block_size)) (2 ^ k) := by
  obtain ⟨pool1, shm1, page_size, hentry1, _, hshm1, hpage, hbase, _, _, _, hsum, _, hall⟩ :=
    generic_pool_create_layout cfg odp_shm_reserve fuel tbl tbl1 name params hdl hcfg hwf h hv
  have hpe : pool1 = pool := Option.some.inj (hentry1.symm.trans hentry)
  subst hpe
  have hse : shm1 = shm := Option.some.inj (hshm1.symm.trans hshm)
  subst hse
  have hpe : page_size = 2 ^ k := Option.some.inj (hpage.symm.trans hps)
  subst hpe
  have hblock : ∀ hdr ∈ pool1.hdrs,
      page_of (hdr.addr + pool1.block_size - 1) (2 ^ k) = page_of hdr.addr (2 ^ k) :=
    fun hdr hm => (hall hdr hm).2.2.2.2.2.2.2 htype hhp
  refine ⟨fun hdr hm => ⟨hblock hdr hm, ?_⟩, ?_⟩
  · obtain ⟨_, haddr, h3, h4, h5, ⟨offset, hsd, hlo, hhi, hend⟩, h7, _⟩ := hall hdr hm
    have h5 := h5 htype
    have hu : u32 (hdr.index * pool1.block_size) < 2 ^ 32 := Nat.mod_lt _ (by decide)
    exact page_of_between k hdr.addr (hdr.addr + pool1.block_size - 1) _ _ (Nat.le_of_lt hk)
      (by omega) (by omega) (by omega) (by omega) (by omega) (hblock hdr hm)
  · obtain ⟨_, shmflags, hp⟩ :=
      generic_pool_create_some cfg odp_shm_reserve fuel tbl tbl1 name params hdl h hv
    obtain ⟨sz, pb, p0, shm2, page_size2, r, _, _, _, _, _, _, _, _, _, hloop, hentry2, _⟩ :=
      pool_create_slot cfg odp_shm_reserve fuel tbl tbl1 name params shmflags hdl hwf hp hv
    have hpe : pool1 = { p0 with hdrs := r.1, ring := some r.2.1 } :=
      Option.some.inj (hentry.symm.trans hentry2)
    refine ⟨r.2.1, by rw [hpe], ?_⟩
    intro x hx
    rcases init_buffers_loop_ring cfg p0 page_size2 fuel 0 0 ring_init r hloop x hx with
      hin | ⟨hdr, hm, he⟩
    · cases hin
    · have hm1 : hdr ∈ pool1.hdrs := by rw [hpe]; exact hm
      have hb := hblock hdr hm1
      rw [(hall hdr hm1).2.1, he] at hb
      exact hb

/-- C22 at a packet pool of two packets on pages of 2 MiB whose memory starts
4096 bytes before a page boundary: block 1 would cross the boundary and is
skipped, blocks 0 and 2 are initialised and enqueued. -/
theorem generic_pool_create_data_on_one_page_witness :
    generic_pool_create sample_pool_config (offset_shm_reserve (2 ^ 30 + 2 ^ 21 - 4096) (2 ^ 21))
        8 (generic_pool_init_global 1 1) (some ['p']) (some (packet_params 2 0))
      = some (1, straddle_table) ∧
    pool_entry_from_hdl straddle_table 1 = some straddle_pool ∧
    straddle_pool.hdrs.map (fun hdr => hdr.index) = [0, 2] ∧
    straddle_pool.ring = some { data := [0, 2] } ∧
    ((∀ hdr ∈ straddle_pool.hdrs,
      page_of (hdr.addr + straddle_pool.block_size - 1) (2 ^ 21) = page_of hdr.addr (2 ^ 21) ∧
      page_of hdr.seg_data (2 ^ 21)
        = page_of (hdr.seg_data + straddle_pool.seg_len + straddle_pool.tailroom - 1)
            (2 ^ 21)) ∧
    ∃ ring, straddle_pool.ring = some ring ∧
      ∀ x ∈ ring.data,
        page_of (straddle_pool.base_addr + u32 (x * straddle_pool.block_size)
            + straddle_pool.block_size - 1) (2 ^ 21)
          = page_of (straddle_pool.base_addr + u32 (x * straddle_pool.block_size)) (2 ^ 21)) :=
  ⟨rfl, rfl, rfl, rfl,
    generic_pool_create_data_on_one_page sample_pool_config
      (offset_shm_reserve (2 ^ 30 + 2 ^ 21 - 4096) (2 ^ 21)) 8
      (generic_pool_init_global 1 1) straddle_table (some ['p']) (packet_params 2 0) 1
      straddle_pool { addr := 2 ^ 30 + 2 ^ 21 - 4096, page_size := some (2 ^ 21) } 21
      ⟨by decide, by decide, by decide, by decide, by decide⟩
      (generic_pool_init_global_ok 1 1) (by rfl) (by decide) (by rfl) (by rfl) (by rfl)
      (by rfl) (by decide) (by decide) (by decide)⟩

/-! ## What init_buffers enqueues -/

set_option maxRecDepth 1000000 in
/-- C25, the divergence. A packet pool of 513 packets with user areas of 8 MiB
passes `check_params` and is created, with 513 buffers initialised. The claim
puts the user area of buffer 512 at offset `512 * 2 ^ 23`, apart from that of
buffer 0 and within a region of `513 * 2 ^ 23` bytes; in the code both products
are 32-bit: the region reserved is 8 MiB, and the buffers of indices 0 and 512
get the same user area address, the slot offset `512 * 2 ^ 23` being `2 ^ 32`. -/
theorem pool_create_uarea_wraps :
    ((generic_pool_create sample_pool_config (sample_shm_reserve 4096) 600
        (generic_pool_init_global 1 1) (some ['p']) (some (packet_params 513 (2 ^ 23)))).bind
      (fun r => (pool_entry_from_hdl r.2 r.1).map
        (fun pool => (r.1, pool.num, pool.uarea_size, pool.uarea_shm_size, pool.hdrs.length,
          (pool.hdrs[0]?).map (fun hdr => (hdr.index, hdr.uarea_addr)),
          (pool.hdrs[512]?).map (fun hdr => (hdr.index, hdr.uarea_addr))))))
      = some (1, 513, 2 ^ 23, 2 ^ 23, 513,
          some (0, some (2 ^ 31)), some (512, some (2 ^ 31))) := by
  rfl

/-- The loop of `init_buffers` reads neither the headers nor the ring pointer of
the pool. -/
theorem init_buffers_loop_congr (cfg : pool_config_t) (p0 : pool_t)
    (hdrs : List odp_buffer_hdr_t) (ring0 : Option ring_t) (page_size : Nat) (fuel : Nat) :
    ∀ (i skipped_blocks : Nat) (ring : ring_t),
      init_buffers_loop cfg { p0 with hdrs := hdrs, ring := ring0 } page_size fuel i
          skipped_blocks ring
        = init_buffers_loop cfg p0 page_size fuel i skipped_blocks ring := by
  induction fuel with
  | zero => intro i s ring; rfl
  | succ fuel ih =>
    intro i s ring
    unfold init_buffers_loop
    simp only [ih, pool_type]

/-- Without page-crossing test (not a packet pool, or pages below
`FIRST_HP_SIZE`) the loop of `init_buffers` skips no block. -/
theorem init_buffers_loop_noskip (cfg : pool_config_t) (pool : pool_t) (page_size : Nat)
    (hnoskip : pool_type pool ≠ ODP_POOL_PACKET ∨ page_size < FIRST_HP_SIZE) (fuel : Nat) :
    ∀ (i skipped_blocks : Nat) (ring : ring_t)
      (r : List odp_buffer_hdr_t × ring_t × Nat),
      init_buffers_loop cfg pool page_size fuel i skipped_blocks ring = some r →
      r.2.2 = skipped_blocks := by
  induction fuel with
  | zero =>
    intro i s ring r h
    simp only [init_buffers_loop] at h
    cases h
  | succ fuel ih =>
    intro i s ring r h
    unfold init_buffers_loop at h
    split at h
    · simp only [Option.some.injEq] at h
      subst h
      rfl
    · simp only at h
      split at h
      · rename_i hskip
        rcases hnoskip with hn | hn
        · exact absurd hskip.1 hn
        · have := hskip.2.1
          omega
      · split at h
        · cases h
        · split at h
          · cases h
          · rename_i r1 hrec
            simp only [Option.some.injEq] at h
            subst h
            exact ih _ _ _ r1 hrec

/-- What a successful `pool_create` leaves in the slot, with `skipped` the
number of blocks that the loop of `init_buffers` skipped (none unless the pool
is a packet pool on pages of at least `FIRST_HP_SIZE`): the headers and the ring
of the pool are the result of that loop, the caches are as they were before the
call, the indices of the buffers initialised are strictly increasing, the free
ring holds only such indices, and exactly them in that order when the ring has
room for them. When `num + skipped` stays below `2 ^ 32`, exactly `num` buffers
are initialised (and enqueued, when `num ≤ ring_mask + 1`), and the `k`-th of
them gets the user area at the 32-bit offset `k * uarea_size`; when
`num * uarea_size` stays below `2 ^ 32` no product wraps: that offset is
`k * uarea_size` itself and the slot lies within the first `num * uarea_size`
bytes. -/
theorem pool_create_enqueues_num (cfg : pool_config_t)
    (odp_shm_reserve : shm_name_t → Nat → Nat → Nat → Option shm_block_t) (fuel : Nat)
    (tbl tbl1 : pool_table_t) (name : Option (List Char)) (params : odp_pool_param_t)
    (shmflags : Nat) (hdl : odp_pool_t) (hwf : pool_handles_ok tbl)
    (h : pool_create cfg odp_shm_reserve fuel tbl name (some params) shmflags
      = some (hdl, tbl1))
    (hv : hdl ≠ ODP_POOL_INVALID) :
    ∃ pool pb shm page_size ring skipped,
      pool_entry_from_hdl tbl1 hdl = some pool ∧
      tbl.pool[hdl - 1]? = some pb ∧ pool.local_cache = pb.local_cache ∧
      pool.shm = some shm ∧ shm.page_size = some page_size ∧ pool.ring = some ring ∧
      init_buffers_loop cfg pool page_size fuel 0 0 ring_init
        = some (pool.hdrs, ring, skipped) ∧
      (params.type ≠ ODP_POOL_PACKET ∨ page_size < FIRST_HP_SIZE → skipped = 0) ∧
      List.Pairwise (fun a b => a < b) (pool.hdrs.map (fun hdr => hdr.index)) ∧
      (∀ x ∈ ring.data, ∃ hdr ∈ pool.hdrs, hdr.index = x) ∧
      (pool.hdrs.length ≤ pool.ring_mask + 1 →
        ring.data = pool.hdrs.map (fun hdr => hdr.index)) ∧
      (pool.num + skipped < 2 ^ 32 →
        pool.hdrs.length = pool.num ∧
        (pool.num ≤ pool.ring_mask + 1 → ring.data.length = pool.num) ∧
        (∀ k hdr, pool.hdrs[k]? = some hdr →
          hdr.uarea_addr
            = if pool.uarea_size ≠ 0 then
                some (pool.uarea_base_addr + u32 (k * pool.uarea_size))
              else none) ∧
        (pool.num * pool.uarea_size < 2 ^ 32 → pool.uarea_size ≠ 0 →
          ∀ k hdr, pool.hdrs[k]? = some hdr →
            hdr.uarea_addr = some (pool.uarea_base_addr + k * pool.uarea_size) ∧
            k * pool.uarea_size + pool.uarea_size ≤ pool.num * pool.uarea_size)) := by
  obtain ⟨sz, pb, p0, shm, page_size, r, _, hpb, _, hfill, hcache, _, hshm, hpage, _, hloop,
    hentry, _⟩ := pool_create_slot cfg odp_shm_reserve fuel tbl tbl1 name params shmflags hdl
      hwf h hv
  obtain ⟨_, _, hparams, _⟩ := hfill
  have htype : pool_type p0 = params.type := by
    unfold pool_type
    rw [hparams]
  obtain ⟨hord, _, _, hring⟩ :=
    init_buffers_loop_order cfg p0 page_size fuel 0 0 ring_init r hloop
  have hsub := init_buffers_loop_ring cfg p0 page_size fuel 0 0 ring_init r hloop
  have hcount := init_buffers_loop_count cfg p0 page_size fuel 0 0 ring_init r hloop
    (Nat.le_refl _) (Nat.zero_le _)
  refine ⟨{ p0 with hdrs := r.1, ring := some r.2.1 }, pb, shm, page_size, r.2.1, r.2.2,
    hentry, hpb, hcache, hshm, hpage, rfl, ?_, ?_, hord, ?_, ?_, ?_⟩
  · rw [init_buffers_loop_congr]
    exact hloop
  · intro hns
    rw [← htype] at hns
    exact init_buffers_loop_noskip cfg p0 page_size hns fuel 0 0 ring_init r hloop
  · intro x hx
    rcases hsub x hx with hin | hex
    · cases hin
    · exact hex
  · intro hroom
    have := hring (by
      show ring_init.data.length + r.1.length ≤ p0.ring_mask + 1
      simpa [ring_init] using hroom)
    simpa [ring_init] using this
  · dsimp only
    intro hnw
    obtain ⟨hlen, hua⟩ := hcount hnw
    have hlen1 : r.1.length = p0.num := by omega
    refine ⟨hlen1, ?_, ?_, ?_⟩
    · intro hroom
      have := hring (by
        show ring_init.data.length + r.1.length ≤ p0.ring_mask + 1
        rw [hlen1]
        simpa [ring_init] using hroom)
      rw [this]
      simp [ring_init, hlen1]
    · intro k hdr hk
      have := hua k hdr hk
      rw [this]
      simp
    · intro hprod hne k hdr hk
      have hklt : k < r.1.length := by
        by_contra hge
        rw [List.getElem?_eq_none (Nat.not_lt.mp hge)] at hk
        cases hk
      have hmul : (k + 1) * p0.uarea_size ≤ p0.num * p0.uarea_size :=
        Nat.mul_le_mul_right _ (by omega)
      rw [Nat.succ_mul] at hmul
      have hu : u32 (k * p0.uarea_size) = k * p0.uarea_size :=
        Nat.mod_eq_of_lt (by omega)
      have := hua k hdr hk
      rw [if_pos hne] at this
      simp only [Nat.sub_zero, Nat.zero_add] at this
      rw [hu] at this
      exact ⟨this, hmul⟩

/-- A packet pool of three packets with user areas of 128 bytes on a fresh
table: the indices 0, 1, 2 are enqueued and the user areas lie at offsets 0, 128
and 256. -/
theorem pool_create_enqueues_num_witness :
    ∃ tbl1,
      pool_create sample_pool_config (sample_shm_reserve 4096) 8
          (generic_pool_init_global 1 1) (some ['p']) (some (packet_params 3 128)) 0
        = some (1, tbl1) ∧
      (pool_entry_from_hdl tbl1 1).map
          (fun pool => (pool.ring, pool.hdrs.map (fun hdr => (hdr.index, hdr.uarea_addr))))
        = some (some { data := [0, 1, 2] },
            [(0, some (2 ^ 31)), (1, some (2 ^ 31 + 128)), (2, some (2 ^ 31 + 256))]) ∧
      ∃ pool pb shm page_size ring skipped,
        pool_entry_from_hdl tbl1 1 = some pool ∧
        (generic_pool_init_global 1 1).pool[1 - 1]? = some pb ∧
        pool.local_cache = pb.local_cache ∧
        pool.shm = some shm ∧ shm.page_size = some page_size ∧ pool.ring = some ring ∧
        init_buffers_loop sample_pool_config pool page_size 8 0 0 ring_init
          = some (pool.hdrs, ring, skipped) ∧
        ((packet_params 3 128).type ≠ ODP_POOL_PACKET ∨ page_size < FIRST_HP_SIZE →
          skipped = 0) ∧
        List.Pairwise (fun a b => a < b) (pool.hdrs.map (fun hdr => hdr.index)) ∧
        (∀ x ∈ ring.data, ∃ hdr ∈ pool.hdrs, hdr.index = x) ∧
        (pool.hdrs.length ≤ pool.ring_mask + 1 →
          ring.data = pool.hdrs.map (fun hdr => hdr.index)) ∧
        (pool.num + skipped < 2 ^ 32 →
          pool.hdrs.length = pool.num ∧
          (pool.num ≤ pool.ring_mask + 1 → ring.data.length = pool.num) ∧
          (∀ k hdr, pool.hdrs[k]? = some hdr →
            hdr.uarea_addr
              = if pool.uarea_size ≠ 0 then
                  some (pool.uarea_base_addr + u32 (k * pool.uarea_size))
                else none) ∧
          (pool.num * pool.uarea_size < 2 ^ 32 → pool.uarea_size ≠ 0 →
            ∀ k hdr, pool.hdrs[k]? = some hdr →
              hdr.uarea_addr = some (pool.uarea_base_addr + k * pool.uarea_size) ∧
              k * pool.uarea_size + pool.uarea_size ≤ pool.num * pool.uarea_size)) :=
  ⟨_, rfl, rfl,
    pool_create_enqueues_num sample_pool_config (sample_shm_reserve 4096) 8
      (generic_pool_init_global 1 1) _ (some ['p']) (packet_params 3 128) 0 1
      (generic_pool_init_global_ok 1 1) rfl (by decide)⟩
